import Mathlib

/-!
# Bank.js and Restaurant.js: a shallow embedding

The two scripts are modelled as pure functions over explicit state.

* JavaScript numbers are taken as exact rationals (`ℚ`) in the first definitions:
  finite values, exact arithmetic. The constructor and the balance operations of
  Bank.js are then given a second time over all JavaScript numbers (`Bank.Wide`):
  the finite doubles, `NaN` and the two infinities, with the rounding of the
  arithmetic as a parameter. On finite numbers in exact arithmetic the two agree
  (`Bank.Wide.runCalls_finite`).
* A thrown exception is modelled by its kind (the `name` the error class sets).
* A method that can throw after it has already written to an object returns the
  object store it leaves behind together with the error, so that a partial
  mutation would be visible.
* The `timestamp` field of a transaction and the creation time of an order
  (wall-clock time) are not modelled.
* Dish objects are held by reference: menus and orders share them through a store.
* `String.prototype.toLowerCase` is a parameter of the restaurant definitions.
-/

set_option autoImplicit false

/-! ## Bank.js -/

namespace Bank

/-- Kinds of exception thrown in Bank.js. `Error` is the plain `Error` thrown by the
abstract-class guard, the others are the four error classes declared at the top of
the file. -/
inductive BankError
  | InsufficientFundsError
  | InvalidTransactionError
  | AuthorizationError
  | ValidationError
  | Error
  deriving DecidableEq

/-- The JavaScript values that reach the constructors and `transferFunds`: enough to
decide `typeof`, `Array.isArray`, `.length` and `instanceof BankAccount`.
`account r` is a reference to the account object stored at `r`. -/
inductive JSValue
  | undefined
  | null
  | number (q : ℚ)
  | string (s : String)
  | array (items : List String)
  | account (ref : Nat)
  deriving DecidableEq

/-- The `length` of a JavaScript string: the number of UTF-16 code units. -/
def utf16Length (s : String) : Nat :=
  s.data.foldl (fun n c => n + (if c.val < 0x10000 then 1 else 2)) 0

/-- The class named by `new.target` when the base constructor runs. -/
inductive AccountClass
  | BankAccount
  | IndividualAccount
  | JointAccount
  deriving DecidableEq

/-- `class Transaction` (Bank.js 234-246), without the timestamp. -/
structure Transaction where
  accountNumber : String
  amount : ℚ
  transactionType : String
  fromAccount : Option String
  toAccount : Option String
  deriving DecidableEq

/-- `Transaction.constructor`: throws `ValidationError` unless
`typeof amount === "number" && amount > 0` (the `typeof` part holds by typing). -/
def Transaction.new (accountNumber : String) (amount : ℚ) (transactionType : String)
    (fromAccount toAccount : Option String) : Except BankError Transaction :=
  if ¬ (0 < amount) then
    .error .ValidationError
  else
    .ok { accountNumber := accountNumber, amount := amount,
          transactionType := transactionType,
          fromAccount := fromAccount, toAccount := toAccount }

/-- The fields of a `BankAccount` object: the public `accountNumber` and the private
`#balance` and `#transactions`. -/
structure BankAccount where
  accountNumber : String
  balance : ℚ
  transactions : List Transaction
  deriving DecidableEq

/-- `BankAccount.validateAccountNumber` (Bank.js 141-145). -/
def validateAccountNumber (accountNumber : JSValue) : Except BankError Unit :=
  match accountNumber with
  | .string s => if utf16Length s < 10 then .error .ValidationError else .ok ()
  | _ => .error .ValidationError

/-- `BankAccount.validateAccountType` (Bank.js 147-151). -/
def validateAccountType (individual joint : JSValue) : Except BankError Unit :=
  match individual, joint with
  | .string _, .string _ => .ok ()
  | _, _ => .error .ValidationError

/-- A parameter with a default value: the default is taken when the argument is
`undefined`. -/
def withDefault (arg dflt : JSValue) : JSValue :=
  if arg = .undefined then dflt else arg

/-- `BankAccount.constructor(accountNumber, initialBalance = 0)` (Bank.js 33-47). -/
def BankAccount.new (newTarget : AccountClass) (accountNumber initialBalance : JSValue) :
    Except BankError BankAccount :=
  if newTarget = .BankAccount then
    .error .Error
  else
    match validateAccountNumber accountNumber with
    | .error e => .error e
    | .ok () =>
      match accountNumber, withDefault initialBalance (.number 0) with
      | .string s, .number b =>
        if b < 0 then .error .ValidationError
        else .ok { accountNumber := s, balance := b, transactions := [] }
      | _, _ => .error .ValidationError

/-- `IndividualAccount.constructor(accountNumber, balance)` (Bank.js 155-160). -/
def IndividualAccount.new (accountNumber balance : JSValue) : Except BankError BankAccount :=
  BankAccount.new .IndividualAccount accountNumber balance

/-- `JointAccount.constructor(accountNumber, balance = 0, owners = [])`
(Bank.js 162-168). The source calls `super(accountNumber, "joint", balance)`: the base
constructor has two parameters, so `"joint"` arrives as `initialBalance` and the
third argument is dropped. -/
def JointAccount.new (accountNumber balance owners : JSValue) : Except BankError BankAccount :=
  let _balance := withDefault balance (.number 0)
  let owners := withDefault owners (.array [])
  match BankAccount.new .JointAccount accountNumber (.string "joint") with
  | .error e => .error e
  | .ok acct =>
    match owners with
    | .array (_ :: _) => .ok acct
    | _ => .error .ValidationError

/-- The object store: the account object behind each reference. Every account that
exists is an `IndividualAccount` (the base class is abstract and the `JointAccount`
constructor throws on every input), so the methods that run on it are the ones
`BankAccount` defines. -/
abbrev Heap := Nat → BankAccount

/-- What a method call leaves behind: the store, and the exception if one was thrown. -/
structure Outcome where
  heap : Heap
  error : Option BankError

/-- The assignment `this.#balance = v`. -/
def writeBalance (h : Heap) (self : Nat) (v : ℚ) : Heap :=
  Function.update h self { h self with balance := v }

/-- `#addTransaction(tx)`: `this.#transactions.push(tx)`. -/
def addTransaction (h : Heap) (self : Nat) (tx : Transaction) : Heap :=
  Function.update h self { h self with transactions := (h self).transactions ++ [tx] }

/-- `getBalance()` (Bank.js 106-108). -/
def getBalance (h : Heap) (self : Nat) : ℚ := (h self).balance

/-- The getter `get balance()`. -/
def balanceGet (h : Heap) (self : Nat) : ℚ := (h self).balance

/-- The setter `set balance(amount)` (Bank.js 53-55): stores the value as it comes. -/
def balanceSet (h : Heap) (self : Nat) (amount : ℚ) : Heap :=
  writeBalance h self amount

/-- The getter `get transactions()`: a copy of the list. -/
def transactionsGet (h : Heap) (self : Nat) : List Transaction := (h self).transactions

/-- `deposit(amount)` (Bank.js 67-83), on a finite amount in exact arithmetic
(`Wide.deposit` takes every number). -/
def deposit (h : Heap) (self : Nat) (amount : ℚ) : Outcome :=
  if amount ≤ 0 then
    ⟨h, some .ValidationError⟩
  else
    let h1 := writeBalance h self ((h self).balance + amount)
    match Transaction.new (h1 self).accountNumber amount "DEPOSIT" none
        (some (h1 self).accountNumber) with
    | .error e => ⟨h1, some e⟩
    | .ok tx => ⟨addTransaction h1 self tx, none⟩

/-- `withdraw(amount)` (Bank.js 85-104), on a finite amount in exact arithmetic
(`Wide.withdraw` takes every number). -/
def withdraw (h : Heap) (self : Nat) (amount : ℚ) : Outcome :=
  if amount ≤ 0 then
    ⟨h, some .ValidationError⟩
  else if (h self).balance < amount then
    ⟨h, some .InsufficientFundsError⟩
  else
    let h1 := writeBalance h self ((h self).balance - amount)
    match Transaction.new (h1 self).accountNumber amount "WITHDRAW"
        (some (h1 self).accountNumber) none with
    | .error e => ⟨h1, some e⟩
    | .ok tx => ⟨addTransaction h1 self tx, none⟩

/-- `transferFunds(targetAccount, amount)` (Bank.js 110-139), on a finite amount in
exact arithmetic (`Wide.transferFunds` takes every number). -/
def transferFunds (h : Heap) (self : Nat) (targetAccount : JSValue) (amount : ℚ) : Outcome :=
  match targetAccount with
  | .account target =>
    if amount ≤ 0 then
      ⟨h, some .ValidationError⟩
    else
      let o1 := withdraw h self amount
      match o1.error with
      | some e => ⟨o1.heap, some e⟩
      | none =>
        let o2 := deposit o1.heap target amount
        match o2.error with
        | some e => ⟨o2.heap, some e⟩
        | none =>
          let h2 := o2.heap
          match Transaction.new (h2 self).accountNumber amount "TRANSFER"
              (some (h2 self).accountNumber) (some (h2 target).accountNumber) with
          | .error e => ⟨h2, some e⟩
          | .ok tx =>
            let h3 := addTransaction h2 self tx
            match Transaction.new (h3 target).accountNumber amount "TRANSFER_IN"
                (some (h3 self).accountNumber) (some (h3 target).accountNumber) with
            | .error e => ⟨h3, some e⟩
            | .ok txIn => ⟨addTransaction h3 target txIn, none⟩
  | _ => ⟨h, some .InvalidTransactionError⟩

/-- A call of one of the three balance operations, as a client makes it. -/
inductive Call
  | deposit (self : Nat) (amount : ℚ)
  | withdraw (self : Nat) (amount : ℚ)
  | transferFunds (self : Nat) (targetAccount : JSValue) (amount : ℚ)

/-- The store after one call, whether it returned or threw. -/
def Call.run (h : Heap) : Call → Heap
  | .deposit self amount => (Bank.deposit h self amount).heap
  | .withdraw self amount => (Bank.withdraw h self amount).heap
  | .transferFunds self targetAccount amount =>
    (Bank.transferFunds h self targetAccount amount).heap

/-- The store after a finite sequence of calls, made one after the other. -/
def runCalls (h : Heap) (calls : List Call) : Heap :=
  calls.foldl Call.run h

/-- The public members of an account other than `deposit`, `withdraw` and
`transferFunds`. -/
inductive OtherOp
  | getBalance
  | balanceGet
  | balanceSet (amount : ℚ)
  | transactionsGet
  | validateAccountNumber (accountNumber : JSValue)
  | validateAccountType (individual joint : JSValue)

/-- The store after one of the other public members ran on `self`. Only the setter
writes; the getters and the two validators read, return or throw. -/
def OtherOp.run (h : Heap) (self : Nat) : OtherOp → Heap
  | .getBalance => h
  | .balanceGet => h
  | .balanceSet amount => Bank.balanceSet h self amount
  | .transactionsGet => h
  | .validateAccountNumber _ => h
  | .validateAccountType _ _ => h

/-- The record `deposit` pushes. -/
def depositRecord (acct : BankAccount) (amount : ℚ) : Transaction :=
  ⟨acct.accountNumber, amount, "DEPOSIT", none, some acct.accountNumber⟩

/-- The record `withdraw` pushes. -/
def withdrawRecord (acct : BankAccount) (amount : ℚ) : Transaction :=
  ⟨acct.accountNumber, amount, "WITHDRAW", some acct.accountNumber, none⟩

/-- The record `transferFunds` pushes on the source. -/
def transferOutRecord (src tgt : BankAccount) (amount : ℚ) : Transaction :=
  ⟨src.accountNumber, amount, "TRANSFER", some src.accountNumber, some tgt.accountNumber⟩

/-- The record `transferFunds` pushes on the target. -/
def transferInRecord (src tgt : BankAccount) (amount : ℚ) : Transaction :=
  ⟨tgt.accountNumber, amount, "TRANSFER_IN", some src.accountNumber, some tgt.accountNumber⟩

/-- The four transaction types the source writes. -/
def writtenTypes : List String := ["DEPOSIT", "WITHDRAW", "TRANSFER", "TRANSFER_IN"]

/-- The four transaction types the specification lists. -/
def specTypes : List String := ["DEPOSIT", "WITHDRAW", "TRANSFER_OUT", "TRANSFER_IN"]

/-- The account `user1` of the demo (Bank.js 251), as its constructor leaves it. -/
def user1 : BankAccount :=
  { accountNumber := "145xs6s51s51x5ssx1", balance := 1000, transactions := [] }

/-- The account `user2` of the demo (Bank.js 252), as its constructor leaves it. -/
def user2 : BankAccount :=
  { accountNumber := "AramAccount1234", balance := 300, transactions := [] }

/-- The store of the demo: `user1` at reference 0, `user2` elsewhere. -/
def demoHeap : Heap := fun r => if r = 0 then user1 else user2

/-- The sum of the amounts of the records of one type in a history. -/
def sumOfType (transactionType : String) (transactions : List Transaction) : ℚ :=
  ((transactions.filter (fun tx => tx.transactionType = transactionType)).map
    (fun tx => tx.amount)).sum


/-! ### The balance operations over all JavaScript numbers

The definitions above take an amount as a finite number in exact arithmetic. The
definitions below repeat the constructor and the three balance operations with the
amount and the balance ranging over every JavaScript number: the finite doubles,
`NaN`, `Infinity` and `-Infinity`. The rounding of the arithmetic is a parameter
`fl` of the operations; `roundDouble` is the rounding of the 64-bit doubles and
`JSNumber.finite` is exact arithmetic. The amount is a value of type number. -/

/-- A JavaScript number: a finite double, given by the rational it denotes, `NaN`,
`Infinity` or `-Infinity`. (The sign of zero is not kept: no comparison tells `-0`
from `0`.) -/
inductive JSNumber
  | finite (q : ℚ)
  | nan
  | posInf
  | negInf
  deriving DecidableEq

/-- The comparison `x < y` of JavaScript: false as soon as one side is `NaN`. -/
def JSNumber.lt : JSNumber → JSNumber → Bool
  | .finite a, .finite b => decide (a < b)
  | .finite _, .posInf => true
  | .negInf, .finite _ => true
  | .negInf, .posInf => true
  | _, _ => false

/-- The comparison `x <= y` of JavaScript: false as soon as one side is `NaN`. -/
def JSNumber.le : JSNumber → JSNumber → Bool
  | .finite a, .finite b => decide (a ≤ b)
  | .finite _, .posInf => true
  | .negInf, .finite _ => true
  | .negInf, .posInf => true
  | .posInf, .posInf => true
  | .negInf, .negInf => true
  | _, _ => false

/-- The comparison `x > y` of JavaScript. -/
def JSNumber.gt (x y : JSNumber) : Bool := JSNumber.lt y x

/-- The comparison `x >= y` of JavaScript. -/
def JSNumber.ge (x y : JSNumber) : Bool := JSNumber.le y x

/-- The negation `-x`. -/
def JSNumber.neg : JSNumber → JSNumber
  | .finite q => .finite (-q)
  | .nan => .nan
  | .posInf => .negInf
  | .negInf => .posInf

/-- The sum `x + y` of two numbers. `fl q` is the double the arithmetic returns when
the exact result of an operation on two finite doubles is `q` (it rounds, and
overflows to an infinity); exact arithmetic is `fl = JSNumber.finite`. `NaN`
propagates, and `Infinity + -Infinity` is `NaN`. -/
def JSNumber.add (fl : ℚ → JSNumber) : JSNumber → JSNumber → JSNumber
  | .finite a, .finite b => fl (a + b)
  | .nan, _ => .nan
  | _, .nan => .nan
  | .posInf, .negInf => .nan
  | .negInf, .posInf => .nan
  | .posInf, _ => .posInf
  | .negInf, _ => .negInf
  | .finite _, .posInf => .posInf
  | .finite _, .negInf => .negInf

/-- The difference `x - y`: the sum of `x` and `-y`. -/
def JSNumber.sub (fl : ℚ → JSNumber) (x y : JSNumber) : JSNumber :=
  JSNumber.add fl x (JSNumber.neg y)

/-- The rational a finite number denotes (0 for the others). -/
def JSNumber.toRat : JSNumber → ℚ
  | .finite q => q
  | _ => 0

/-- Whether a number is a finite double. -/
def JSNumber.isFinite : JSNumber → Bool
  | .finite _ => true
  | _ => false

/-- Rounding to the nearest integer, ties to the even one. -/
def roundHalfEven (x : ℚ) : ℤ :=
  if x - ⌊x⌋ < 1 / 2 then ⌊x⌋
  else if 1 / 2 < x - ⌊x⌋ then ⌊x⌋ + 1
  else if ⌊x⌋ % 2 = 0 then ⌊x⌋
  else ⌊x⌋ + 1

/-- The binary exponent at which a double holds `q`: the `e` with
`2 ^ e ≤ |q| < 2 ^ (e + 1)`, and -1022 below the normal range. -/
def binade (q : ℚ) : ℤ := max (Int.log 2 |q|) (-1022)

/-- The number with a 53-bit significand at the exponent of `q` that is nearest to
`q`, ties to even. -/
def nearestDouble (q : ℚ) : ℚ :=
  (roundHalfEven (q / 2 ^ (binade q - 52)) : ℚ) * 2 ^ (binade q - 52)

/-- The arithmetic of the 64-bit doubles of JavaScript: the exact result `q` of an
operation is rounded to the nearest double, ties to even, and a rounded result of
magnitude `2 ^ 1024` or more becomes an infinity. -/
def roundDouble (q : ℚ) : JSNumber :=
  if (2 : ℚ) ^ (1024 : ℕ) ≤ |nearestDouble q| then
    (if 0 < q then .posInf else .negInf)
  else
    .finite (nearestDouble q)

namespace Wide

/-- The values that reach the `initialBalance` parameter of the constructor: enough
to decide `typeof initialBalance !== "number"` and `initialBalance < 0`. -/
inductive Value
  | undefined
  | number (x : JSNumber)
  | other
  deriving DecidableEq

/-- `class Transaction` (Bank.js 234-246), without the timestamp. -/
structure Transaction where
  accountNumber : String
  amount : JSNumber
  transactionType : String
  fromAccount : Option String
  toAccount : Option String
  deriving DecidableEq

/-- `Transaction.constructor`: throws `ValidationError` unless
`typeof amount === "number" && amount > 0` (the `typeof` part holds by typing). -/
def Transaction.new (accountNumber : String) (amount : JSNumber) (transactionType : String)
    (fromAccount toAccount : Option String) : Except BankError Transaction :=
  if ¬ (JSNumber.gt amount (.finite 0) = true) then
    .error .ValidationError
  else
    .ok { accountNumber := accountNumber, amount := amount,
          transactionType := transactionType,
          fromAccount := fromAccount, toAccount := toAccount }

/-- The fields of a `BankAccount` object: the public `accountNumber` and the private
`#balance` and `#transactions`. -/
structure BankAccount where
  accountNumber : String
  balance : JSNumber
  transactions : List Transaction
  deriving DecidableEq

/-- `BankAccount.constructor(accountNumber, initialBalance = 0)` (Bank.js 33-47). -/
def BankAccount.new (newTarget : AccountClass) (accountNumber : JSValue)
    (initialBalance : Value) : Except BankError BankAccount :=
  if newTarget = .BankAccount then
    .error .Error
  else
    match validateAccountNumber accountNumber with
    | .error e => .error e
    | .ok () =>
      match accountNumber, (if initialBalance = .undefined then .number (.finite 0)
          else initialBalance) with
      | .string s, .number b =>
        if JSNumber.lt b (.finite 0) = true then .error .ValidationError
        else .ok { accountNumber := s, balance := b, transactions := [] }
      | _, _ => .error .ValidationError

/-- `IndividualAccount.constructor(accountNumber, balance)` (Bank.js 155-160). -/
def IndividualAccount.new (accountNumber : JSValue) (balance : Value) :
    Except BankError BankAccount :=
  BankAccount.new .IndividualAccount accountNumber balance

/-- The object store: the account object behind each reference. -/
abbrev Heap := Nat → BankAccount

/-- What a method call leaves behind: the store, and the exception if one was thrown. -/
structure Outcome where
  heap : Heap
  error : Option BankError

/-- The assignment `this.#balance = v`. -/
def writeBalance (h : Heap) (self : Nat) (v : JSNumber) : Heap :=
  Function.update h self { h self with balance := v }

/-- `#addTransaction(tx)`: `this.#transactions.push(tx)`. -/
def addTransaction (h : Heap) (self : Nat) (tx : Transaction) : Heap :=
  Function.update h self { h self with transactions := (h self).transactions ++ [tx] }

/-- `getBalance()` (Bank.js 106-108). -/
def getBalance (h : Heap) (self : Nat) : JSNumber := (h self).balance

/-- The getter `get transactions()`: a copy of the list. -/
def transactionsGet (h : Heap) (self : Nat) : List Transaction := (h self).transactions

section
variable (fl : ℚ → JSNumber)

/-- `deposit(amount)` (Bank.js 67-83): the guard `amount <= 0`, then the write
`this.#balance += amount`, then the `Transaction` constructor, which may still
throw, then the push. -/
def deposit (h : Heap) (self : Nat) (amount : JSNumber) : Outcome :=
  if JSNumber.le amount (.finite 0) = true then
    ⟨h, some .ValidationError⟩
  else
    let h1 := writeBalance h self (JSNumber.add fl (h self).balance amount)
    match Transaction.new (h1 self).accountNumber amount "DEPOSIT" none
        (some (h1 self).accountNumber) with
    | .error e => ⟨h1, some e⟩
    | .ok tx => ⟨addTransaction h1 self tx, none⟩

/-- `withdraw(amount)` (Bank.js 85-104): the guards `amount <= 0` and
`this.#balance < amount`, then the write `this.#balance -= amount`, then the
`Transaction` constructor, which may still throw, then the push. -/
def withdraw (h : Heap) (self : Nat) (amount : JSNumber) : Outcome :=
  if JSNumber.le amount (.finite 0) = true then
    ⟨h, some .ValidationError⟩
  else if JSNumber.lt (h self).balance amount = true then
    ⟨h, some .InsufficientFundsError⟩
  else
    let h1 := writeBalance h self (JSNumber.sub fl (h self).balance amount)
    match Transaction.new (h1 self).accountNumber amount "WITHDRAW"
        (some (h1 self).accountNumber) none with
    | .error e => ⟨h1, some e⟩
    | .ok tx => ⟨addTransaction h1 self tx, none⟩

/-- `transferFunds(targetAccount, amount)` (Bank.js 110-139). -/
def transferFunds (h : Heap) (self : Nat) (targetAccount : JSValue) (amount : JSNumber) :
    Outcome :=
  match targetAccount with
  | .account target =>
    if JSNumber.le amount (.finite 0) = true then
      ⟨h, some .ValidationError⟩
    else
      let o1 := withdraw fl h self amount
      match o1.error with
      | some e => ⟨o1.heap, some e⟩
      | none =>
        let o2 := deposit fl o1.heap target amount
        match o2.error with
        | some e => ⟨o2.heap, some e⟩
        | none =>
          let h2 := o2.heap
          match Transaction.new (h2 self).accountNumber amount "TRANSFER"
              (some (h2 self).accountNumber) (some (h2 target).accountNumber) with
          | .error e => ⟨h2, some e⟩
          | .ok tx =>
            let h3 := addTransaction h2 self tx
            match Transaction.new (h3 target).accountNumber amount "TRANSFER_IN"
                (some (h3 self).accountNumber) (some (h3 target).accountNumber) with
            | .error e => ⟨h3, some e⟩
            | .ok txIn => ⟨addTransaction h3 target txIn, none⟩
  | _ => ⟨h, some .InvalidTransactionError⟩

end

/-- A call of one of the three balance operations, as a client makes it. -/
inductive Call
  | deposit (self : Nat) (amount : JSNumber)
  | withdraw (self : Nat) (amount : JSNumber)
  | transferFunds (self : Nat) (targetAccount : JSValue) (amount : JSNumber)

/-- The amount a call passes. -/
def Call.amount : Call → JSNumber
  | .deposit _ amount => amount
  | .withdraw _ amount => amount
  | .transferFunds _ _ amount => amount

/-- The store after one call, whether it returned or threw. -/
def Call.run (fl : ℚ → JSNumber) (h : Heap) : Call → Heap
  | .deposit self amount => (Wide.deposit fl h self amount).heap
  | .withdraw self amount => (Wide.withdraw fl h self amount).heap
  | .transferFunds self targetAccount amount =>
    (Wide.transferFunds fl h self targetAccount amount).heap

/-- The store after a finite sequence of calls, made one after the other. -/
def runCalls (fl : ℚ → JSNumber) (h : Heap) (calls : List Call) : Heap :=
  calls.foldl (Call.run fl) h

/-- The record `deposit` pushes. -/
def depositRecord (acct : BankAccount) (amount : JSNumber) : Transaction :=
  ⟨acct.accountNumber, amount, "DEPOSIT", none, some acct.accountNumber⟩

/-- The record `withdraw` pushes. -/
def withdrawRecord (acct : BankAccount) (amount : JSNumber) : Transaction :=
  ⟨acct.accountNumber, amount, "WITHDRAW", some acct.accountNumber, none⟩

/-- The record `transferFunds` pushes on the source. -/
def transferOutRecord (src tgt : BankAccount) (amount : JSNumber) : Transaction :=
  ⟨src.accountNumber, amount, "TRANSFER", some src.accountNumber, some tgt.accountNumber⟩

/-- The record `transferFunds` pushes on the target. -/
def transferInRecord (src tgt : BankAccount) (amount : JSNumber) : Transaction :=
  ⟨tgt.accountNumber, amount, "TRANSFER_IN", some src.accountNumber, some tgt.accountNumber⟩

/-- The balance the history accounts for: from `b`, each `DEPOSIT` record adds its
amount and each `WITHDRAW` record subtracts its amount, in the order of the history
and in the arithmetic of the program; the other records count for nothing. -/
def replay (fl : ℚ → JSNumber) (b : JSNumber) (transactions : List Transaction) : JSNumber :=
  transactions.foldl
    (fun acc tx =>
      if tx.transactionType = "DEPOSIT" then JSNumber.add fl acc tx.amount
      else if tx.transactionType = "WITHDRAW" then JSNumber.sub fl acc tx.amount
      else acc)
    b

/-- The sum of the amounts of the records of one type in a history, the amounts
being finite. -/
def sumOfType (transactionType : String) (transactions : List Transaction) : ℚ :=
  ((transactions.filter (fun tx => tx.transactionType = transactionType)).map
    (fun tx => tx.amount.toRat)).sum

/-- The account `user1` of the demo (Bank.js 251), as its constructor leaves it. -/
def user1 : BankAccount :=
  { accountNumber := "145xs6s51s51x5ssx1", balance := .finite 1000, transactions := [] }

/-- The account `user2` of the demo (Bank.js 252), as its constructor leaves it. -/
def user2 : BankAccount :=
  { accountNumber := "AramAccount1234", balance := .finite 300, transactions := [] }

/-- The store of the demo: `user1` at reference 0, `user2` elsewhere. -/
def demoHeap : Heap := fun r => if r = 0 then user1 else user2

/-- The double written `0.1`. -/
def tenth : ℚ := 3602879701896397 / 36028797018963968

/-- The double written `0.2`. -/
def fifth : ℚ := 3602879701896397 / 18014398509481984

/-- The double written `0.3`. -/
def threeTenths : ℚ := 5404319552844595 / 18014398509481984

/-- A store whose account at reference 0 is as
`new IndividualAccount("145xs6s51s51x5ssx1", 0.1)` leaves it. -/
def tenthHeap : Heap := fun r =>
  if r = 0 then
    { accountNumber := "145xs6s51s51x5ssx1", balance := .finite tenth, transactions := [] }
  else user2

/-- A finite-number record, read as a record over all numbers. -/
def ofTransaction (tx : Bank.Transaction) : Transaction :=
  { accountNumber := tx.accountNumber, amount := .finite tx.amount,
    transactionType := tx.transactionType,
    fromAccount := tx.fromAccount, toAccount := tx.toAccount }

/-- A finite-number account, read as an account over all numbers. -/
def ofAccount (acct : Bank.BankAccount) : BankAccount :=
  { accountNumber := acct.accountNumber, balance := .finite acct.balance,
    transactions := acct.transactions.map ofTransaction }

/-- A finite-number store, read as a store over all numbers. -/
def ofHeap (h : Bank.Heap) : Heap := fun r => ofAccount (h r)

/-- A finite-number outcome, read as an outcome over all numbers. -/
def ofOutcome (o : Bank.Outcome) : Outcome := ⟨ofHeap o.heap, o.error⟩

/-- A finite-number call, read as a call over all numbers. -/
def ofCall : Bank.Call → Call
  | .deposit self amount => .deposit self (.finite amount)
  | .withdraw self amount => .withdraw self (.finite amount)
  | .transferFunds self targetAccount amount =>
    .transferFunds self targetAccount (.finite amount)

end Wide


end Bank

/-! ## Restaurant.js -/

namespace Restaurant

/-- Kinds of exception thrown in Restaurant.js; `Error` is the plain `Error` of the
abstract-class guards. -/
inductive RestaurantError
  | DishNotFoundError
  | InvalidOrderError
  | ValidationError
  | Error
  deriving DecidableEq

/-- The class named by `new.target` when the `Dish` constructor runs. -/
inductive DishClass
  | Dish
  | Appetizer
  | Entree
  | Dessert
  deriving DecidableEq

/-- The fields of a dish object: `_name`, `_price` (read through the accessors `name`
and `price`), `category`, and `prepTime` (set by `Entree` only). Names are strings and
prices are numbers. -/
structure Dish where
  name : String
  price : ℚ
  category : String
  prepTime : Option ℚ
  deriving DecidableEq

/-- The code points `String.prototype.trim` removes: ECMAScript WhiteSpace and
LineTerminator. -/
def isTrimmed (c : Char) : Bool :=
  c.val = 0x09 || c.val = 0x0A || c.val = 0x0B || c.val = 0x0C || c.val = 0x0D ||
  c.val = 0x20 || c.val = 0xA0 || c.val = 0x1680 ||
  (0x2000 ≤ c.val && c.val ≤ 0x200A) ||
  c.val = 0x2028 || c.val = 0x2029 || c.val = 0x202F || c.val = 0x205F ||
  c.val = 0x3000 || c.val = 0xFEFF

/-- Whether `value.trim() === ""`: every character is one that `trim` removes. -/
def trimIsEmpty (value : String) : Bool :=
  value.data.all isTrimmed

/-- `Dish.constructor(name, price, category = "general")` (Restaurant.js 24-60): the
abstract-class guard, then `this._name = name; this._price = price;
this.category = category`, then the two accessor definitions. Nothing is checked. -/
def Dish.new (newTarget : DishClass) (name : String) (price : ℚ) (category : String) :
    Except RestaurantError Dish :=
  if newTarget = .Dish then
    .error .Error
  else
    .ok { name := name, price := price, category := category, prepTime := none }

/-- The setter of `name` (Restaurant.js 37-42). -/
def Dish.setName (d : Dish) (value : String) : Except RestaurantError Dish :=
  if value = "" ∨ trimIsEmpty value = true then
    .error .ValidationError
  else
    .ok { d with name := value }

/-- The setter of `price` (Restaurant.js 51-56). -/
def Dish.setPrice (d : Dish) (value : ℚ) : Except RestaurantError Dish :=
  if value ≤ 0 then
    .error .ValidationError
  else
    .ok { d with price := value }

/-- `Appetizer.constructor(name, price)` (Restaurant.js 71-75). -/
def Appetizer.new (name : String) (price : ℚ) : Except RestaurantError Dish :=
  Dish.new .Appetizer name price "appetizer"

/-- `Entree.constructor(name, price, prepTime = 15)` (Restaurant.js 77-81); `none` is
an omitted third argument. -/
def Entree.new (name : String) (price : ℚ) (prepTime : Option ℚ) :
    Except RestaurantError Dish :=
  match Dish.new .Entree name price "entree" with
  | .error e => .error e
  | .ok d => .ok { d with prepTime := some (prepTime.getD 15) }

/-- `Dessert.constructor(name, price)` (Restaurant.js 91-98). -/
def Dessert.new (name : String) (price : ℚ) : Except RestaurantError Dish :=
  if price > 15 then
    .error .ValidationError
  else
    Dish.new .Dessert name price "dessert"

/-! ### Maps, menus and orders

`String.prototype.toLowerCase` is a library function outside the source. The
definitions below take it as the parameter `toLowerCase`; the demo instantiates it
with `asciiLower`, which agrees with it on ASCII strings. -/

/-- A JavaScript `Map` with string keys: its entries in insertion order. -/
abbrev JSMap (V : Type) := List (String × V)

/-- `Map.prototype.has`. -/
def JSMap.has {V : Type} : JSMap V → String → Bool
  | [], _ => false
  | e :: rest, key => if e.1 = key then true else JSMap.has rest key

/-- `Map.prototype.get`; `none` is `undefined`. -/
def JSMap.get {V : Type} : JSMap V → String → Option V
  | [], _ => none
  | e :: rest, key => if e.1 = key then some e.2 else JSMap.get rest key

/-- `Map.prototype.set`: an existing key keeps its place and takes the new value, a new
key is appended. -/
def JSMap.set {V : Type} : JSMap V → String → V → JSMap V
  | [], key, v => [(key, v)]
  | e :: rest, key, v => if e.1 = key then (key, v) :: rest else e :: JSMap.set rest key v

/-- `Map.prototype.delete`. -/
def JSMap.delete {V : Type} : JSMap V → String → JSMap V
  | [], _ => []
  | e :: rest, key => if e.1 = key then JSMap.delete rest key else e :: JSMap.delete rest key

/-- `Map.prototype.values`, as an array. -/
def JSMap.values {V : Type} (m : JSMap V) : List V :=
  m.map (fun e => e.2)

/-- The keys of a map, in insertion order. -/
def JSMap.keys {V : Type} (m : JSMap V) : List String :=
  m.map (fun e => e.1)

/-- Lower-casing of ASCII letters, character by character. -/
def asciiLower (s : String) : String :=
  ⟨s.data.map (fun c => if 'A' ≤ c ∧ c ≤ 'Z' then Char.ofNat (c.toNat + 32) else c)⟩

/-- The dish objects behind each reference. A dish object is shared by every menu and
order that holds it. -/
abbrev DishStore := Nat → Dish

/-- What a call leaves behind: the state it worked on, and the exception if one was
thrown. -/
structure Outcome (σ : Type) where
  state : σ
  error : Option RestaurantError

/-- The assignment `dish.price = value` on the object at `ref`, through the setter. -/
def assignPrice (store : DishStore) (ref : Nat) (value : ℚ) : Outcome DishStore :=
  match (store ref).setPrice value with
  | .error e => ⟨store, some e⟩
  | .ok d => ⟨Function.update store ref d, none⟩

/-- The assignment `dish.name = value` on the object at `ref`, through the setter. -/
def assignName (store : DishStore) (ref : Nat) (value : String) : Outcome DishStore :=
  match (store ref).setName value with
  | .error e => ⟨store, some e⟩
  | .ok d => ⟨Function.update store ref d, none⟩

/-- The object `getInfo()` returns. -/
structure DishInfo where
  name : String
  price : ℚ
  category : String
  prepTime : Option ℚ
  deriving DecidableEq

/-- `Dish.getInfo()` (Restaurant.js 62-68) with the override of `Entree`
(Restaurant.js 83-88), which adds `prepTime`: the field is there for an entree only. -/
def Dish.getInfo (d : Dish) : DishInfo :=
  { name := d.name, price := d.price, category := d.category, prepTime := d.prepTime }

/-- The class named by `new.target` when the `Menu` constructor runs. -/
inductive MenuClass
  | Menu
  | AppetizersMenu
  | EntreesMenu
  | DessertsMenu
  deriving DecidableEq

/-- The fields of a menu object: `menuType` and the private map `#dishes` from keys to
dish objects. -/
structure Menu where
  menuType : String
  dishes : JSMap Nat
  deriving DecidableEq

/-- `Menu.constructor(menuType)` (Restaurant.js 101-107). -/
def Menu.new (newTarget : MenuClass) (menuType : String) : Except RestaurantError Menu :=
  if newTarget = .Menu then
    .error .Error
  else
    .ok { menuType := menuType, dishes := [] }

/-- `AppetizersMenu.constructor()` (Restaurant.js 169-173). -/
def AppetizersMenu.new : Except RestaurantError Menu :=
  Menu.new .AppetizersMenu "AppetizersMenu"

/-- `EntreesMenu.constructor()` (Restaurant.js 175-179). -/
def EntreesMenu.new : Except RestaurantError Menu :=
  Menu.new .EntreesMenu "EntreesMenu"

/-- `DessertsMenu.constructor()` (Restaurant.js 181-186). -/
def DessertsMenu.new : Except RestaurantError Menu :=
  Menu.new .DessertsMenu "DessertsMenu"

/-- A value handed to `Menu.addDish`: a dish object, or anything that is not
`instanceof Dish`. -/
inductive DishArg
  | dish (ref : Nat)
  | other
  deriving DecidableEq

section
variable (toLowerCase : String → String)

/-- `Menu.addDish(dish)` (Restaurant.js 111-116). -/
def Menu.addDish (store : DishStore) (menu : Menu) (dish : DishArg) : Outcome Menu :=
  match dish with
  | .other => ⟨menu, some .InvalidOrderError⟩
  | .dish ref =>
    ⟨{ menu with dishes := JSMap.set menu.dishes (toLowerCase (store ref).name) ref }, none⟩

/-- `Menu.removeDish(dishName)` (Restaurant.js 118-124). -/
def Menu.removeDish (menu : Menu) (dishName : String) : Outcome Menu :=
  let key := toLowerCase dishName
  if ¬ JSMap.has menu.dishes key then
    ⟨menu, some .DishNotFoundError⟩
  else
    ⟨{ menu with dishes := JSMap.delete menu.dishes key }, none⟩

/-- `Menu.viewMenu()` (Restaurant.js 126-128). -/
def Menu.viewMenu (store : DishStore) (menu : Menu) : List DishInfo :=
  (JSMap.values menu.dishes).map (fun ref => (store ref).getInfo)

/-- `Menu.getDish(dishName)` (Restaurant.js 130-136). A key that `has` finds holds a
dish; the last case (a key present without a value) does not arise. -/
def Menu.getDish (menu : Menu) (dishName : String) : Except RestaurantError Nat :=
  let key := toLowerCase dishName
  if ¬ JSMap.has menu.dishes key then
    .error .DishNotFoundError
  else
    match JSMap.get menu.dishes key with
    | some ref => .ok ref
    | none => .error .Error

/-- `Menu.hasDish(dishName)` (Restaurant.js 138-140). -/
def Menu.hasDish (menu : Menu) (dishName : String) : Bool :=
  JSMap.has menu.dishes (toLowerCase dishName)

/-- `Menu.increasePrice(dishName, percent)` (Restaurant.js 142-146). -/
def Menu.increasePrice (store : DishStore) (menu : Menu) (dishName : String) (percent : ℚ) :
    Outcome DishStore :=
  match Menu.getDish toLowerCase menu dishName with
  | .error e => ⟨store, some e⟩
  | .ok ref =>
    let increase := (store ref).price * (percent / 100)
    assignPrice store ref ((store ref).price + increase)

/-- `Menu.decreasePrice(dishName, percent)` (Restaurant.js 148-156). -/
def Menu.decreasePrice (store : DishStore) (menu : Menu) (dishName : String) (percent : ℚ) :
    Outcome DishStore :=
  match Menu.getDish toLowerCase menu dishName with
  | .error e => ⟨store, some e⟩
  | .ok ref =>
    let decrease := (store ref).price * (percent / 100)
    let newPrice := (store ref).price - decrease
    if newPrice ≤ 0 then
      ⟨store, some .ValidationError⟩
    else
      assignPrice store ref newPrice

/-- `Menu.applyDemandPricing(popularDishNames, percentIncrease = 10)`
(Restaurant.js 158-166): each name in turn, an exception of `increasePrice` caught and
logged; `none` is an omitted second argument. -/
def Menu.applyDemandPricing (store : DishStore) (menu : Menu) (popularDishNames : List String)
    (percentIncrease : Option ℚ) : Outcome DishStore :=
  ⟨popularDishNames.foldl
      (fun s dishName =>
        (Menu.increasePrice toLowerCase s menu dishName (percentIncrease.getD 10)).state)
      store,
    none⟩

end

/-- The fields of an order object: the customer (by name), the private list `#dishes`
of dish objects and the private map `#dishQuantities`. The creation time is not
modelled. -/
structure Order where
  customer : String
  dishes : List Nat
  dishQuantities : JSMap ℚ
  deriving DecidableEq

/-- `Order.constructor(customer)` (Restaurant.js 189-194). -/
def Order.new (customer : String) : Order :=
  { customer := customer, dishes := [], dishQuantities := [] }

/-- `Number.isInteger` on a number. -/
def isInteger (q : ℚ) : Bool := q.den = 1

/-- `parseFloat(x.toFixed(2))` in exact arithmetic: the multiple of 1/100 nearest to
`x`, a tie going away from zero (`toFixed` rounds the absolute value, the larger
candidate winning a tie, and puts the sign back). -/
def toFixed2 (x : ℚ) : ℚ :=
  if x < 0 then -((⌊-x * 100 + 1 / 2⌋ : ℤ) : ℚ) / 100
  else ((⌊x * 100 + 1 / 2⌋ : ℤ) : ℚ) / 100

/-- One line of the `items` array of `viewSummary()`; `none` in `quantity` is
`undefined`, `none` in `subtotal` is the `NaN` that a product with `undefined` gives. -/
structure SummaryItem where
  name : String
  price : ℚ
  quantity : Option ℚ
  subtotal : Option ℚ
  deriving DecidableEq

/-- The object `viewSummary()` returns, without `createdAt`; `none` in `total` is
`NaN`. -/
structure Summary where
  customer : String
  items : List SummaryItem
  total : Option ℚ
  deriving DecidableEq

section
variable (toLowerCase : String → String)

/-- The loop of `Order.addDish` (Restaurant.js 205-212): the dish of the first menu
that has the name, `none` (the initial `null`) when no menu has it. -/
def Order.findDish (dishName : String) : List Menu → Except RestaurantError (Option Nat)
  | [] => .ok none
  | menu :: rest =>
    if Menu.hasDish toLowerCase menu dishName then
      match Menu.getDish toLowerCase menu dishName with
      | .error e => .error e
      | .ok dish => .ok (some dish)
    else
      Order.findDish dishName rest

/-- `Order.addDish(dishName, menus, quantity = 1)` (Restaurant.js 200-225); `none` is
an omitted third argument. -/
def Order.addDish (order : Order) (dishName : String) (menus : List Menu)
    (quantity : Option ℚ) : Outcome Order :=
  let quantity := quantity.getD 1
  if quantity ≤ 0 ∨ ¬ isInteger quantity then
    ⟨order, some .InvalidOrderError⟩
  else
    match Order.findDish toLowerCase dishName menus with
    | .error e => ⟨order, some e⟩
    | .ok none => ⟨order, some .DishNotFoundError⟩
    | .ok (some dish) =>
      let dishKey := toLowerCase dishName
      if JSMap.has order.dishQuantities dishKey then
        match JSMap.get order.dishQuantities dishKey with
        | some old =>
          ⟨{ order with dishQuantities := JSMap.set order.dishQuantities dishKey (old + quantity) },
            none⟩
        | none => ⟨order, some .Error⟩
      else
        ⟨{ order with
            dishes := order.dishes ++ [dish],
            dishQuantities := JSMap.set order.dishQuantities dishKey quantity },
          none⟩

/-- The quantity `this.#dishQuantities.get(dish.name.toLowerCase())` of a listed dish. -/
def Order.quantityOf (store : DishStore) (order : Order) (dish : Nat) : Option ℚ :=
  JSMap.get order.dishQuantities (toLowerCase (store dish).name)

/-- `Order.getTotal()` (Restaurant.js 234-241); `none` is `NaN`, which the sum becomes
once a quantity is `undefined`. -/
def Order.getTotal (store : DishStore) (order : Order) : Option ℚ :=
  let total := order.dishes.foldl
    (fun (total : Option ℚ) dish =>
      match total, Order.quantityOf toLowerCase store order dish with
      | some t, some quantity => some (t + (store dish).price * quantity)
      | _, _ => none)
    (some 0)
  total.map toFixed2

/-- `Order.viewSummary()` (Restaurant.js 243-257). -/
def Order.viewSummary (store : DishStore) (order : Order) : Summary :=
  { customer := order.customer,
    items := order.dishes.map (fun dish =>
      { name := (store dish).name,
        price := (store dish).price,
        quantity := Order.quantityOf toLowerCase store order dish,
        subtotal := (Order.quantityOf toLowerCase store order dish).map
          (fun quantity => (store dish).price * quantity) }),
    total := Order.getTotal toLowerCase store order }

end

/-! ### The demo (Restaurant.js 417-468) -/

/-- The six dishes of the demo, `app1` to `des2`, at references 0 to 5 (and the last
one at every further reference). -/
def demoStore : DishStore := fun ref =>
  match ref with
  | 0 => { name := "Bruschetta", price := 8.99, category := "appetizer", prepTime := none }
  | 1 => { name := "Spring Rolls", price := 7.50, category := "appetizer", prepTime := none }
  | 2 => { name := "Grilled Salmon", price := 24.99, category := "entree", prepTime := some 20 }
  | 3 => { name := "Ribeye Steak", price := 29.99, category := "entree", prepTime := some 25 }
  | 4 => { name := "Chocolate Cake", price := 9.99, category := "dessert", prepTime := none }
  | _ => { name := "Tiramisu", price := 10.50, category := "dessert", prepTime := none }

/-- The appetizer menu of the demo once `app1` and `app2` are added. -/
def demoAppetizerMenu : Menu :=
  { menuType := "AppetizersMenu", dishes := [("bruschetta", 0), ("spring rolls", 1)] }

/-- The entree menu of the demo once `ent1` and `ent2` are added. -/
def demoEntreeMenu : Menu :=
  { menuType := "EntreesMenu", dishes := [("grilled salmon", 2), ("ribeye steak", 3)] }

/-- The dessert menu of the demo once `des1` and `des2` are added. -/
def demoDessertMenu : Menu :=
  { menuType := "DessertsMenu", dishes := [("chocolate cake", 4), ("tiramisu", 5)] }

/-- The order `order1` of the demo after its three `addDish` calls. -/
def demoOrder1 : Order :=
  (Order.addDish asciiLower
    (Order.addDish asciiLower
      (Order.addDish asciiLower (Order.new "John Doe") "Bruschetta" [demoAppetizerMenu] none).state
      "Grilled Salmon" [demoEntreeMenu] none).state
    "Chocolate Cake" [demoDessertMenu] none).state

/-- A call of `Menu.addDish` or `Menu.removeDish`, as a client makes it. -/
inductive MenuCall
  | addDish (dish : DishArg)
  | removeDish (dishName : String)

/-- The arguments of one `Order.addDish` call. -/
structure AddDishCall where
  dishName : String
  menus : List Menu
  quantity : Option ℚ

/-- The sum of two numbers in which `none` is `NaN`. -/
def nanAdd : Option ℚ → Option ℚ → Option ℚ
  | some a, some b => some (a + b)
  | _, _ => none

/-- The sum of a list of numbers in which `none` is `NaN`: `NaN` as soon as one of
them is. -/
def nanSum : List (Option ℚ) → Option ℚ
  | [] => some 0
  | x :: xs => nanAdd x (nanSum xs)

section
variable (toLowerCase : String → String)

/-- The menu after one call, whether it returned or threw. -/
def MenuCall.run (store : DishStore) (menu : Menu) : MenuCall → Menu
  | .addDish dish => (Menu.addDish toLowerCase store menu dish).state
  | .removeDish dishName => (Menu.removeDish toLowerCase menu dishName).state

/-- The menu after a finite sequence of calls. -/
def Menu.runCalls (store : DishStore) (menu : Menu) (calls : List MenuCall) : Menu :=
  calls.foldl (MenuCall.run toLowerCase store) menu

/-- A menu is keyed by name when every key is the lowercased current name of the dish
it leads to, which is how `Menu.addDish` stores a dish. -/
def Menu.KeyedByName (store : DishStore) (menu : Menu) : Prop :=
  ∀ key ref, JSMap.get menu.dishes key = some ref → key = toLowerCase (store ref).name

/-- The order after a finite sequence of `addDish` calls, each returning or throwing. -/
def Order.runAddDish (order : Order) (calls : List AddDishCall) : Order :=
  calls.foldl (fun o c => (Order.addDish toLowerCase o c.dishName c.menus c.quantity).state)
    order

/-- The sum of the quantities of the calls of a sequence that returned and whose name
lowercases to `key`, the sequence being run from `order`. -/
def Order.successfulQuantity (key : String) : Order → List AddDishCall → ℚ
  | _, [] => 0
  | order, c :: cs =>
    let r := Order.addDish toLowerCase order c.dishName c.menus c.quantity
    (if r.error = none ∧ toLowerCase c.dishName = key then c.quantity.getD 1 else 0)
      + Order.successfulQuantity key r.state cs

end


/-- The store of the demo with one more dish: at reference 6 the dish that
`new Appetizer("Soup", -5)` returns. -/
def soupStore : DishStore :=
  Function.update demoStore 6
    { name := "Soup", price := -5, category := "appetizer", prepTime := none }

/-- An appetizer menu after `addDish` of the dish at reference 6 of `soupStore`. -/
def soupMenu : Menu :=
  { menuType := "AppetizersMenu", dishes := [("soup", 6)] }

section
variable (toLowerCase : String → String)

/-- Every dish a menu leads to has a price above 0 (the invariant of the data model,
which the setter of `price` keeps and the constructors do not check). -/
def Menu.Priced (store : DishStore) (menu : Menu) : Prop :=
  ∀ key ref, JSMap.get menu.dishes key = some ref → 0 < (store ref).price

/-- How many names of a list lead to the dish `ref` in a menu. -/
def Menu.occurrences (menu : Menu) (names : List String) (ref : Nat) : Nat :=
  names.countP (fun n => JSMap.get menu.dishes (toLowerCase n) = some ref)

end


/-- A sequence of `addDish` calls on the menus of the demo: the first two lines of
`order2` (Restaurant.js 453-454), then the spring rolls again under another spelling,
then a dish that no menu has, and a call with a quantity of 0. -/
def demoCalls : List AddDishCall :=
  [{ dishName := "Spring Rolls", menus := [demoAppetizerMenu], quantity := some 2 },
   { dishName := "Ribeye Steak", menus := [demoEntreeMenu], quantity := none },
   { dishName := "spring ROLLS", menus := [demoEntreeMenu, demoAppetizerMenu],
     quantity := some 3 },
   { dishName := "Pizza", menus := [demoAppetizerMenu, demoEntreeMenu, demoDessertMenu],
     quantity := none },
   { dishName := "Ribeye Steak", menus := [demoEntreeMenu], quantity := some 0 }]


end Restaurant

/-! ## Bank.js: lemmas -/

namespace Bank

/-! ### Basic facts about the store -/

@[simp] theorem writeBalance_same (h : Heap) (self : Nat) (v : ℚ) :
    writeBalance h self v self = { h self with balance := v } := by
  simp [writeBalance]

@[simp] theorem writeBalance_other (h : Heap) (self r : Nat) (v : ℚ) (hr : r ≠ self) :
    writeBalance h self v r = h r := by
  simp [writeBalance, hr]

@[simp] theorem addTransaction_same (h : Heap) (self : Nat) (tx : Transaction) :
    addTransaction h self tx self
      = { h self with transactions := (h self).transactions ++ [tx] } := by
  simp [addTransaction]

@[simp] theorem addTransaction_other (h : Heap) (self r : Nat) (tx : Transaction)
    (hr : r ≠ self) : addTransaction h self tx r = h r := by
  simp [addTransaction, hr]

theorem Transaction_new_of_pos (n : String) (a : ℚ) (t : String) (f g : Option String)
    (ha : 0 < a) : Transaction.new n a t f g = .ok ⟨n, a, t, f, g⟩ := by
  simp [Transaction.new, ha]

theorem deposit_of_nonpos (h : Heap) (self : Nat) (a : ℚ) (ha : a ≤ 0) :
    deposit h self a = ⟨h, some .ValidationError⟩ := by
  simp [deposit, ha]

theorem deposit_of_pos (h : Heap) (self : Nat) (a : ℚ) (ha : 0 < a) :
    deposit h self a =
      ⟨Function.update h self
          { h self with balance := (h self).balance + a,
                        transactions := (h self).transactions ++ [depositRecord (h self) a] },
        none⟩ := by
  have hn : ¬ a ≤ 0 := not_le.mpr ha
  simp [deposit, hn, Transaction.new, ha, addTransaction, writeBalance, depositRecord]

theorem withdraw_of_nonpos (h : Heap) (self : Nat) (a : ℚ) (ha : a ≤ 0) :
    withdraw h self a = ⟨h, some .ValidationError⟩ := by
  simp [withdraw, ha]

theorem withdraw_of_insufficient (h : Heap) (self : Nat) (a : ℚ) (ha : 0 < a)
    (hlt : (h self).balance < a) :
    withdraw h self a = ⟨h, some .InsufficientFundsError⟩ := by
  have hn : ¬ a ≤ 0 := not_le.mpr ha
  simp [withdraw, hn, hlt]

theorem withdraw_of_covered (h : Heap) (self : Nat) (a : ℚ) (ha : 0 < a)
    (hle : a ≤ (h self).balance) :
    withdraw h self a =
      ⟨Function.update h self
          { h self with balance := (h self).balance - a,
                        transactions := (h self).transactions ++ [withdrawRecord (h self) a] },
        none⟩ := by
  have hn : ¬ a ≤ 0 := not_le.mpr ha
  have hn2 : ¬ (h self).balance < a := not_lt.mpr hle
  simp [withdraw, hn, hn2, Transaction.new, ha, addTransaction, writeBalance, withdrawRecord]


theorem transferFunds_of_not_account (h : Heap) (self : Nat) (v : JSValue) (a : ℚ)
    (hv : ∀ r, v ≠ .account r) :
    transferFunds h self v a = ⟨h, some .InvalidTransactionError⟩ := by
  cases v <;> first | rfl | exact absurd rfl (hv _)

theorem transferFunds_of_nonpos (h : Heap) (self t : Nat) (a : ℚ) (ha : a ≤ 0) :
    transferFunds h self (.account t) a = ⟨h, some .ValidationError⟩ := by
  simp [transferFunds, ha]

theorem transferFunds_of_insufficient (h : Heap) (self t : Nat) (a : ℚ) (ha : 0 < a)
    (hlt : (h self).balance < a) :
    transferFunds h self (.account t) a = ⟨h, some .InsufficientFundsError⟩ := by
  have hn : ¬ a ≤ 0 := not_le.mpr ha
  simp [transferFunds, hn, withdraw_of_insufficient h self a ha hlt]

theorem transferFunds_of_covered_ne (h : Heap) (self t : Nat) (a : ℚ) (ha : 0 < a)
    (hle : a ≤ (h self).balance) (hne : t ≠ self) :
    transferFunds h self (.account t) a =
      ⟨Function.update
          (Function.update h self
            { h self with
              balance := (h self).balance - a,
              transactions := (h self).transactions
                ++ [withdrawRecord (h self) a, transferOutRecord (h self) (h t) a] })
          t
          { h t with
            balance := (h t).balance + a,
            transactions := (h t).transactions
              ++ [depositRecord (h t) a, transferInRecord (h self) (h t) a] },
        none⟩ := by
  have hn : ¬ a ≤ 0 := not_le.mpr ha
  have hne2 : self ≠ t := fun e => hne e.symm
  simp only [transferFunds, hn, if_false, withdraw_of_covered h self a ha hle,
    deposit_of_pos _ t a ha, Transaction_new_of_pos _ _ _ _ _ ha]
  simp only [Outcome.mk.injEq, and_true]
  funext r
  by_cases h1 : r = t
  · subst h1
    simp [addTransaction, Function.update_apply, hne, hne2, transferInRecord, depositRecord]
  · by_cases h2 : r = self
    · subst h2
      simp [addTransaction, Function.update_apply, hne, hne2, transferOutRecord,
        withdrawRecord]
    · simp [addTransaction, Function.update_apply, h1, h2]

theorem transferFunds_of_covered_self (h : Heap) (self : Nat) (a : ℚ) (ha : 0 < a)
    (hle : a ≤ (h self).balance) :
    transferFunds h self (.account self) a =
      ⟨Function.update h self
          { h self with
            balance := (h self).balance - a + a,
            transactions := (h self).transactions
              ++ [withdrawRecord (h self) a, depositRecord (h self) a,
                  transferOutRecord (h self) (h self) a,
                  transferInRecord (h self) (h self) a] },
        none⟩ := by
  have hn : ¬ a ≤ 0 := not_le.mpr ha
  simp only [transferFunds, hn, if_false, withdraw_of_covered h self a ha hle,
    deposit_of_pos _ self a ha, Transaction_new_of_pos _ _ _ _ _ ha]
  simp only [Outcome.mk.injEq, and_true]
  funext r
  by_cases h2 : r = self
  · subst h2
    simp [addTransaction, transferOutRecord, withdrawRecord, transferInRecord, depositRecord]
  · simp [addTransaction, Function.update_apply, h2]


/-- What one call can do to one account: nothing, or one of the four successful
updates (deposit, withdrawal, transfer with the account on one side or on both). -/
theorem Call_run_account (h : Heap) (c : Call) (r : Nat) :
    Call.run h c r = h r ∨
    ∃ (a : ℚ) (new : List Transaction) (d : ℚ), 0 < a ∧
      ((d = a) ∨ (d = -a ∧ a ≤ (h r).balance) ∨ (d = -a + a)) ∧
      (∀ tx ∈ new, tx.transactionType ∈ writtenTypes ∧ tx.amount = a) ∧
      Call.run h c r =
        { h r with balance := (h r).balance + d,
                   transactions := (h r).transactions ++ new } := by
  cases c with
  | deposit self a =>
    by_cases ha : 0 < a
    · by_cases hr : r = self
      · subst hr
        refine Or.inr ⟨a, [depositRecord (h r) a], a, ha, Or.inl rfl, ?_, ?_⟩
        · simp [depositRecord, writtenTypes]
        · simp [Call.run, deposit_of_pos h r a ha]
      · left; simp [Call.run, deposit_of_pos h self a ha, Function.update_apply, hr]
    · left; simp [Call.run, deposit_of_nonpos h self a (not_lt.mp ha)]
  | withdraw self a =>
    by_cases ha : 0 < a
    · by_cases hle : a ≤ (h self).balance
      · by_cases hr : r = self
        · subst hr
          refine Or.inr ⟨a, [withdrawRecord (h r) a], -a, ha, Or.inr (Or.inl ⟨rfl, hle⟩), ?_, ?_⟩
          · simp [withdrawRecord, writtenTypes]
          · simp [Call.run, withdraw_of_covered h r a ha hle, sub_eq_add_neg]
        · left; simp [Call.run, withdraw_of_covered h self a ha hle, Function.update_apply, hr]
      · left; simp [Call.run, withdraw_of_insufficient h self a ha (not_le.mp hle)]
    · left; simp [Call.run, withdraw_of_nonpos h self a (not_lt.mp ha)]
  | transferFunds self v a =>
    by_cases hv : ∃ t, v = .account t
    · obtain ⟨t, rfl⟩ := hv
      by_cases ha : 0 < a
      · by_cases hle : a ≤ (h self).balance
        · by_cases hts : t = self
          · subst hts
            by_cases hr : r = t
            · subst hr
              refine Or.inr ⟨a, [withdrawRecord (h r) a, depositRecord (h r) a,
                transferOutRecord (h r) (h r) a, transferInRecord (h r) (h r) a],
                -a + a, ha, Or.inr (Or.inr rfl), ?_, ?_⟩
              · simp [withdrawRecord, depositRecord, transferOutRecord, transferInRecord,
                  writtenTypes]
              · simp [Call.run, transferFunds_of_covered_self h r a ha hle, sub_eq_add_neg,
                  add_assoc]
            · left
              simp [Call.run, transferFunds_of_covered_self h t a ha hle,
                Function.update_apply, hr]
          · rw [show Call.run h (.transferFunds self (.account t) a) r
                = (transferFunds h self (.account t) a).heap r from rfl,
              transferFunds_of_covered_ne h self t a ha hle hts]
            by_cases hr : r = t
            · subst hr
              refine Or.inr ⟨a, [depositRecord (h r) a, transferInRecord (h self) (h r) a],
                a, ha, Or.inl rfl, ?_, ?_⟩
              · simp [depositRecord, transferInRecord, writtenTypes]
              · simp
            · by_cases hr2 : r = self
              · subst hr2
                refine Or.inr ⟨a, [withdrawRecord (h r) a, transferOutRecord (h r) (h t) a],
                  -a, ha, Or.inr (Or.inl ⟨rfl, hle⟩), ?_, ?_⟩
                · simp [withdrawRecord, transferOutRecord, writtenTypes]
                · simp [Function.update_apply, hr, sub_eq_add_neg]
              · left; simp [Function.update_apply, hr, hr2]
        · left
          simp [Call.run, transferFunds_of_insufficient h self t a ha (not_le.mp hle)]
      · left; simp [Call.run, transferFunds_of_nonpos h self t a (not_lt.mp ha)]
    · left
      have hv2 : ∀ t, v ≠ .account t := fun t e => hv ⟨t, e⟩
      simp [Call.run, transferFunds_of_not_account h self v a hv2]

end Bank

/-! ## Bank.js: the claims -/

namespace Bank

theorem IndividualAccount_new_ok (n b : JSValue) (acct : BankAccount)
    (hnew : IndividualAccount.new n b = .ok acct) :
    0 ≤ acct.balance ∧ acct.transactions = [] := by
  unfold IndividualAccount.new BankAccount.new at hnew
  simp only [reduceCtorEq, if_false] at hnew
  split at hnew
  · cases hnew
  · split at hnew
    · split at hnew
      · cases hnew
      · cases hnew
        rename_i hb
        exact ⟨not_lt.mp hb, rfl⟩
    · cases hnew

theorem Call_run_balance_nonneg (h : Heap) (c : Call) (r : Nat) (hr : 0 ≤ (h r).balance) :
    0 ≤ (Call.run h c r).balance := by
  rcases Call_run_account h c r with hsame | ⟨a, new, d, ha, hd, -, heq⟩
  · rw [hsame]; exact hr
  · rw [heq]
    show 0 ≤ (h r).balance + d
    rcases hd with rfl | ⟨rfl, hle⟩ | rfl <;> linarith

theorem runCalls_balance_nonneg (calls : List Call) (h : Heap) (r : Nat)
    (hr : 0 ≤ (h r).balance) : 0 ≤ (runCalls h calls r).balance := by
  induction calls generalizing h with
  | nil => exact hr
  | cons c cs ih => exact ih (Call.run h c) (Call_run_balance_nonneg h c r hr)

theorem Call_run_types (h : Heap) (c : Call) (r : Nat)
    (hr : ∀ tx ∈ (h r).transactions, tx.transactionType ∈ writtenTypes) :
    ∀ tx ∈ (Call.run h c r).transactions, tx.transactionType ∈ writtenTypes := by
  rcases Call_run_account h c r with hsame | ⟨a, new, d, -, -, hnew, heq⟩
  · rw [hsame]; exact hr
  · rw [heq]
    intro tx htx
    rcases List.mem_append.mp htx with h1 | h1
    · exact hr tx h1
    · exact (hnew tx h1).1

theorem runCalls_types (calls : List Call) (h : Heap) (r : Nat)
    (hr : ∀ tx ∈ (h r).transactions, tx.transactionType ∈ writtenTypes) :
    ∀ tx ∈ (runCalls h calls r).transactions, tx.transactionType ∈ writtenTypes := by
  induction calls generalizing h with
  | nil => exact hr
  | cons c cs ih => exact ih (Call.run h c) (Call_run_types h c r hr)

theorem demo_user1_constructed :
    IndividualAccount.new (.string "145xs6s51s51x5ssx1") (.number 1000) = .ok (demoHeap 0) := by
  have hlen : utf16Length "145xs6s51s51x5ssx1" = 18 := by decide
  simp [IndividualAccount.new, BankAccount.new, validateAccountNumber, withDefault, demoHeap,
    user1, hlen]

theorem demo_transfer_returns :
    (transferFunds demoHeap 0 (.account 1) 100).error = none := by
  have hle : (100 : ℚ) ≤ (demoHeap 0).balance := by norm_num [demoHeap, user1]
  rw [transferFunds_of_covered_ne demoHeap 0 1 100 (by norm_num) hle (by decide)]

/-- C1. Transfer is all-or-nothing. For every store, every source account (holding a
balance that is not negative, as every account does), every target account (distinct
from the source or not) and every amount above the source's balance, the withdrawal
from the source fails, `transferFunds` throws `InsufficientFundsError`, and the
balance and the transaction list of the source and of the target are what they
were: the store as a whole is unchanged. -/
theorem transferFunds_all_or_nothing (h : Heap) (self target : Nat) (amount : ℚ)
    (hbal : 0 ≤ getBalance h self) (hlt : getBalance h self < amount) :
    (withdraw h self amount).error = some .InsufficientFundsError ∧
    (transferFunds h self (.account target) amount).error = some .InsufficientFundsError ∧
    (transferFunds h self (.account target) amount).heap = h ∧
    getBalance (transferFunds h self (.account target) amount).heap self = getBalance h self ∧
    transactionsGet (transferFunds h self (.account target) amount).heap self
      = transactionsGet h self ∧
    getBalance (transferFunds h self (.account target) amount).heap target
      = getBalance h target ∧
    transactionsGet (transferFunds h self (.account target) amount).heap target
      = transactionsGet h target := by
  have ha : 0 < amount := lt_of_le_of_lt hbal hlt
  rw [transferFunds_of_insufficient h self target amount ha hlt,
    withdraw_of_insufficient h self amount ha hlt]
  exact ⟨rfl, rfl, rfl, rfl, rfl, rfl, rfl⟩

/-- Witness for C1: `user1` (balance 1000) cannot transfer 5000 to `user2`. -/
theorem transferFunds_all_or_nothing_witness :
    (transferFunds demoHeap 0 (.account 1) 5000).error = some .InsufficientFundsError ∧
    (transferFunds demoHeap 0 (.account 1) 5000).heap = demoHeap :=
  have w := transferFunds_all_or_nothing demoHeap 0 1 5000
    (by norm_num [getBalance, demoHeap, user1]) (by norm_num [getBalance, demoHeap, user1])
  ⟨w.2.1, w.2.2.1⟩

/-- C2. For every account (holding a balance that is not negative, as every account
does) and every amount above the balance, `withdraw` throws `InsufficientFundsError`
and leaves the balance and the transaction list as they were: the store as a whole is
unchanged. -/
theorem withdraw_insufficient_no_mutation (h : Heap) (self : Nat) (amount : ℚ)
    (hbal : 0 ≤ getBalance h self) (hlt : getBalance h self < amount) :
    (withdraw h self amount).error = some .InsufficientFundsError ∧
    (withdraw h self amount).heap = h ∧
    getBalance (withdraw h self amount).heap self = getBalance h self ∧
    transactionsGet (withdraw h self amount).heap self = transactionsGet h self := by
  have ha : 0 < amount := lt_of_le_of_lt hbal hlt
  rw [withdraw_of_insufficient h self amount ha hlt]
  exact ⟨rfl, rfl, rfl, rfl⟩

/-- Witness for C2: `user2` (balance 300) cannot withdraw 301. -/
theorem withdraw_insufficient_no_mutation_witness :
    (withdraw demoHeap 1 301).error = some .InsufficientFundsError ∧
    (withdraw demoHeap 1 301).heap = demoHeap :=
  have w := withdraw_insufficient_no_mutation demoHeap 1 301
    (by norm_num [getBalance, demoHeap, user2]) (by norm_num [getBalance, demoHeap, user2])
  ⟨w.1, w.2.1⟩

/-- On finite amounts in exact arithmetic the balance never goes negative. Take any
store and any account in it that its constructor returned (so that its initial balance
is at least 0). After any finite sequence of `deposit`, `withdraw` and `transferFunds`
calls, made on any accounts with any targets and finite amounts, returning or throwing,
the account's balance is at least 0. -/
theorem finite_balance_never_negative (h : Heap) (r : Nat) (accountNumber initialBalance : JSValue)
    (hnew : IndividualAccount.new accountNumber initialBalance = .ok (h r))
    (calls : List Call) :
    0 ≤ getBalance (runCalls h calls) r :=
  runCalls_balance_nonneg calls h r (IndividualAccount_new_ok _ _ _ hnew).1

/-- An instance: `user1` after a transfer out, a refused withdrawal, a transfer in, a
refused deposit and a withdrawal of all that is left. -/
theorem finite_balance_never_negative_witness :
    0 ≤ getBalance
      (runCalls demoHeap
        [.transferFunds 0 (.account 1) 100, .withdraw 0 5000, .transferFunds 1 (.account 0) 50,
         .deposit 0 (-3), .withdraw 0 950]) 0 :=
  finite_balance_never_negative demoHeap 0 (.string "145xs6s51s51x5ssx1") (.number 1000)
    demo_user1_constructed _


/-- C4. For every account and every amount `a > 0`, `deposit(a)` returns, the balance
afterwards is the balance before plus `a`, and the transaction list afterwards is the
list before followed by exactly one record: type DEPOSIT, amount `a`, no source, and
the account's own number as destination. A deposit with `a ≤ 0` throws
`ValidationError` (and leaves the store as it was). -/
theorem deposit_adds_amount_and_record (h : Heap) (self : Nat) (a : ℚ) :
    (0 < a →
      (deposit h self a).error = none ∧
      getBalance (deposit h self a).heap self = getBalance h self + a ∧
      transactionsGet (deposit h self a).heap self
        = transactionsGet h self ++
          [{ accountNumber := (h self).accountNumber, amount := a,
             transactionType := "DEPOSIT", fromAccount := none,
             toAccount := some (h self).accountNumber }]) ∧
    (a ≤ 0 →
      (deposit h self a).error = some .ValidationError ∧ (deposit h self a).heap = h) := by
  constructor
  · intro ha
    rw [deposit_of_pos h self a ha]
    simp [getBalance, transactionsGet, depositRecord]
  · intro ha
    rw [deposit_of_nonpos h self a ha]
    exact ⟨rfl, rfl⟩

/-- Witness for C4: `user2` deposits 25; `user2` deposits 0. -/
theorem deposit_adds_amount_and_record_witness :
    ((deposit demoHeap 1 25).error = none ∧
      getBalance (deposit demoHeap 1 25).heap 1 = 325 ∧
      transactionsGet (deposit demoHeap 1 25).heap 1
        = [{ accountNumber := "AramAccount1234", amount := 25, transactionType := "DEPOSIT",
             fromAccount := none, toAccount := some "AramAccount1234" }]) ∧
    (deposit demoHeap 1 0).error = some .ValidationError := by
  have w1 := (deposit_adds_amount_and_record demoHeap 1 25).1 (by norm_num)
  have w2 := (deposit_adds_amount_and_record demoHeap 1 0).2 (le_refl 0)
  refine ⟨⟨w1.1, ?_, ?_⟩, w2.1⟩
  · rw [w1.2.1]; norm_num [getBalance, demoHeap, user2]
  · rw [w1.2.2]; simp [transactionsGet, demoHeap, user2]

/-- C5. For every pair of distinct accounts A and B and every amount `a` with
`0 < a ≤ A.balance`, `A.transferFunds(B, a)` returns, and afterwards A's balance is its
old value minus `a` and B's balance is its old value plus `a`. -/
theorem transferFunds_moves_amount (h : Heap) (A B : Nat) (a : ℚ)
    (hAB : A ≠ B) (hpos : 0 < a) (hle : a ≤ getBalance h A) :
    (transferFunds h A (.account B) a).error = none ∧
    getBalance (transferFunds h A (.account B) a).heap A = getBalance h A - a ∧
    getBalance (transferFunds h A (.account B) a).heap B = getBalance h B + a := by
  rw [transferFunds_of_covered_ne h A B a hpos hle (fun e => hAB e.symm)]
  simp [getBalance, Function.update_apply, hAB]

/-- Witness for C5, the scenario of the demo: A (1000) transfers 100 to B (300), then
A holds 900 and B holds 400. -/
theorem transferFunds_moves_amount_witness :
    (transferFunds demoHeap 0 (.account 1) 100).error = none ∧
    getBalance (transferFunds demoHeap 0 (.account 1) 100).heap 0 = 900 ∧
    getBalance (transferFunds demoHeap 0 (.account 1) 100).heap 1 = 400 := by
  have w := transferFunds_moves_amount demoHeap 0 1 100 (by decide) (by norm_num)
    (by norm_num [getBalance, demoHeap, user1])
  refine ⟨w.1, ?_, ?_⟩
  · rw [w.2.1]; norm_num [getBalance, demoHeap, user1]
  · rw [w.2.2]; norm_num [getBalance, demoHeap, user2]

/-- Counterexample to C6 as stated: after the successful transfer of the demo, no
record of the source's history has type TRANSFER_OUT, and the history holds a record
whose type (TRANSFER) is none of DEPOSIT, WITHDRAW, TRANSFER_OUT, TRANSFER_IN. -/
theorem transfer_out_type_counterexample :
    (transferFunds demoHeap 0 (.account 1) 100).error = none ∧
    (∀ tx ∈ transactionsGet (transferFunds demoHeap 0 (.account 1) 100).heap 0,
      tx.transactionType ≠ "TRANSFER_OUT") ∧
    (∃ tx ∈ transactionsGet (transferFunds demoHeap 0 (.account 1) 100).heap 0,
      tx.transactionType ∉ specTypes) := by
  have hle : (100 : ℚ) ≤ (demoHeap 0).balance := by norm_num [demoHeap, user1]
  rw [transferFunds_of_covered_ne demoHeap 0 1 100 (by norm_num) hle (by decide)]
  refine ⟨rfl, ?_, ?_⟩
  · simp [transactionsGet, demoHeap, user1, withdrawRecord, transferOutRecord]
  · refine ⟨transferOutRecord (demoHeap 0) (demoHeap 1) 100, ?_, ?_⟩
    · simp [transactionsGet]
    · simp [transferOutRecord, specTypes]

/-- C6, amended. (1) For every `A.transferFunds(B, a)` that returns, the records
appended are: when A and B are distinct, WITHDRAW then TRANSFER on A's history and
DEPOSIT then TRANSFER_IN on B's history; when B is A itself, WITHDRAW, DEPOSIT,
TRANSFER, TRANSFER_IN on that one history. The TRANSFER and the TRANSFER_IN record
have amount `a`, A's number as source and B's number as destination.
(2) Starting from accounts with empty histories (as the constructor leaves them), after
any sequence of `deposit`, `withdraw` and `transferFunds` calls every record of every
history has a type that is one of DEPOSIT, WITHDRAW, TRANSFER, TRANSFER_IN. -/
theorem transfer_records_and_types :
    (∀ (h : Heap) (A B : Nat) (a : ℚ),
      (transferFunds h A (.account B) a).error = none →
      (A ≠ B →
        transactionsGet (transferFunds h A (.account B) a).heap A
          = transactionsGet h A ++
            [{ accountNumber := (h A).accountNumber, amount := a,
               transactionType := "WITHDRAW",
               fromAccount := some (h A).accountNumber, toAccount := none },
             { accountNumber := (h A).accountNumber, amount := a,
               transactionType := "TRANSFER",
               fromAccount := some (h A).accountNumber,
               toAccount := some (h B).accountNumber }] ∧
        transactionsGet (transferFunds h A (.account B) a).heap B
          = transactionsGet h B ++
            [{ accountNumber := (h B).accountNumber, amount := a,
               transactionType := "DEPOSIT",
               fromAccount := none, toAccount := some (h B).accountNumber },
             { accountNumber := (h B).accountNumber, amount := a,
               transactionType := "TRANSFER_IN",
               fromAccount := some (h A).accountNumber,
               toAccount := some (h B).accountNumber }]) ∧
      (A = B →
        transactionsGet (transferFunds h A (.account B) a).heap A
          = transactionsGet h A ++
            [{ accountNumber := (h A).accountNumber, amount := a,
               transactionType := "WITHDRAW",
               fromAccount := some (h A).accountNumber, toAccount := none },
             { accountNumber := (h A).accountNumber, amount := a,
               transactionType := "DEPOSIT",
               fromAccount := none, toAccount := some (h A).accountNumber },
             { accountNumber := (h A).accountNumber, amount := a,
               transactionType := "TRANSFER",
               fromAccount := some (h A).accountNumber,
               toAccount := some (h A).accountNumber },
             { accountNumber := (h A).accountNumber, amount := a,
               transactionType := "TRANSFER_IN",
               fromAccount := some (h A).accountNumber,
               toAccount := some (h A).accountNumber }])) ∧
    (∀ (h : Heap) (calls : List Call), (∀ r, transactionsGet h r = []) →
      ∀ (r : Nat), ∀ tx ∈ transactionsGet (runCalls h calls) r,
        tx.transactionType ∈ writtenTypes) := by
  constructor
  · intro h A B a hok
    have hpos : 0 < a := by
      by_contra hn
      rw [transferFunds_of_nonpos h A B a (not_lt.mp hn)] at hok
      cases hok
    have hle : a ≤ (h A).balance := by
      by_contra hn
      rw [transferFunds_of_insufficient h A B a hpos (not_le.mp hn)] at hok
      cases hok
    constructor
    · intro hAB
      rw [transferFunds_of_covered_ne h A B a hpos hle (fun e => hAB e.symm)]
      simp [transactionsGet, Function.update_apply, hAB, withdrawRecord, depositRecord,
        transferOutRecord, transferInRecord]
    · intro hAB
      subst hAB
      rw [transferFunds_of_covered_self h A a hpos hle]
      simp [transactionsGet, withdrawRecord, depositRecord, transferOutRecord,
        transferInRecord]
  · intro h calls hinit r
    apply runCalls_types calls h r
    intro tx htx
    have := hinit r
    simp only [transactionsGet] at this
    rw [this] at htx
    cases htx

/-- Witness for C6 amended: the transfer of the demo. -/
theorem transfer_records_and_types_witness :
    transactionsGet (transferFunds demoHeap 0 (.account 1) 100).heap 0
      = [{ accountNumber := "145xs6s51s51x5ssx1", amount := 100,
           transactionType := "WITHDRAW",
           fromAccount := some "145xs6s51s51x5ssx1", toAccount := none },
         { accountNumber := "145xs6s51s51x5ssx1", amount := 100,
           transactionType := "TRANSFER",
           fromAccount := some "145xs6s51s51x5ssx1",
           toAccount := some "AramAccount1234" }] ∧
    transactionsGet (transferFunds demoHeap 0 (.account 1) 100).heap 1
      = [{ accountNumber := "AramAccount1234", amount := 100,
           transactionType := "DEPOSIT",
           fromAccount := none, toAccount := some "AramAccount1234" },
         { accountNumber := "AramAccount1234", amount := 100,
           transactionType := "TRANSFER_IN",
           fromAccount := some "145xs6s51s51x5ssx1",
           toAccount := some "AramAccount1234" }] := by
  have w := (transfer_records_and_types.1 demoHeap 0 1 100
    demo_transfer_returns).1 (by decide)
  refine ⟨?_, ?_⟩
  · rw [w.1]; simp [transactionsGet, demoHeap, user1, user2]
  · rw [w.2]; simp [transactionsGet, demoHeap, user1, user2]


/-- C7. `transferFunds` throws `InvalidTransactionError` whenever the target is not an
account, whatever the amount, and throws `ValidationError` whenever the target is an
account and the amount is at most 0. In both cases the store is left as it was, so no
balance and no transaction list changes. -/
theorem transferFunds_rejects_bad_arguments (h : Heap) (self : Nat) (targetAccount : JSValue)
    (amount : ℚ) :
    ((∀ t, targetAccount ≠ .account t) →
      (transferFunds h self targetAccount amount).error = some .InvalidTransactionError ∧
      (transferFunds h self targetAccount amount).heap = h) ∧
    (∀ t, targetAccount = .account t → amount ≤ 0 →
      (transferFunds h self targetAccount amount).error = some .ValidationError ∧
      (transferFunds h self targetAccount amount).heap = h) := by
  constructor
  · intro hv
    rw [transferFunds_of_not_account h self targetAccount amount hv]
    exact ⟨rfl, rfl⟩
  · intro t ht ha
    subst ht
    rw [transferFunds_of_nonpos h self t amount ha]
    exact ⟨rfl, rfl⟩

/-- Witness for C7: a transfer to `null`, and a transfer of -3 to `user2`. -/
theorem transferFunds_rejects_bad_arguments_witness :
    ((transferFunds demoHeap 0 .null 100).error = some .InvalidTransactionError ∧
      (transferFunds demoHeap 0 .null 100).heap = demoHeap) ∧
    ((transferFunds demoHeap 0 (.account 1) (-3)).error = some .ValidationError ∧
      (transferFunds demoHeap 0 (.account 1) (-3)).heap = demoHeap) :=
  ⟨(transferFunds_rejects_bad_arguments demoHeap 0 .null 100).1 (fun _ e => nomatch e),
   (transferFunds_rejects_bad_arguments demoHeap 0 (.account 1) (-3)).2 1 rfl (by norm_num)⟩

/-- Counterexample to C8 as stated: the public setter `balance` is none of deposit,
withdraw and transfer, and `user1.balance = -5` changes what `getBalance()` returns
from 1000 to -5. -/
theorem balance_setter_counterexample :
    getBalance demoHeap 0 = 1000 ∧
    getBalance (OtherOp.run demoHeap 0 (.balanceSet (-5))) 0 = -5 := by
  constructor
  · simp [getBalance, demoHeap, user1]
  · simp [getBalance, OtherOp.run, balanceSet]

/-- C8, amended. Besides `deposit`, `withdraw` and `transferFunds`, the one public
member of an account that changes what `getBalance()` returns is the setter `balance`:
after `acct.balance = v`, `getBalance()` on that account returns `v` (any number, no
check, no record) and every other account keeps its balance. Every other public member
(`getBalance`, the getters `balance` and `transactions`, `validateAccountNumber`,
`validateAccountType`) leaves the value returned by `getBalance()` on every account
unchanged. -/
theorem balance_changed_only_by_setter (h : Heap) (self : Nat) (op : OtherOp) :
    ((∀ v, op ≠ .balanceSet v) → ∀ r, getBalance (op.run h self) r = getBalance h r) ∧
    (∀ v, op = .balanceSet v →
      getBalance (op.run h self) self = v ∧
      transactionsGet (op.run h self) self = transactionsGet h self ∧
      ∀ r, r ≠ self → getBalance (op.run h self) r = getBalance h r) := by
  constructor
  · intro hop r
    cases op with
    | balanceSet v => exact absurd rfl (hop v)
    | _ => rfl
  · intro v hv
    subst hv
    refine ⟨?_, ?_, ?_⟩
    · simp [getBalance, OtherOp.run, balanceSet]
    · simp [transactionsGet, OtherOp.run, balanceSet]
    · intro r hr
      simp [getBalance, OtherOp.run, balanceSet, hr]

/-- Witness for C8 amended: reading through the getter leaves `getBalance()` at 1000,
and the setter moves it to 7. -/
theorem balance_changed_only_by_setter_witness :
    getBalance (OtherOp.run demoHeap 0 .balanceGet) 0 = getBalance demoHeap 0 ∧
    getBalance (OtherOp.run demoHeap 0 (.balanceSet 7)) 0 = 7 :=
  ⟨(balance_changed_only_by_setter demoHeap 0 .balanceGet).1 (fun _ e => nomatch e) 0,
   ((balance_changed_only_by_setter demoHeap 0 (.balanceSet 7)).2 7 rfl).1⟩

/-- C10 (code at the failing input, and beyond it). `new JointAccount("1234567890", 100,
["Ann", "Bob"])`, with a valid account number, a balance of 100 and two owners, throws
`ValidationError`; indeed the constructor throws `ValidationError` on every input,
because `super(accountNumber, "joint", balance)` hands the string `"joint"` to the base
constructor as the initial balance. -/
theorem JointAccount_new_always_fails :
    JointAccount.new (.string "1234567890") (.number 100) (.array ["Ann", "Bob"])
      = .error .ValidationError ∧
    ∀ accountNumber balance owners : JSValue,
      JointAccount.new accountNumber balance owners = .error .ValidationError := by
  have key : ∀ accountNumber balance owners : JSValue,
      JointAccount.new accountNumber balance owners = .error .ValidationError := by
    intro n b o
    have hb : BankAccount.new .JointAccount n (.string "joint") = .error .ValidationError := by
      unfold BankAccount.new
      simp only [reduceCtorEq, if_false]
      cases n with
      | string s =>
        by_cases hs : utf16Length s < 10
        · simp [validateAccountNumber, hs]
        · simp [validateAccountNumber, hs, withDefault]
      | _ => simp [validateAccountNumber]
    simp [JointAccount.new, hb]
  exact ⟨key _ _ _, key⟩

end Bank

/-! ## Restaurant.js: the claims -/

namespace Restaurant

/-- C9 (code at the failing inputs). Each dish constructor returns a dish with the
empty name and the price -5: `new Appetizer("", -5)`, `new Entree("", -5)` and
`new Dessert("", -5)` all succeed, and no constructor of the three ever throws for a
name or for a price at most 0. The setters, which run only on later assignment,
throw `ValidationError` for both values. -/
theorem Dish_constructors_skip_validation :
    Appetizer.new "" (-5)
      = .ok { name := "", price := -5, category := "appetizer", prepTime := none } ∧
    Entree.new "" (-5) none
      = .ok { name := "", price := -5, category := "entree", prepTime := some 15 } ∧
    Dessert.new "" (-5)
      = .ok { name := "", price := -5, category := "dessert", prepTime := none } ∧
    (∀ (name : String) (price : ℚ), price ≤ 0 →
      Appetizer.new name price
        = .ok { name := name, price := price, category := "appetizer", prepTime := none } ∧
      Entree.new name price none
        = .ok { name := name, price := price, category := "entree", prepTime := some 15 } ∧
      Dessert.new name price
        = .ok { name := name, price := price, category := "dessert", prepTime := none }) ∧
    (∀ d : Dish, d.setName "" = .error .ValidationError ∧
      d.setPrice (-5) = .error .ValidationError) := by
  have gen : ∀ (name : String) (price : ℚ), price ≤ 0 →
      Appetizer.new name price
        = .ok { name := name, price := price, category := "appetizer", prepTime := none } ∧
      Entree.new name price none
        = .ok { name := name, price := price, category := "entree", prepTime := some 15 } ∧
      Dessert.new name price
        = .ok { name := name, price := price, category := "dessert", prepTime := none } := by
    intro name price hp
    have h15 : ¬ price > 15 := by
      intro h
      have : (0 : ℚ) < 15 := by norm_num
      linarith
    refine ⟨?_, ?_, ?_⟩
    · simp [Appetizer.new, Dish.new]
    · simp [Entree.new, Dish.new]
    · simp [Dessert.new, Dish.new, h15]
  have h5 : (-5 : ℚ) ≤ 0 := by norm_num
  refine ⟨(gen "" (-5) h5).1, (gen "" (-5) h5).2.1, (gen "" (-5) h5).2.2, gen, ?_⟩
  intro d
  constructor
  · simp [Dish.setName]
  · simp [Dish.setPrice]

end Restaurant

/-! ## Restaurant.js: lemmas -/

namespace Restaurant

/-! ### Maps -/

theorem JSMap_has_eq_isSome {V : Type} (m : JSMap V) (key : String) :
    JSMap.has m key = (JSMap.get m key).isSome := by
  induction m with
  | nil => rfl
  | cons e rest ih =>
    by_cases h : e.1 = key
    · simp [JSMap.has, JSMap.get, h]
    · simp [JSMap.has, JSMap.get, h, ih]

theorem JSMap_has_iff_mem_keys {V : Type} (m : JSMap V) (key : String) :
    JSMap.has m key = true ↔ key ∈ JSMap.keys m := by
  induction m with
  | nil => simp [JSMap.has, JSMap.keys]
  | cons e rest ih =>
    by_cases h : e.1 = key
    · simp [JSMap.has, JSMap.keys, h]
    · have h2 : ¬ key = e.1 := fun x => h x.symm
      simp only [JSMap.has, h, if_false, ih]
      simp [JSMap.keys, h2]

theorem JSMap_get_set_self {V : Type} (m : JSMap V) (key : String) (v : V) :
    JSMap.get (JSMap.set m key v) key = some v := by
  induction m with
  | nil => simp [JSMap.set, JSMap.get]
  | cons e rest ih =>
    by_cases h : e.1 = key
    · simp [JSMap.set, JSMap.get, h]
    · simp [JSMap.set, JSMap.get, h, ih]

theorem JSMap_get_set_of_ne {V : Type} (m : JSMap V) (key k : String) (v : V) (hk : k ≠ key) :
    JSMap.get (JSMap.set m key v) k = JSMap.get m k := by
  have hk2 : ¬ key = k := fun x => hk x.symm
  induction m with
  | nil => simp [JSMap.set, JSMap.get, hk2]
  | cons e rest ih =>
    by_cases h : e.1 = key
    · have h3 : ¬ e.1 = k := fun x => hk (x.symm.trans h)
      simp [JSMap.set, JSMap.get, h, hk2, h3]
    · by_cases h4 : e.1 = k
      · subst h4
        simp [JSMap.set, h, JSMap.get]
      · simp only [JSMap.set, h, if_false, JSMap.get, h4, ih]

theorem JSMap_set_of_not_has {V : Type} (m : JSMap V) (key : String) (v : V)
    (hk : JSMap.has m key = false) : JSMap.set m key v = m ++ [(key, v)] := by
  induction m with
  | nil => rfl
  | cons e rest ih =>
    by_cases h : e.1 = key
    · simp [JSMap.has, h] at hk
    · simp only [JSMap.has, h, if_false] at hk
      simp [JSMap.set, h, ih hk]

theorem JSMap_keys_set_of_has {V : Type} (m : JSMap V) (key : String) (v : V)
    (hk : JSMap.has m key = true) : JSMap.keys (JSMap.set m key v) = JSMap.keys m := by
  induction m with
  | nil => simp [JSMap.has] at hk
  | cons e rest ih =>
    by_cases h : e.1 = key
    · simp [JSMap.set, JSMap.keys, h]
    · simp only [JSMap.has, h, if_false] at hk
      have := ih hk
      simp only [JSMap.keys] at this
      simp [JSMap.set, JSMap.keys, h, this]

theorem JSMap_keys_set_of_not_has {V : Type} (m : JSMap V) (key : String) (v : V)
    (hk : JSMap.has m key = false) : JSMap.keys (JSMap.set m key v) = JSMap.keys m ++ [key] := by
  rw [JSMap_set_of_not_has m key v hk]
  simp [JSMap.keys]

theorem JSMap_keys_nodup_set {V : Type} (m : JSMap V) (key : String) (v : V)
    (hm : (JSMap.keys m).Nodup) : (JSMap.keys (JSMap.set m key v)).Nodup := by
  by_cases hk : JSMap.has m key = true
  · rw [JSMap_keys_set_of_has m key v hk]; exact hm
  · have hk2 : JSMap.has m key = false := by simpa using hk
    rw [JSMap_keys_set_of_not_has m key v hk2]
    have hnot : key ∉ JSMap.keys m := fun hmem => hk ((JSMap_has_iff_mem_keys m key).mpr hmem)
    exact List.Nodup.append hm (List.nodup_singleton key)
      (by
        intro a ha hb
        simp only [List.mem_singleton] at hb
        exact hnot (hb ▸ ha))

theorem JSMap_keys_delete_sublist {V : Type} (m : JSMap V) (key : String) :
    (JSMap.keys (JSMap.delete m key)).Sublist (JSMap.keys m) := by
  induction m with
  | nil => exact List.Sublist.refl _
  | cons e rest ih =>
    by_cases h : e.1 = key
    · simp only [JSMap.delete, h, if_true]
      exact List.Sublist.cons _ ih
    · simp only [JSMap.delete, h, if_false]
      exact List.Sublist.cons₂ _ ih

theorem JSMap_keys_nodup_delete {V : Type} (m : JSMap V) (key : String)
    (hm : (JSMap.keys m).Nodup) : (JSMap.keys (JSMap.delete m key)).Nodup :=
  hm.sublist (JSMap_keys_delete_sublist m key)

theorem JSMap_has_delete_self {V : Type} (m : JSMap V) (key : String) :
    JSMap.has (JSMap.delete m key) key = false := by
  induction m with
  | nil => rfl
  | cons e rest ih =>
    by_cases h : e.1 = key
    · simp [JSMap.delete, h, ih]
    · simp [JSMap.delete, JSMap.has, h, ih]

theorem JSMap_get_delete_of_ne {V : Type} (m : JSMap V) (key k : String) (hk : k ≠ key) :
    JSMap.get (JSMap.delete m key) k = JSMap.get m k := by
  induction m with
  | nil => rfl
  | cons e rest ih =>
    by_cases h : e.1 = key
    · have h3 : ¬ e.1 = k := fun x => hk (x.symm.trans h)
      simp only [JSMap.delete, h, if_true, JSMap.get, ih]
      rw [if_neg (h ▸ h3)]
    · by_cases h4 : e.1 = k
      · subst h4
        simp [JSMap.delete, h, JSMap.get]
      · simp only [JSMap.delete, h, if_false, JSMap.get, h4, ih]

end Restaurant

/-! ## Bank.js: the transaction history -/

namespace Bank

theorem Call_run_amounts (h : Heap) (c : Call) (r : Nat)
    (hr : ∀ tx ∈ (h r).transactions, 0 < tx.amount) :
    ∀ tx ∈ (Call.run h c r).transactions, 0 < tx.amount := by
  rcases Call_run_account h c r with hsame | ⟨a, new, d, ha, -, hnew, heq⟩
  · rw [hsame]; exact hr
  · rw [heq]
    intro tx htx
    rcases List.mem_append.mp htx with h1 | h1
    · exact hr tx h1
    · rw [(hnew tx h1).2]; exact ha

theorem runCalls_amounts (calls : List Call) (h : Heap) (r : Nat)
    (hr : ∀ tx ∈ (h r).transactions, 0 < tx.amount) :
    ∀ tx ∈ (runCalls h calls r).transactions, 0 < tx.amount := by
  induction calls generalizing h with
  | nil => exact hr
  | cons c cs ih => exact ih (Call.run h c) (Call_run_amounts h c r hr)

theorem Call_run_extends (h : Heap) (c : Call) (r : Nat) :
    (h r).transactions <+: (Call.run h c r).transactions := by
  rcases Call_run_account h c r with hsame | ⟨a, new, d, -, -, -, heq⟩
  · rw [hsame]
  · rw [heq]; exact List.prefix_append _ _

theorem runCalls_extends (calls : List Call) (h : Heap) (r : Nat) :
    (h r).transactions <+: (runCalls h calls r).transactions := by
  induction calls generalizing h with
  | nil => exact List.prefix_refl _
  | cons c cs ih => exact (Call_run_extends h c r).trans (ih (Call.run h c))

/-- C20. The transaction history is append-only. (1) For every `deposit`, `withdraw`
or `transferFunds` call, returning or throwing, and every account of the store, the
account's transaction list before the call is a prefix of its list after the call;
the same holds across any finite sequence of such calls. (2) Starting from accounts
whose histories are empty (as the constructor leaves them), after any sequence of such
calls every recorded transaction has an amount above 0. -/
theorem history_append_only :
    (∀ (h : Heap) (c : Call) (r : Nat),
      transactionsGet h r <+: transactionsGet (Call.run h c) r) ∧
    (∀ (h : Heap) (calls : List Call) (r : Nat),
      transactionsGet h r <+: transactionsGet (runCalls h calls) r) ∧
    (∀ (h : Heap) (calls : List Call), (∀ r, transactionsGet h r = []) →
      ∀ (r : Nat), ∀ tx ∈ transactionsGet (runCalls h calls) r, 0 < tx.amount) := by
  refine ⟨Call_run_extends, fun h calls r => runCalls_extends calls h r, ?_⟩
  intro h calls hinit r
  apply runCalls_amounts calls h r
  intro tx htx
  have := hinit r
  simp only [transactionsGet] at this
  rw [this] at htx
  cases htx

/-- Witness for C20: the history of `user2` after the transfer of the demo extends
its empty history, and both records carry the amount 100. -/
theorem history_append_only_witness :
    transactionsGet demoHeap 1
      <+: transactionsGet (Call.run demoHeap (.transferFunds 0 (.account 1) 100)) 1 ∧
    (transactionsGet (runCalls demoHeap [.transferFunds 0 (.account 1) 100]) 1).map
      (fun tx => tx.amount) = [100, 100] := by
  refine ⟨history_append_only.1 demoHeap _ 1, ?_⟩
  have hle : (100 : ℚ) ≤ (demoHeap 0).balance := by norm_num [demoHeap, user1]
  simp [runCalls, Call.run, transactionsGet,
    transferFunds_of_covered_ne demoHeap 0 1 100 (by norm_num) hle (by decide),
    depositRecord, transferInRecord, demoHeap, user2]

end Bank

/-! ## Restaurant.js: menus -/

namespace Restaurant

section
variable (toLowerCase : String → String)

theorem Menu_getDish_of_get (menu : Menu) (dishName : String) (ref : Nat)
    (h : JSMap.get menu.dishes (toLowerCase dishName) = some ref) :
    Menu.getDish toLowerCase menu dishName = .ok ref := by
  have hhas : JSMap.has menu.dishes (toLowerCase dishName) = true := by
    rw [JSMap_has_eq_isSome, h]; rfl
  simp [Menu.getDish, hhas, h]

theorem Menu_getDish_of_get_none (menu : Menu) (dishName : String)
    (h : JSMap.get menu.dishes (toLowerCase dishName) = none) :
    Menu.getDish toLowerCase menu dishName = .error .DishNotFoundError := by
  have hhas : JSMap.has menu.dishes (toLowerCase dishName) = false := by
    rw [JSMap_has_eq_isSome, h]; rfl
  simp [Menu.getDish, hhas]

theorem Menu_getDish_ok_iff (menu : Menu) (dishName : String) (ref : Nat) :
    Menu.getDish toLowerCase menu dishName = .ok ref
      ↔ JSMap.get menu.dishes (toLowerCase dishName) = some ref := by
  constructor
  · intro h
    cases hg : JSMap.get menu.dishes (toLowerCase dishName) with
    | none => rw [Menu_getDish_of_get_none toLowerCase menu dishName hg] at h; cases h
    | some r =>
      rw [Menu_getDish_of_get toLowerCase menu dishName r hg] at h
      cases h; rfl
  · exact Menu_getDish_of_get toLowerCase menu dishName ref

theorem JSMap_get_eq_none_iff {V : Type} (m : JSMap V) (key : String) :
    JSMap.get m key = none ↔ key ∉ JSMap.keys m := by
  rw [← JSMap_has_iff_mem_keys, JSMap_has_eq_isSome]
  cases JSMap.get m key <;> simp

/-- C15. Menu lookup is case-insensitive and decided by the lowercased name alone.
(1) After `addDish` of a dish named `n`, for every query `q` whose lowercase form is
that of `n`, `hasDish(q)` is true and `getDish(q)` returns that dish. (2) `getDish(q)`
throws `DishNotFoundError` exactly when no entry has the key `lowercase(q)`, and so
does `removeDish(q)`; with such an entry both return. (3) After a `removeDish(q)` that
returned, `hasDish(q)` is false. -/
theorem menu_lookup_by_lowercased_name (store : DishStore) (menu : Menu) (q : String) :
    (∀ ref : Nat, toLowerCase q = toLowerCase (store ref).name →
      (Menu.addDish toLowerCase store menu (.dish ref)).error = none ∧
      Menu.hasDish toLowerCase (Menu.addDish toLowerCase store menu (.dish ref)).state q = true ∧
      Menu.getDish toLowerCase (Menu.addDish toLowerCase store menu (.dish ref)).state q
        = .ok ref) ∧
    (Menu.getDish toLowerCase menu q = .error .DishNotFoundError
      ↔ toLowerCase q ∉ JSMap.keys menu.dishes) ∧
    ((Menu.removeDish toLowerCase menu q).error = some .DishNotFoundError
      ↔ toLowerCase q ∉ JSMap.keys menu.dishes) ∧
    (toLowerCase q ∈ JSMap.keys menu.dishes →
      (∃ ref, Menu.getDish toLowerCase menu q = .ok ref) ∧
      (Menu.removeDish toLowerCase menu q).error = none) ∧
    ((Menu.removeDish toLowerCase menu q).error = none →
      Menu.hasDish toLowerCase (Menu.removeDish toLowerCase menu q).state q = false) := by
  refine ⟨?_, ?_, ?_, ?_, ?_⟩
  · intro ref hq
    have hget : JSMap.get (JSMap.set menu.dishes (toLowerCase (store ref).name) ref)
        (toLowerCase q) = some ref := by
      rw [hq]; exact JSMap_get_set_self _ _ _
    refine ⟨rfl, ?_, ?_⟩
    · simp only [Menu.hasDish, Menu.addDish, JSMap_has_eq_isSome, hget]; rfl
    · exact Menu_getDish_of_get toLowerCase _ q ref hget
  · rw [← JSMap_get_eq_none_iff]
    constructor
    · intro h
      cases hg : JSMap.get menu.dishes (toLowerCase q) with
      | none => rfl
      | some r => rw [Menu_getDish_of_get toLowerCase menu q r hg] at h; cases h
    · exact Menu_getDish_of_get_none toLowerCase menu q
  · rw [← JSMap_has_iff_mem_keys]
    by_cases hk : JSMap.has menu.dishes (toLowerCase q) = true
    · simp [Menu.removeDish, hk]
    · simp [Menu.removeDish, hk]
  · intro hmem
    have hk : JSMap.has menu.dishes (toLowerCase q) = true :=
      (JSMap_has_iff_mem_keys _ _).mpr hmem
    constructor
    · cases hg : JSMap.get menu.dishes (toLowerCase q) with
      | none => rw [JSMap_has_eq_isSome, hg] at hk; cases hk
      | some r => exact ⟨r, Menu_getDish_of_get toLowerCase menu q r hg⟩
    · simp [Menu.removeDish, hk]
  · intro hok
    by_cases hk : JSMap.has menu.dishes (toLowerCase q) = true
    · simp [Menu.removeDish, hk, Menu.hasDish, JSMap_has_delete_self]
    · simp [Menu.removeDish, hk] at hok

end

/-- Witness for C15: with "Bruschetta" added to an empty appetizer menu, the query
"bruschetta" finds it; in the demo's entree menu the query "BRUSCHETTA" finds nothing. -/
theorem menu_lookup_by_lowercased_name_witness :
    (Menu.hasDish asciiLower
        (Menu.addDish asciiLower demoStore ⟨"AppetizersMenu", []⟩ (.dish 0)).state
        "bruschetta" = true ∧
      Menu.getDish asciiLower
        (Menu.addDish asciiLower demoStore ⟨"AppetizersMenu", []⟩ (.dish 0)).state
        "bruschetta" = .ok 0) ∧
    Menu.getDish asciiLower demoEntreeMenu "BRUSCHETTA" = .error .DishNotFoundError :=
  ⟨((menu_lookup_by_lowercased_name asciiLower demoStore ⟨"AppetizersMenu", []⟩
      "bruschetta").1 0 (by decide)).2,
   (menu_lookup_by_lowercased_name asciiLower demoStore demoEntreeMenu "BRUSCHETTA").2.1.mpr
      (by decide)⟩


section
variable (toLowerCase : String → String)

theorem MenuCall_run_keys_nodup (store : DishStore) (menu : Menu) (c : MenuCall)
    (hm : (JSMap.keys menu.dishes).Nodup) :
    (JSMap.keys (MenuCall.run toLowerCase store menu c).dishes).Nodup := by
  cases c with
  | addDish dish =>
    cases dish with
    | other => exact hm
    | dish ref => exact JSMap_keys_nodup_set _ _ _ hm
  | removeDish dishName =>
    by_cases hk : JSMap.has menu.dishes (toLowerCase dishName) = true
    · simp only [MenuCall.run, Menu.removeDish, hk, not_true_eq_false, if_false]
      exact JSMap_keys_nodup_delete _ _ hm
    · simp only [MenuCall.run, Menu.removeDish, hk, not_false_eq_true, if_true]
      exact hm

theorem Menu_runCalls_keys_nodup (store : DishStore) (calls : List MenuCall) (menu : Menu)
    (hm : (JSMap.keys menu.dishes).Nodup) :
    (JSMap.keys (Menu.runCalls toLowerCase store menu calls).dishes).Nodup := by
  induction calls generalizing menu with
  | nil => exact hm
  | cons c cs ih => exact ih _ (MenuCall_run_keys_nodup toLowerCase store menu c hm)

theorem JSMap_keys_nodup_unique {V : Type} (m : JSMap V) (hm : (JSMap.keys m).Nodup)
    (key : String) (v w : V) (hv : (key, v) ∈ m) (hw : (key, w) ∈ m) : v = w := by
  induction m with
  | nil => cases hv
  | cons e rest ih =>
    simp only [JSMap.keys, List.map_cons, List.nodup_cons] at hm
    rcases List.mem_cons.mp hv with h1 | h1 <;> rcases List.mem_cons.mp hw with h2 | h2
    · rw [← h2] at h1; exact (Prod.mk.inj h1).2
    · exfalso; apply hm.1; rw [← h1]; exact List.mem_map_of_mem (fun e => e.1) h2
    · exfalso; apply hm.1; rw [← h2]; exact List.mem_map_of_mem (fun e => e.1) h1
    · exact ih hm.2 h1 h2

/-- C16. Menu keys stay unique and the last write wins. (1) For a menu as its
constructor returns it, after any sequence of `addDish` and `removeDish` calls no key
occurs twice among the entries, so a lowercased name leads to at most one dish.
(2) Adding a dish whose lowercased name is an existing key puts the new dish under
that key, and changes neither the number of entries, nor the keys and their order, nor
the dish under any other key. -/
theorem menu_keys_unique_last_write_wins :
    (∀ (store : DishStore) (cls : MenuClass) (menuType : String) (menu : Menu)
        (calls : List MenuCall),
      Menu.new cls menuType = .ok menu →
      (JSMap.keys (Menu.runCalls toLowerCase store menu calls).dishes).Nodup ∧
      ∀ (key : String) (d e : Nat),
        (key, d) ∈ (Menu.runCalls toLowerCase store menu calls).dishes →
        (key, e) ∈ (Menu.runCalls toLowerCase store menu calls).dishes → d = e) ∧
    (∀ (store : DishStore) (menu : Menu) (ref : Nat),
      toLowerCase (store ref).name ∈ JSMap.keys menu.dishes →
      JSMap.get (Menu.addDish toLowerCase store menu (.dish ref)).state.dishes
          (toLowerCase (store ref).name) = some ref ∧
      (Menu.addDish toLowerCase store menu (.dish ref)).state.dishes.length
          = menu.dishes.length ∧
      JSMap.keys (Menu.addDish toLowerCase store menu (.dish ref)).state.dishes
          = JSMap.keys menu.dishes ∧
      ∀ k, k ≠ toLowerCase (store ref).name →
        JSMap.get (Menu.addDish toLowerCase store menu (.dish ref)).state.dishes k
          = JSMap.get menu.dishes k) := by
  constructor
  · intro store cls menuType menu calls hnew
    have hempty : menu.dishes = [] := by
      unfold Menu.new at hnew
      split at hnew
      · cases hnew
      · cases hnew; rfl
    have hnodup := Menu_runCalls_keys_nodup toLowerCase store calls menu
      (by rw [hempty]; exact List.nodup_nil)
    exact ⟨hnodup, fun key d e hd he => JSMap_keys_nodup_unique _ hnodup key d e hd he⟩
  · intro store menu ref hmem
    have hk : JSMap.has menu.dishes (toLowerCase (store ref).name) = true :=
      (JSMap_has_iff_mem_keys _ _).mpr hmem
    have hkeys := JSMap_keys_set_of_has menu.dishes (toLowerCase (store ref).name) ref hk
    refine ⟨JSMap_get_set_self _ _ _, ?_, hkeys, ?_⟩
    · have := congrArg List.length hkeys
      simpa [JSMap.keys] using this
    · intro k hne
      exact JSMap_get_set_of_ne _ _ _ _ hne

end

/-- Witness for C16: a second dish named "Tiramisu" (reference 6) added to the dessert
menu of the demo takes the place of the first under the key "tiramisu"; the menu keeps
its two entries and the chocolate cake. -/
theorem menu_keys_unique_last_write_wins_witness :
    (Menu.addDish asciiLower demoStore demoDessertMenu (.dish 6)).state.dishes
        = [("chocolate cake", 4), ("tiramisu", 6)] ∧
    JSMap.get (Menu.addDish asciiLower demoStore demoDessertMenu (.dish 6)).state.dishes
        (asciiLower (demoStore 6).name) = some 6 ∧
    (Menu.addDish asciiLower demoStore demoDessertMenu (.dish 6)).state.dishes.length
        = demoDessertMenu.dishes.length :=
  ⟨by decide,
   ((menu_keys_unique_last_write_wins asciiLower).2 demoStore demoDessertMenu 6
      (by decide)).1,
   ((menu_keys_unique_last_write_wins asciiLower).2 demoStore demoDessertMenu 6
      (by decide)).2.1⟩

end Restaurant

/-! ## Restaurant.js: prices -/

namespace Restaurant

theorem assignPrice_of_pos (store : DishStore) (ref : Nat) (v : ℚ) (hv : 0 < v) :
    assignPrice store ref v = ⟨Function.update store ref { store ref with price := v }, none⟩ := by
  have hn : ¬ v ≤ 0 := not_le.mpr hv
  simp [assignPrice, Dish.setPrice, hn]

theorem assignPrice_of_nonpos (store : DishStore) (ref : Nat) (v : ℚ) (hv : v ≤ 0) :
    assignPrice store ref v = ⟨store, some .ValidationError⟩ := by
  simp [assignPrice, Dish.setPrice, hv]

section
variable (toLowerCase : String → String)

theorem Menu_increasePrice_of_found (store : DishStore) (menu : Menu) (dishName : String)
    (percent : ℚ) (ref : Nat) (hget : Menu.getDish toLowerCase menu dishName = .ok ref) :
    Menu.increasePrice toLowerCase store menu dishName percent
      = assignPrice store ref ((store ref).price + (store ref).price * (percent / 100)) := by
  simp [Menu.increasePrice, hget]

theorem Menu_increasePrice_of_missing (store : DishStore) (menu : Menu) (dishName : String)
    (percent : ℚ) (hget : JSMap.get menu.dishes (toLowerCase dishName) = none) :
    Menu.increasePrice toLowerCase store menu dishName percent
      = ⟨store, some .DishNotFoundError⟩ := by
  simp [Menu.increasePrice, Menu_getDish_of_get_none toLowerCase menu dishName hget]

theorem Menu_decreasePrice_of_found (store : DishStore) (menu : Menu) (dishName : String)
    (percent : ℚ) (ref : Nat) (hget : Menu.getDish toLowerCase menu dishName = .ok ref) :
    Menu.decreasePrice toLowerCase store menu dishName percent
      = if (store ref).price - (store ref).price * (percent / 100) ≤ 0 then
          ⟨store, some .ValidationError⟩
        else
          assignPrice store ref ((store ref).price - (store ref).price * (percent / 100)) := by
  simp [Menu.decreasePrice, hget]

/-- C17 (the code on every dish of a menu, the failing inputs included). Let the dish
that `getDish(dishName)` returns have price `p`, and let `r` be the percent.
(1) An `increasePrice` that returns sets the price to `p * (1 + r/100)`.
(2) For `p > 0`, `increasePrice` returns for every `r ≥ 0`.
(3) For `p ≤ 0`, a price that the constructors accept, `increasePrice` throws
`ValidationError` for every `r ≥ 0` and leaves the price as it was.
(4) `decreasePrice` sets the price to `p * (1 - r/100)` when that is above 0, and
otherwise throws `ValidationError` and leaves every dish as it was. -/
theorem price_change_by_percent (store : DishStore) (menu : Menu) (dishName : String)
    (r : ℚ) (ref : Nat) (hget : Menu.getDish toLowerCase menu dishName = .ok ref) :
    ((Menu.increasePrice toLowerCase store menu dishName r).error = none →
      ((Menu.increasePrice toLowerCase store menu dishName r).state ref).price
        = (store ref).price * (1 + r / 100)) ∧
    (0 < (store ref).price → 0 ≤ r →
      (Menu.increasePrice toLowerCase store menu dishName r).error = none) ∧
    ((store ref).price ≤ 0 → 0 ≤ r →
      (Menu.increasePrice toLowerCase store menu dishName r).error = some .ValidationError ∧
      (Menu.increasePrice toLowerCase store menu dishName r).state = store) ∧
    (0 < (store ref).price * (1 - r / 100) →
      (Menu.decreasePrice toLowerCase store menu dishName r).error = none ∧
      ((Menu.decreasePrice toLowerCase store menu dishName r).state ref).price
        = (store ref).price * (1 - r / 100)) ∧
    ((store ref).price * (1 - r / 100) ≤ 0 →
      (Menu.decreasePrice toLowerCase store menu dishName r).error = some .ValidationError ∧
      (Menu.decreasePrice toLowerCase store menu dishName r).state = store) := by
  have hinc : (store ref).price + (store ref).price * (r / 100)
      = (store ref).price * (1 + r / 100) := by ring
  have hdec : (store ref).price - (store ref).price * (r / 100)
      = (store ref).price * (1 - r / 100) := by ring
  rw [Menu_increasePrice_of_found toLowerCase store menu dishName r ref hget,
    Menu_decreasePrice_of_found toLowerCase store menu dishName r ref hget, hinc, hdec]
  refine ⟨?_, ?_, ?_, ?_, ?_⟩
  · intro hok
    by_cases hv : 0 < (store ref).price * (1 + r / 100)
    · rw [assignPrice_of_pos store ref _ hv]; simp
    · rw [assignPrice_of_nonpos store ref _ (not_lt.mp hv)] at hok; cases hok
  · intro hp hr
    have hv : 0 < (store ref).price * (1 + r / 100) := by
      apply mul_pos hp
      have : 0 ≤ r / 100 := div_nonneg hr (by norm_num)
      linarith
    rw [assignPrice_of_pos store ref _ hv]
  · intro hp hr
    have hv : (store ref).price * (1 + r / 100) ≤ 0 := by
      apply mul_nonpos_of_nonpos_of_nonneg hp
      have : 0 ≤ r / 100 := div_nonneg hr (by norm_num)
      linarith
    rw [assignPrice_of_nonpos store ref _ hv]
    exact ⟨rfl, rfl⟩
  · intro hv
    rw [if_neg (not_le.mpr hv), assignPrice_of_pos store ref _ hv]
    simp
  · intro hv
    rw [if_pos hv]
    exact ⟨rfl, rfl⟩

end

theorem soup_constructed : Appetizer.new "Soup" (-5) = .ok (soupStore 6) := by
  simp [Appetizer.new, Dish.new, soupStore]

theorem soup_added :
    (Menu.addDish asciiLower soupStore ⟨"AppetizersMenu", []⟩ (.dish 6)).state = soupMenu := by
  decide

/-- Witness for C17. The demo: the grilled salmon at 24.99 raised by 15 percent costs
28.7385. The failing input: the dish that `new Appetizer("Soup", -5)` returns, added to
an empty appetizer menu, cannot be raised by 10 percent: `increasePrice("Soup", 10)`
throws `ValidationError`. -/
theorem price_change_by_percent_witness :
    ((Menu.increasePrice asciiLower demoStore demoEntreeMenu "Grilled Salmon" 15).error = none ∧
      ((Menu.increasePrice asciiLower demoStore demoEntreeMenu "Grilled Salmon" 15).state 2).price
        = 28.7385) ∧
    (Menu.increasePrice asciiLower soupStore soupMenu "Soup" 10).error
      = some .ValidationError := by
  have w := price_change_by_percent asciiLower demoStore demoEntreeMenu "Grilled Salmon" 15 2
    (Menu_getDish_of_get asciiLower _ _ _ (by decide))
  have hok := w.2.1 (by norm_num [demoStore]) (by norm_num)
  have v := price_change_by_percent asciiLower soupStore soupMenu "Soup" 10 6
    (Menu_getDish_of_get asciiLower _ _ _ (by decide))
  refine ⟨⟨hok, ?_⟩, (v.2.2.1 (by norm_num [soupStore]) (by norm_num)).1⟩
  rw [w.1 hok]
  norm_num [demoStore]


theorem tiramisu_constructed : Dessert.new "Tiramisu" 10.50 = .ok (demoStore 5) := by
  have h : ¬ ((10.50 : ℚ) > 15) := by norm_num
  simp [Dessert.new, Dish.new, demoStore, h]

/-- C18. Constructing a `Dessert` with a price above 15 throws `ValidationError`; yet
the ceiling is not kept by the menu: the dessert `new Dessert("Tiramisu", 10.50)` of the
demo, constructed at a price of at most 15 and held by the dessert menu, comes out of
`increasePrice("Tiramisu", 50)` without an exception and with the price 15.75. -/
theorem dessert_ceiling_not_invariant :
    (∀ (name : String) (price : ℚ), 15 < price →
      Dessert.new name price = .error .ValidationError) ∧
    (∃ (name : String) (price percent : ℚ) (store : DishStore) (menu : Menu) (ref : Nat),
      Dessert.new name price = .ok (store ref) ∧ price ≤ 15 ∧
      Menu.getDish asciiLower menu name = .ok ref ∧
      (Menu.increasePrice asciiLower store menu name percent).error = none ∧
      15 < ((Menu.increasePrice asciiLower store menu name percent).state ref).price) ∧
    ((Menu.increasePrice asciiLower demoStore demoDessertMenu "Tiramisu" 50).error = none ∧
      ((Menu.increasePrice asciiLower demoStore demoDessertMenu "Tiramisu" 50).state 5).price
        = 15.75) := by
  have hget : Menu.getDish asciiLower demoDessertMenu "Tiramisu" = .ok 5 :=
    Menu_getDish_of_get asciiLower _ _ _ (by decide)
  have hv : (0 : ℚ) < (demoStore 5).price + (demoStore 5).price * (50 / 100) := by
    norm_num [demoStore]
  have hrun : Menu.increasePrice asciiLower demoStore demoDessertMenu "Tiramisu" 50
      = ⟨Function.update demoStore 5
          { demoStore 5 with
            price := (demoStore 5).price + (demoStore 5).price * (50 / 100) }, none⟩ := by
    rw [Menu_increasePrice_of_found asciiLower demoStore demoDessertMenu "Tiramisu" 50 5 hget,
      assignPrice_of_pos demoStore 5 _ hv]
  have hprice : ((Menu.increasePrice asciiLower demoStore demoDessertMenu "Tiramisu" 50).state
      5).price = 15.75 := by
    rw [hrun]
    norm_num [demoStore]
  have herr : (Menu.increasePrice asciiLower demoStore demoDessertMenu "Tiramisu" 50).error
      = none := by rw [hrun]
  refine ⟨?_, ?_, herr, hprice⟩
  · intro name price hp
    simp [Dessert.new, hp]
  · refine ⟨"Tiramisu", 10.50, 50, demoStore, demoDessertMenu, 5, tiramisu_constructed,
      by norm_num, hget, herr, ?_⟩
    rw [hprice]
    norm_num


section
variable (toLowerCase : String → String)

theorem Menu_applyDemandPricing_cons (store : DishStore) (menu : Menu) (n : String)
    (ns : List String) (percent : Option ℚ) :
    (Menu.applyDemandPricing toLowerCase store menu (n :: ns) percent).state
      = (Menu.applyDemandPricing toLowerCase
          (Menu.increasePrice toLowerCase store menu n (percent.getD 10)).state
          menu ns percent).state := rfl

theorem Menu_increasePrice_state (store : DishStore) (menu : Menu) (n : String) (pct : ℚ) :
    (Menu.increasePrice toLowerCase store menu n pct).state = store ∨
    ∃ ref, JSMap.get menu.dishes (toLowerCase n) = some ref ∧
      0 < (store ref).price * (1 + pct / 100) ∧
      (Menu.increasePrice toLowerCase store menu n pct).state
        = Function.update store ref
            { store ref with price := (store ref).price * (1 + pct / 100) } := by
  cases hg : JSMap.get menu.dishes (toLowerCase n) with
  | none => left; rw [Menu_increasePrice_of_missing toLowerCase store menu n pct hg]
  | some ref =>
    have hinc : (store ref).price + (store ref).price * (pct / 100)
        = (store ref).price * (1 + pct / 100) := by ring
    rw [Menu_increasePrice_of_found toLowerCase store menu n pct ref
      (Menu_getDish_of_get toLowerCase menu n ref hg), hinc]
    by_cases hv : 0 < (store ref).price * (1 + pct / 100)
    · right
      exact ⟨ref, rfl, hv, by rw [assignPrice_of_pos store ref _ hv]⟩
    · left; rw [assignPrice_of_nonpos store ref _ (not_lt.mp hv)]

theorem Menu_applyDemandPricing_unnamed (menu : Menu) (percent : Option ℚ) (ref : Nat)
    (names : List String) (store : DishStore)
    (hun : ∀ n ∈ names, JSMap.get menu.dishes (toLowerCase n) ≠ some ref) :
    (Menu.applyDemandPricing toLowerCase store menu names percent).state ref = store ref := by
  induction names generalizing store with
  | nil => rfl
  | cons n ns ih =>
    rw [Menu_applyDemandPricing_cons, ih _ (fun m hm => hun m (List.mem_cons_of_mem _ hm))]
    rcases Menu_increasePrice_state toLowerCase store menu n (percent.getD 10) with h | h
    · rw [h]
    · obtain ⟨r, hr, -, heq⟩ := h
      have hne : ref ≠ r := by
        intro e
        exact hun n (List.mem_cons_self _ _) (e ▸ hr)
      rw [heq, Function.update_noteq hne]

theorem Menu_applyDemandPricing_skips (menu : Menu) (percent : Option ℚ)
    (names : List String) (store : DishStore) :
    (Menu.applyDemandPricing toLowerCase store menu names percent).state
      = (Menu.applyDemandPricing toLowerCase store menu
          (names.filter (fun n => Menu.hasDish toLowerCase menu n)) percent).state := by
  induction names generalizing store with
  | nil => rfl
  | cons n ns ih =>
    by_cases hn : Menu.hasDish toLowerCase menu n = true
    · rw [List.filter_cons_of_pos hn, Menu_applyDemandPricing_cons,
        Menu_applyDemandPricing_cons, ih]
    · rw [List.filter_cons_of_neg hn, Menu_applyDemandPricing_cons, ← ih]
      have hg : JSMap.get menu.dishes (toLowerCase n) = none := by
        simp only [Menu.hasDish, JSMap_has_eq_isSome] at hn
        cases hx : JSMap.get menu.dishes (toLowerCase n) with
        | none => rfl
        | some r => rw [hx] at hn; exact absurd rfl hn
      rw [Menu_increasePrice_of_missing toLowerCase store menu n _ hg]

theorem Menu_applyDemandPricing_formula (menu : Menu) (percent : Option ℚ)
    (hx : 0 < 1 + percent.getD 10 / 100) (names : List String) (store : DishStore)
    (hp : Menu.Priced store menu) (ref : Nat) :
    (Menu.applyDemandPricing toLowerCase store menu names percent).state ref
      = { store ref with
          price := (store ref).price
            * (1 + percent.getD 10 / 100) ^ Menu.occurrences toLowerCase menu names ref } := by
  induction names generalizing store with
  | nil => simp [Menu.applyDemandPricing, Menu.occurrences]
  | cons n ns ih =>
    rw [Menu_applyDemandPricing_cons]
    cases hg : JSMap.get menu.dishes (toLowerCase n) with
    | none =>
      rw [Menu_increasePrice_of_missing toLowerCase store menu n _ hg, ih store hp]
      simp [Menu.occurrences, List.countP_cons, hg]
    | some r =>
      have hinc : (store r).price + (store r).price * (percent.getD 10 / 100)
          = (store r).price * (1 + percent.getD 10 / 100) := by ring
      have hv : 0 < (store r).price * (1 + percent.getD 10 / 100) :=
        mul_pos (hp _ _ hg) hx
      rw [Menu_increasePrice_of_found toLowerCase store menu n _ r
        (Menu_getDish_of_get toLowerCase menu n r hg), hinc, assignPrice_of_pos store r _ hv]
      have hp2 : Menu.Priced
          (Function.update store r
            { store r with price := (store r).price * (1 + percent.getD 10 / 100) }) menu := by
        intro key ref2 hk
        by_cases e : ref2 = r
        · subst e; simpa using hv
        · rw [Function.update_noteq e]; exact hp key ref2 hk
      rw [ih _ hp2]
      by_cases e : ref = r
      · subst e
        simp [Menu.occurrences, List.countP_cons, hg, pow_succ]
        ring
      · have hne : ¬ r = ref := fun x => e x.symm
        simp [Menu.occurrences, List.countP_cons, hg, Function.update_noteq e, hne]

theorem Menu_applyDemandPricing_all_refused (menu : Menu) (percent : Option ℚ)
    (hx : 1 + percent.getD 10 / 100 ≤ 0) (names : List String) (store : DishStore)
    (hp : Menu.Priced store menu) :
    (Menu.applyDemandPricing toLowerCase store menu names percent).state = store := by
  induction names generalizing store with
  | nil => rfl
  | cons n ns ih =>
    rw [Menu_applyDemandPricing_cons]
    rcases Menu_increasePrice_state toLowerCase store menu n (percent.getD 10) with h | h
    · rw [h]; exact ih store hp
    · obtain ⟨r, hr, hv, -⟩ := h
      exfalso
      have := mul_nonpos_of_nonneg_of_nonpos (le_of_lt (hp _ _ hr)) hx
      linarith

end


theorem demoStore_prices_pos (ref : Nat) : 0 < (demoStore ref).price := by
  unfold demoStore
  split <;> norm_num

/-- Counterexample to C19 as stated: "Tiramisu" is present in the dessert menu of the
demo, and `applyDemandPricing(["Tiramisu"], -100)` returns without raising, yet the
increase is not applied: the price stays 10.50, where the increase by -100 percent
would make it 0 (the setter refuses that price, and the exception is caught). -/
theorem demand_pricing_counterexample :
    Menu.hasDish asciiLower demoDessertMenu "Tiramisu" = true ∧
    (Menu.applyDemandPricing asciiLower demoStore demoDessertMenu ["Tiramisu"]
      (some (-100))).error = none ∧
    ((Menu.applyDemandPricing asciiLower demoStore demoDessertMenu ["Tiramisu"]
      (some (-100))).state 5).price = 10.50 ∧
    (demoStore 5).price * (1 + (-100 : ℚ) / 100) = 0 := by
  refine ⟨by decide, rfl, ?_, by norm_num⟩
  have h := Menu_applyDemandPricing_all_refused asciiLower demoDessertMenu (some (-100))
    (by norm_num) ["Tiramisu"] demoStore (fun _ ref _ => demoStore_prices_pos ref)
  rw [h]
  norm_num [demoStore]

section
variable (toLowerCase : String → String)

/-- C19, amended. For every menu, every list of dish names and every percent (10 when
omitted), `applyDemandPricing` never raises. (1) Names that are not in the menu are
skipped without stopping the batch: the outcome is that of the list with those names
left out. (2) A dish that no name of the list leads to is left as it was. (3) When the
dishes of the menu have prices above 0 and the percent is above -100, each name present
in the menu has the increase applied to its dish, once per occurrence: the price of a
dish is multiplied by `1 + percent/100` as many times as names of the list lead to it,
and nothing else changes. (4) When the dishes of the menu have prices above 0 and the
percent is at most -100, every increase is refused by the setter of `price`, the
exception is caught, and no dish changes. -/
theorem demand_pricing_partial_application (store : DishStore) (menu : Menu)
    (names : List String) (percent : Option ℚ) :
    (Menu.applyDemandPricing toLowerCase store menu names percent).error = none ∧
    (Menu.applyDemandPricing toLowerCase store menu names percent).state
      = (Menu.applyDemandPricing toLowerCase store menu
          (names.filter (fun n => Menu.hasDish toLowerCase menu n)) percent).state ∧
    (∀ ref : Nat, (∀ n ∈ names, JSMap.get menu.dishes (toLowerCase n) ≠ some ref) →
      (Menu.applyDemandPricing toLowerCase store menu names percent).state ref = store ref) ∧
    (Menu.Priced store menu → -100 < percent.getD 10 →
      ∀ ref : Nat,
        (Menu.applyDemandPricing toLowerCase store menu names percent).state ref
          = { store ref with
              price := (store ref).price
                * (1 + percent.getD 10 / 100)
                  ^ Menu.occurrences toLowerCase menu names ref }) ∧
    (Menu.Priced store menu → percent.getD 10 ≤ -100 →
      (Menu.applyDemandPricing toLowerCase store menu names percent).state = store) := by
  refine ⟨rfl, Menu_applyDemandPricing_skips toLowerCase menu percent names store,
    fun ref hun => Menu_applyDemandPricing_unnamed toLowerCase menu percent ref names store hun,
    ?_, ?_⟩
  · intro hp hpct ref
    have hx : 0 < 1 + percent.getD 10 / 100 := by
      have : -1 < percent.getD 10 / 100 := by
        rw [lt_div_iff₀ (by norm_num)]; linarith
      linarith
    exact Menu_applyDemandPricing_formula toLowerCase menu percent hx names store hp ref
  · intro hp hpct
    have hx : 1 + percent.getD 10 / 100 ≤ 0 := by
      have : percent.getD 10 / 100 ≤ -1 := by
        rw [div_le_iff₀ (by norm_num)]; linarith
      linarith
    exact Menu_applyDemandPricing_all_refused toLowerCase menu percent hx names store hp

end

/-- Witness for C19 amended: on the entree menu of the demo, the list "Grilled Salmon",
"Nope", "grilled SALMON" with the default 10 percent raises the salmon twice, from
24.99 to 30.2379, skips the unknown name and leaves the ribeye steak at 29.99. -/
theorem demand_pricing_partial_application_witness :
    (Menu.applyDemandPricing asciiLower demoStore demoEntreeMenu
      ["Grilled Salmon", "Nope", "grilled SALMON"] none).error = none ∧
    ((Menu.applyDemandPricing asciiLower demoStore demoEntreeMenu
      ["Grilled Salmon", "Nope", "grilled SALMON"] none).state 2).price = 30.2379 ∧
    ((Menu.applyDemandPricing asciiLower demoStore demoEntreeMenu
      ["Grilled Salmon", "Nope", "grilled SALMON"] none).state 3).price = 29.99 := by
  have w := demand_pricing_partial_application asciiLower demoStore demoEntreeMenu
    ["Grilled Salmon", "Nope", "grilled SALMON"] none
  have hp : Menu.Priced demoStore demoEntreeMenu := fun _ ref _ => demoStore_prices_pos ref
  have h2 := w.2.2.2.1 hp (by norm_num) 2
  have h3 := w.2.2.1 3 (by decide)
  have hocc : Menu.occurrences asciiLower demoEntreeMenu
      ["Grilled Salmon", "Nope", "grilled SALMON"] 2 = 2 := by decide
  refine ⟨w.1, ?_, ?_⟩
  · rw [h2, hocc]; norm_num [demoStore]
  · rw [h3]; norm_num [demoStore]

end Restaurant

/-! ## Restaurant.js: orders -/

namespace Restaurant

section
variable (toLowerCase : String → String)

theorem Menu_hasDish_iff_get (m : Menu) (dishName : String) :
    Menu.hasDish toLowerCase m dishName = true
      ↔ ∃ ref, JSMap.get m.dishes (toLowerCase dishName) = some ref := by
  simp only [Menu.hasDish, JSMap_has_eq_isSome]
  cases JSMap.get m.dishes (toLowerCase dishName) <;> simp

theorem Order_findDish_first (dishName : String) (pre : List Menu) (m : Menu)
    (post : List Menu) (ref : Nat)
    (hpre : ∀ m2 ∈ pre, Menu.hasDish toLowerCase m2 dishName = false)
    (hget : JSMap.get m.dishes (toLowerCase dishName) = some ref) :
    Order.findDish toLowerCase dishName (pre ++ m :: post) = .ok (some ref) := by
  induction pre with
  | nil =>
    have hm : Menu.hasDish toLowerCase m dishName = true :=
      (Menu_hasDish_iff_get toLowerCase m dishName).mpr ⟨ref, hget⟩
    simp [Order.findDish, hm, Menu_getDish_of_get toLowerCase m dishName ref hget]
  | cons a rest ih =>
    have ha := hpre a (List.mem_cons_self _ _)
    simp only [List.cons_append, Order.findDish, ha]
    exact ih (fun m2 h2 => hpre m2 (List.mem_cons_of_mem _ h2))

theorem Order_findDish_cases (dishName : String) (menus : List Menu) :
    (Order.findDish toLowerCase dishName menus = .ok none ∧
      ∀ m ∈ menus, Menu.hasDish toLowerCase m dishName = false) ∨
    ∃ (ref : Nat) (pre : List Menu) (m : Menu) (post : List Menu),
      menus = pre ++ m :: post ∧
      (∀ m2 ∈ pre, Menu.hasDish toLowerCase m2 dishName = false) ∧
      JSMap.get m.dishes (toLowerCase dishName) = some ref ∧
      Order.findDish toLowerCase dishName menus = .ok (some ref) := by
  induction menus with
  | nil => left; simp [Order.findDish]
  | cons a rest ih =>
    by_cases ha : Menu.hasDish toLowerCase a dishName = true
    · right
      obtain ⟨ref, href⟩ := (Menu_hasDish_iff_get toLowerCase a dishName).mp ha
      exact ⟨ref, [], a, rest, rfl, by simp, href,
        Order_findDish_first toLowerCase dishName [] a rest ref (by simp) href⟩
    · have ha2 : Menu.hasDish toLowerCase a dishName = false := by simpa using ha
      rcases ih with ⟨h1, h2⟩ | ⟨ref, pre, m, post, hsplit, hpre, hget, hfind⟩
      · left
        refine ⟨by simp [Order.findDish, ha2, h1], ?_⟩
        intro m hm
        rcases List.mem_cons.mp hm with e | e
        · rw [e]; exact ha2
        · exact h2 m e
      · right
        refine ⟨ref, a :: pre, m, post, by rw [hsplit]; rfl, ?_, hget, ?_⟩
        · intro m2 hm2
          rcases List.mem_cons.mp hm2 with e | e
          · rw [e]; exact ha2
          · exact hpre m2 e
        · simp [Order.findDish, ha2, hfind]

theorem Order_findDish_none_iff (dishName : String) (menus : List Menu) :
    Order.findDish toLowerCase dishName menus = .ok none
      ↔ ∀ m ∈ menus, Menu.hasDish toLowerCase m dishName = false := by
  constructor
  · intro h
    rcases Order_findDish_cases toLowerCase dishName menus with ⟨-, h2⟩ | ⟨ref, _, _, _, _, _, _, hf⟩
    · exact h2
    · rw [hf] at h; cases h
  · intro h
    rcases Order_findDish_cases toLowerCase dishName menus with
      ⟨h1, -⟩ | ⟨ref, pre, m, post, hsplit, _, hget, _⟩
    · exact h1
    · exfalso
      have hm : m ∈ menus := by rw [hsplit]; simp
      have := h m hm
      rw [(Menu_hasDish_iff_get toLowerCase m dishName).mpr ⟨ref, hget⟩] at this
      cases this

theorem Order_quantity_guard (quantity : Option ℚ)
    (hq : 0 < quantity.getD 1 ∧ isInteger (quantity.getD 1) = true) :
    ¬ (quantity.getD 1 ≤ 0 ∨ ¬ isInteger (quantity.getD 1) = true) := by
  intro h
  rcases h with h | h
  · exact absurd hq.1 (not_lt.mpr h)
  · exact h hq.2

theorem Order_addDish_of_invalid (order : Order) (dishName : String) (menus : List Menu)
    (quantity : Option ℚ) (hq : ¬ (0 < quantity.getD 1 ∧ isInteger (quantity.getD 1) = true)) :
    Order.addDish toLowerCase order dishName menus quantity
      = ⟨order, some .InvalidOrderError⟩ := by
  have h : quantity.getD 1 ≤ 0 ∨ ¬ isInteger (quantity.getD 1) = true := by
    by_cases h1 : 0 < quantity.getD 1
    · right; exact fun h2 => hq ⟨h1, h2⟩
    · left; exact not_lt.mp h1
  simp only [Order.addDish]
  rw [if_pos h]

theorem Order_addDish_of_not_found (order : Order) (dishName : String) (menus : List Menu)
    (quantity : Option ℚ) (hq : 0 < quantity.getD 1 ∧ isInteger (quantity.getD 1) = true)
    (hfind : Order.findDish toLowerCase dishName menus = .ok none) :
    Order.addDish toLowerCase order dishName menus quantity
      = ⟨order, some .DishNotFoundError⟩ := by
  simp only [Order.addDish]
  rw [if_neg (Order_quantity_guard quantity hq), hfind]

theorem Order_addDish_of_new (order : Order) (dishName : String) (menus : List Menu)
    (quantity : Option ℚ) (ref : Nat)
    (hq : 0 < quantity.getD 1 ∧ isInteger (quantity.getD 1) = true)
    (hfind : Order.findDish toLowerCase dishName menus = .ok (some ref))
    (hnew : JSMap.has order.dishQuantities (toLowerCase dishName) = false) :
    Order.addDish toLowerCase order dishName menus quantity
      = ⟨{ order with
            dishes := order.dishes ++ [ref],
            dishQuantities :=
              JSMap.set order.dishQuantities (toLowerCase dishName) (quantity.getD 1) },
          none⟩ := by
  simp only [Order.addDish]
  rw [if_neg (Order_quantity_guard quantity hq), hfind]
  simp [hnew]

theorem Order_addDish_of_listed (order : Order) (dishName : String) (menus : List Menu)
    (quantity : Option ℚ) (ref : Nat) (old : ℚ)
    (hq : 0 < quantity.getD 1 ∧ isInteger (quantity.getD 1) = true)
    (hfind : Order.findDish toLowerCase dishName menus = .ok (some ref))
    (hold : JSMap.get order.dishQuantities (toLowerCase dishName) = some old) :
    Order.addDish toLowerCase order dishName menus quantity
      = ⟨{ order with
            dishQuantities :=
              JSMap.set order.dishQuantities (toLowerCase dishName)
                (old + quantity.getD 1) },
          none⟩ := by
  have hhas : JSMap.has order.dishQuantities (toLowerCase dishName) = true := by
    rw [JSMap_has_eq_isSome, hold]; rfl
  simp only [Order.addDish]
  rw [if_neg (Order_quantity_guard quantity hq), hfind]
  simp [hhas, hold]

end


section
variable (toLowerCase : String → String)

/-- The four ways an `Order.addDish` call can go: refused for its quantity, refused
because no menu has the name, a new line, or a quantity added to an existing line. -/
theorem Order_addDish_cases (order : Order) (dishName : String) (menus : List Menu)
    (quantity : Option ℚ) :
    (¬ (0 < quantity.getD 1 ∧ isInteger (quantity.getD 1) = true) ∧
      Order.addDish toLowerCase order dishName menus quantity
        = ⟨order, some .InvalidOrderError⟩) ∨
    ((0 < quantity.getD 1 ∧ isInteger (quantity.getD 1) = true) ∧
      (∀ m ∈ menus, Menu.hasDish toLowerCase m dishName = false) ∧
      Order.addDish toLowerCase order dishName menus quantity
        = ⟨order, some .DishNotFoundError⟩) ∨
    ((0 < quantity.getD 1 ∧ isInteger (quantity.getD 1) = true) ∧
      ∃ (ref : Nat) (m : Menu), m ∈ menus ∧
        JSMap.get m.dishes (toLowerCase dishName) = some ref ∧
        JSMap.get order.dishQuantities (toLowerCase dishName) = none ∧
        Order.addDish toLowerCase order dishName menus quantity
          = ⟨{ order with
                dishes := order.dishes ++ [ref],
                dishQuantities :=
                  JSMap.set order.dishQuantities (toLowerCase dishName) (quantity.getD 1) },
              none⟩) ∨
    ((0 < quantity.getD 1 ∧ isInteger (quantity.getD 1) = true) ∧
      ∃ (ref : Nat) (m : Menu) (old : ℚ), m ∈ menus ∧
        JSMap.get m.dishes (toLowerCase dishName) = some ref ∧
        JSMap.get order.dishQuantities (toLowerCase dishName) = some old ∧
        Order.addDish toLowerCase order dishName menus quantity
          = ⟨{ order with
                dishQuantities :=
                  JSMap.set order.dishQuantities (toLowerCase dishName)
                    (old + quantity.getD 1) },
              none⟩) := by
  by_cases hq : 0 < quantity.getD 1 ∧ isInteger (quantity.getD 1) = true
  · rcases Order_findDish_cases toLowerCase dishName menus with
      ⟨hnone, hall⟩ | ⟨ref, pre, m, post, hsplit, -, hget, hfind⟩
    · exact Or.inr (Or.inl ⟨hq, hall,
        Order_addDish_of_not_found toLowerCase order dishName menus quantity hq hnone⟩)
    · have hm : m ∈ menus := by rw [hsplit]; simp
      cases hold : JSMap.get order.dishQuantities (toLowerCase dishName) with
      | none =>
        have hnew : JSMap.has order.dishQuantities (toLowerCase dishName) = false := by
          rw [JSMap_has_eq_isSome, hold]; rfl
        exact Or.inr (Or.inr (Or.inl ⟨hq, ref, m, hm, hget, rfl,
          Order_addDish_of_new toLowerCase order dishName menus quantity ref hq hfind hnew⟩))
      | some old =>
        exact Or.inr (Or.inr (Or.inr ⟨hq, ref, m, old, hm, hget, rfl,
          Order_addDish_of_listed toLowerCase order dishName menus quantity ref old hq hfind
            hold⟩))
  · exact Or.inl ⟨hq, Order_addDish_of_invalid toLowerCase order dishName menus quantity hq⟩

/-- C13. `Order.addDish` throws `InvalidOrderError` exactly when the quantity (1 when
omitted) is not a positive integer, whatever the menus hold; with a positive integer
quantity it throws `DishNotFoundError` exactly when none of the supplied menus has the
named dish, and returns otherwise. Whenever it throws, the order (its item list and its
quantities) is left as it was. -/
theorem order_addDish_errors (order : Order) (dishName : String) (menus : List Menu)
    (quantity : Option ℚ) :
    ((Order.addDish toLowerCase order dishName menus quantity).error
        = some .InvalidOrderError
      ↔ ¬ (0 < quantity.getD 1 ∧ isInteger (quantity.getD 1) = true)) ∧
    ((0 < quantity.getD 1 ∧ isInteger (quantity.getD 1) = true) →
      ((Order.addDish toLowerCase order dishName menus quantity).error
          = some .DishNotFoundError
        ↔ ∀ m ∈ menus, Menu.hasDish toLowerCase m dishName = false) ∧
      ((∃ m ∈ menus, Menu.hasDish toLowerCase m dishName = true) →
        (Order.addDish toLowerCase order dishName menus quantity).error = none)) ∧
    ((Order.addDish toLowerCase order dishName menus quantity).error ≠ none →
      (Order.addDish toLowerCase order dishName menus quantity).state = order ∧
      (Order.addDish toLowerCase order dishName menus quantity).state.dishes = order.dishes ∧
      (Order.addDish toLowerCase order dishName menus quantity).state.dishQuantities
        = order.dishQuantities) := by
  rcases Order_addDish_cases toLowerCase order dishName menus quantity with
    ⟨hq, heq⟩ | ⟨hq, hall, heq⟩ | ⟨hq, ref, m, hm, hget, -, heq⟩ |
    ⟨hq, ref, m, old, hm, hget, -, heq⟩
  · rw [heq]
    exact ⟨⟨fun _ => hq, fun _ => rfl⟩, fun h => absurd h hq, fun _ => ⟨rfl, rfl, rfl⟩⟩
  · rw [heq]
    refine ⟨⟨fun h => (nomatch h), fun h => absurd hq h⟩, fun _ => ⟨⟨fun _ => hall, fun _ => rfl⟩, ?_⟩,
      fun _ => ⟨rfl, rfl, rfl⟩⟩
    rintro ⟨m, hm, hhas⟩
    rw [hall m hm] at hhas
    cases hhas
  · rw [heq]
    have hhas : Menu.hasDish toLowerCase m dishName = true :=
      (Menu_hasDish_iff_get toLowerCase m dishName).mpr ⟨ref, hget⟩
    have hnot : ¬ ∀ m ∈ menus, Menu.hasDish toLowerCase m dishName = false := by
      intro h
      rw [h m hm] at hhas
      cases hhas
    exact ⟨⟨fun h => (nomatch h), fun h => absurd hq h⟩,
      fun _ => ⟨⟨fun h => (nomatch h), fun h => absurd h hnot⟩, fun _ => rfl⟩,
      fun h => absurd rfl h⟩
  · rw [heq]
    have hhas : Menu.hasDish toLowerCase m dishName = true :=
      (Menu_hasDish_iff_get toLowerCase m dishName).mpr ⟨ref, hget⟩
    have hnot : ¬ ∀ m ∈ menus, Menu.hasDish toLowerCase m dishName = false := by
      intro h
      rw [h m hm] at hhas
      cases hhas
    exact ⟨⟨fun h => (nomatch h), fun h => absurd hq h⟩,
      fun _ => ⟨⟨fun h => (nomatch h), fun h => absurd h hnot⟩, fun _ => rfl⟩,
      fun h => absurd rfl h⟩

/-- C14. First match wins. Let the list of menus be `pre`, then `m`, then `post`, where
no menu of `pre` has the name and `m` holds the dish `ref` under it, and let the name
not be in the order yet. Then `Order.addDish` with a positive integer quantity returns
and appends `ref`, the dish of `m`, to the item list, with that quantity, whatever the
menus of `post` hold under the same name. -/
theorem first_match_wins (order : Order) (dishName : String) (pre : List Menu) (m : Menu)
    (post : List Menu) (quantity : Option ℚ) (ref : Nat)
    (hq : 0 < quantity.getD 1 ∧ isInteger (quantity.getD 1) = true)
    (hpre : ∀ m2 ∈ pre, Menu.hasDish toLowerCase m2 dishName = false)
    (hm : Menu.getDish toLowerCase m dishName = .ok ref)
    (hnew : JSMap.has order.dishQuantities (toLowerCase dishName) = false) :
    (Order.addDish toLowerCase order dishName (pre ++ m :: post) quantity).error = none ∧
    (Order.addDish toLowerCase order dishName (pre ++ m :: post) quantity).state.dishes
      = order.dishes ++ [ref] ∧
    JSMap.get
        (Order.addDish toLowerCase order dishName (pre ++ m :: post) quantity).state.dishQuantities
        (toLowerCase dishName)
      = some (quantity.getD 1) := by
  have hget := (Menu_getDish_ok_iff toLowerCase m dishName ref).mp hm
  have hfind := Order_findDish_first toLowerCase dishName pre m post ref hpre hget
  rw [Order_addDish_of_new toLowerCase order dishName (pre ++ m :: post) quantity ref hq hfind
    hnew]
  exact ⟨rfl, rfl, JSMap_get_set_self _ _ _⟩

end

/-- Witness for C13: in the demo, a quantity of 1.5 and a quantity of 0 are refused
with `InvalidOrderError`, "Pizza" is in no menu, and the order is left as it was. -/
theorem order_addDish_errors_witness :
    (Order.addDish asciiLower demoOrder1 "Tiramisu" [demoDessertMenu] (some 1.5)).error
      = some .InvalidOrderError ∧
    (Order.addDish asciiLower demoOrder1 "Tiramisu" [demoDessertMenu] (some 0)).error
      = some .InvalidOrderError ∧
    (Order.addDish asciiLower demoOrder1 "Pizza" [demoAppetizerMenu, demoDessertMenu] none).error
      = some .DishNotFoundError ∧
    (Order.addDish asciiLower demoOrder1 "Pizza" [demoAppetizerMenu, demoDessertMenu] none).state
      = demoOrder1 := by
  have w1 := (order_addDish_errors asciiLower demoOrder1 "Tiramisu" [demoDessertMenu]
    (some 1.5)).1.mpr (by
      intro h
      have h2 : isInteger (1.5 : ℚ) = false := by
        simp only [isInteger, decide_eq_false_iff_not]
        norm_num
      simp [h2] at h)
  have w2 := (order_addDish_errors asciiLower demoOrder1 "Tiramisu" [demoDessertMenu]
    (some 0)).1.mpr (by simp)
  have hq1 : 0 < (none : Option ℚ).getD 1 ∧ isInteger ((none : Option ℚ).getD 1) = true := by
    constructor
    · simp
    · simp [isInteger]
  have w3 := ((order_addDish_errors asciiLower demoOrder1 "Pizza"
    [demoAppetizerMenu, demoDessertMenu] none).2.1 hq1).1.mpr (by decide)
  have w4 := (order_addDish_errors asciiLower demoOrder1 "Pizza"
    [demoAppetizerMenu, demoDessertMenu] none).2.2 (by rw [w3]; simp)
  exact ⟨w1, w2, w3, w4.1⟩

/-- Witness for C14: "tiramisu" is asked from the appetizer menu (which lacks it), the
dessert menu of the demo (dish 5) and a third menu holding another dish (6) under the
same key; the order gets dish 5. -/
theorem first_match_wins_witness :
    (Order.addDish asciiLower demoOrder1 "tiramisu"
      ([demoAppetizerMenu] ++ demoDessertMenu :: [⟨"DessertsMenu", [("tiramisu", 6)]⟩])
      (some 2)).state.dishes = [0, 2, 4, 5] := by
  have hq : 0 < (some (2 : ℚ)).getD 1 ∧ isInteger ((some (2 : ℚ)).getD 1) = true := by
    constructor
    · simp
    · simp [isInteger]
  have w := first_match_wins asciiLower demoOrder1 "tiramisu" [demoAppetizerMenu]
    demoDessertMenu [⟨"DessertsMenu", [("tiramisu", 6)]⟩] (some 2) 5 hq (by decide)
    (Menu_getDish_of_get asciiLower _ _ _ (by decide)) (by decide)
  rw [w.2.1]
  decide


/-- The value `toFixed2` returns has two decimals and lies within half a hundredth of
its argument. -/
theorem toFixed2_rounds (x : ℚ) :
    (∃ n : ℤ, toFixed2 x = (n : ℚ) / 100) ∧ |toFixed2 x - x| ≤ 1 / 200 := by
  unfold toFixed2
  by_cases hx : x < 0
  · rw [if_pos hx]
    refine ⟨⟨-⌊-x * 100 + 1 / 2⌋, by push_cast; ring⟩, ?_⟩
    have h1 := Int.floor_le (-x * 100 + 1 / 2)
    have h2 := Int.lt_floor_add_one (-x * 100 + 1 / 2)
    rw [abs_le]
    constructor <;> linarith
  · rw [if_neg hx]
    refine ⟨⟨⌊x * 100 + 1 / 2⌋, rfl⟩, ?_⟩
    have h1 := Int.floor_le (x * 100 + 1 / 2)
    have h2 := Int.lt_floor_add_one (x * 100 + 1 / 2)
    rw [abs_le]
    constructor <;> linarith

section
variable (toLowerCase : String → String)

theorem Order_total_fold (store : DishStore) (order : Order) (dishes : List Nat)
    (acc : Option ℚ) :
    dishes.foldl
        (fun (total : Option ℚ) dish =>
          match total, Order.quantityOf toLowerCase store order dish with
          | some t, some quantity => some (t + (store dish).price * quantity)
          | _, _ => none)
        acc
      = nanAdd acc (nanSum (dishes.map (fun dish =>
            (Order.quantityOf toLowerCase store order dish).map
              (fun quantity => (store dish).price * quantity)))) := by
  induction dishes generalizing acc with
  | nil => cases acc <;> simp [nanSum, nanAdd]
  | cons d ds ih =>
    rw [List.foldl_cons, ih]
    cases acc with
    | none => simp [nanAdd]
    | some a =>
      cases hq : Order.quantityOf toLowerCase store order d with
      | none => simp [nanSum, nanAdd, hq]
      | some q =>
        cases hs : nanSum (ds.map (fun dish =>
            (Order.quantityOf toLowerCase store order dish).map
              (fun quantity => (store dish).price * quantity))) with
        | none => simp [nanSum, nanAdd, hq, hs]
        | some s => simp [nanSum, nanAdd, hq, hs, add_assoc]

theorem nanSum_of_all_some (l : List (Option ℚ)) (h : ∀ x ∈ l, ∃ q, x = some q) :
    nanSum l = some ((l.map (fun x => x.getD 0)).sum) := by
  induction l with
  | nil => rfl
  | cons x xs ih =>
    obtain ⟨q, rfl⟩ := h _ (List.mem_cons_self _ _)
    simp [nanSum, nanAdd, ih (fun y hy => h y (List.mem_cons_of_mem _ hy))]

end

/-- C11. (1) For every order, `getTotal()` is the sum over the listed dishes of
price times quantity, rounded to 2 decimals, and it is the sum of the `subtotal`s of
the items of `viewSummary()`, rounded to 2 decimals; `viewSummary().total` is
`getTotal()`. (A dish whose quantity is `undefined` makes both sides `NaN`, here
`none`.) (2) When every listed dish has a quantity, the total is a number: the rounded
sum of the products. (3) The rounding yields a multiple of 1/100 within 1/200 of the
sum. (4) The order of the demo, Bruschetta 8.99 x1, Grilled Salmon 24.99 x1 and
Chocolate Cake 9.99 x1, totals 43.97. -/
theorem order_total_is_rounded_sum :
    (∀ (toLowerCase : String → String) (store : DishStore) (order : Order),
      Order.getTotal toLowerCase store order
        = (nanSum (order.dishes.map (fun dish =>
            (Order.quantityOf toLowerCase store order dish).map
              (fun quantity => (store dish).price * quantity)))).map toFixed2 ∧
      Order.getTotal toLowerCase store order
        = (nanSum ((Order.viewSummary toLowerCase store order).items.map
            (fun item => item.subtotal))).map toFixed2 ∧
      (Order.viewSummary toLowerCase store order).total
        = Order.getTotal toLowerCase store order ∧
      ((∀ dish ∈ order.dishes, ∃ q, Order.quantityOf toLowerCase store order dish = some q) →
        Order.getTotal toLowerCase store order
          = some (toFixed2 ((order.dishes.map (fun dish =>
              (store dish).price
                * (Order.quantityOf toLowerCase store order dish).getD 0)).sum)))) ∧
    (∀ x : ℚ, (∃ n : ℤ, toFixed2 x = (n : ℚ) / 100) ∧ |toFixed2 x - x| ≤ 1 / 200) ∧
    (demoOrder1.dishes = [0, 2, 4] ∧
      demoOrder1.dishQuantities
        = [("bruschetta", 1), ("grilled salmon", 1), ("chocolate cake", 1)] ∧
      Order.getTotal asciiLower demoStore demoOrder1 = some 43.97) := by
  have general : ∀ (toLowerCase : String → String) (store : DishStore) (order : Order),
      Order.getTotal toLowerCase store order
        = (nanSum (order.dishes.map (fun dish =>
            (Order.quantityOf toLowerCase store order dish).map
              (fun quantity => (store dish).price * quantity)))).map toFixed2 := by
    intro toLowerCase store order
    simp only [Order.getTotal]
    rw [Order_total_fold toLowerCase store order order.dishes (some 0)]
    cases nanSum (order.dishes.map (fun dish =>
        (Order.quantityOf toLowerCase store order dish).map
          (fun quantity => (store dish).price * quantity))) <;> simp [nanAdd]
  refine ⟨?_, toFixed2_rounds, ?_⟩
  · intro toLowerCase store order
    refine ⟨general toLowerCase store order, ?_, rfl, ?_⟩
    · rw [general]
      simp [Order.viewSummary, List.map_map, Function.comp_def]
    · intro hall
      rw [general, nanSum_of_all_some]
      · simp only [Option.map_some', List.map_map, Function.comp_def]
        congr 3
        apply List.map_congr_left
        intro d hd
        obtain ⟨q, hq⟩ := hall d hd
        simp [hq]
      · intro x hx
        obtain ⟨d, hd, rfl⟩ := List.mem_map.mp hx
        obtain ⟨q, hq⟩ := hall d hd
        exact ⟨(store d).price * q, by simp [hq]⟩
  · have hd : demoOrder1.dishes = [0, 2, 4] := by decide
    have hqs : demoOrder1.dishQuantities
        = [("bruschetta", 1), ("grilled salmon", 1), ("chocolate cake", 1)] := by decide
    refine ⟨hd, hqs, ?_⟩
    rw [general, hd]
    have h0 : Order.quantityOf asciiLower demoStore demoOrder1 0 = some 1 := by
      simp only [Order.quantityOf, hqs]; decide
    have h2 : Order.quantityOf asciiLower demoStore demoOrder1 2 = some 1 := by
      simp only [Order.quantityOf, hqs]; decide
    have h4 : Order.quantityOf asciiLower demoStore demoOrder1 4 = some 1 := by
      simp only [Order.quantityOf, hqs]; decide
    simp only [List.map, h0, h2, h4, nanSum, nanAdd, Option.map_some']
    have hsum : (demoStore 0).price * 1 + ((demoStore 2).price * 1
        + ((demoStore 4).price * 1 + 0)) = 43.97 := by norm_num [demoStore]
    rw [hsum]
    have hfix : toFixed2 43.97 = 43.97 := by
      unfold toFixed2
      have hneg : ¬ ((43.97 : ℚ) < 0) := by norm_num
      rw [if_neg hneg]
      have hfl : ⌊(43.97 : ℚ) * 100 + 1 / 2⌋ = 4397 := by
        rw [Int.floor_eq_iff]
        constructor <;> norm_num
      rw [hfl]
      norm_num
    rw [hfix]


theorem isInteger_add (a b : ℚ) (ha : isInteger a = true) (hb : isInteger b = true) :
    isInteger (a + b) = true := by
  simp only [isInteger, decide_eq_true_eq] at ha hb ⊢
  rw [← (Rat.den_eq_one_iff a).mp ha, ← (Rat.den_eq_one_iff b).mp hb, ← Int.cast_add]
  exact Rat.intCast_den _

section
variable (toLowerCase : String → String)

/-- What `Order.addDish` relies on and keeps: no key of the quantities occurs twice,
the lowercased names of the listed dishes are the keys of the quantities, in the same
order, and every quantity is a positive integer. -/
theorem Order_addDish_keeps_lines (store : DishStore) (order : Order) (dishName : String)
    (menus : List Menu) (quantity : Option ℚ)
    (hkeyed : ∀ m ∈ menus, Menu.KeyedByName toLowerCase store m)
    (hnodup : (JSMap.keys order.dishQuantities).Nodup)
    (hnames : order.dishes.map (fun d => toLowerCase (store d).name)
      = JSMap.keys order.dishQuantities)
    (hpos : ∀ key q, JSMap.get order.dishQuantities key = some q →
      0 < q ∧ isInteger q = true) :
    (JSMap.keys (Order.addDish toLowerCase order dishName menus quantity).state.dishQuantities).Nodup ∧
    (Order.addDish toLowerCase order dishName menus quantity).state.dishes.map
        (fun d => toLowerCase (store d).name)
      = JSMap.keys (Order.addDish toLowerCase order dishName menus quantity).state.dishQuantities ∧
    (∀ key q,
      JSMap.get (Order.addDish toLowerCase order dishName menus quantity).state.dishQuantities key
        = some q → 0 < q ∧ isInteger q = true) := by
  rcases Order_addDish_cases toLowerCase order dishName menus quantity with
    ⟨-, heq⟩ | ⟨-, -, heq⟩ | ⟨hq, ref, m, hm, hget, hold, heq⟩ |
    ⟨hq, ref, m, old, hm, hget, hold, heq⟩
  · rw [heq]; exact ⟨hnodup, hnames, hpos⟩
  · rw [heq]; exact ⟨hnodup, hnames, hpos⟩
  · rw [heq]
    have hnew : JSMap.has order.dishQuantities (toLowerCase dishName) = false := by
      rw [JSMap_has_eq_isSome, hold]; rfl
    refine ⟨JSMap_keys_nodup_set _ _ _ hnodup, ?_, ?_⟩
    · show (order.dishes ++ [ref]).map (fun d => toLowerCase (store d).name)
        = JSMap.keys (JSMap.set order.dishQuantities (toLowerCase dishName) (quantity.getD 1))
      rw [JSMap_keys_set_of_not_has _ _ _ hnew, List.map_append, hnames]
      simp [← hkeyed m hm _ _ hget]
    · intro key q hk
      by_cases e : key = toLowerCase dishName
      · subst e
        have : JSMap.get (JSMap.set order.dishQuantities (toLowerCase dishName)
            (quantity.getD 1)) (toLowerCase dishName) = some q := hk
        rw [JSMap_get_set_self] at this
        cases this
        exact hq
      · have : JSMap.get (JSMap.set order.dishQuantities (toLowerCase dishName)
            (quantity.getD 1)) key = some q := hk
        rw [JSMap_get_set_of_ne _ _ _ _ e] at this
        exact hpos key q this
  · rw [heq]
    have hhas : JSMap.has order.dishQuantities (toLowerCase dishName) = true := by
      rw [JSMap_has_eq_isSome, hold]; rfl
    refine ⟨JSMap_keys_nodup_set _ _ _ hnodup, ?_, ?_⟩
    · show order.dishes.map (fun d => toLowerCase (store d).name)
        = JSMap.keys (JSMap.set order.dishQuantities (toLowerCase dishName)
            (old + quantity.getD 1))
      rw [JSMap_keys_set_of_has _ _ _ hhas, hnames]
    · intro key q hk
      by_cases e : key = toLowerCase dishName
      · subst e
        have : JSMap.get (JSMap.set order.dishQuantities (toLowerCase dishName)
            (old + quantity.getD 1)) (toLowerCase dishName) = some q := hk
        rw [JSMap_get_set_self] at this
        cases this
        have ho := hpos _ _ hold
        exact ⟨by linarith [ho.1, hq.1], isInteger_add _ _ ho.2 hq.2⟩
      · have : JSMap.get (JSMap.set order.dishQuantities (toLowerCase dishName)
            (old + quantity.getD 1)) key = some q := hk
        rw [JSMap_get_set_of_ne _ _ _ _ e] at this
        exact hpos key q this

/-- The quantity one call adds under a key: its quantity when it returns and its name
lowercases to the key, nothing otherwise. -/
theorem Order_addDish_quantity (order : Order) (dishName : String) (menus : List Menu)
    (quantity : Option ℚ) (key : String) :
    0 ≤ (if (Order.addDish toLowerCase order dishName menus quantity).error = none ∧
          toLowerCase dishName = key then quantity.getD 1 else 0) ∧
    JSMap.get (Order.addDish toLowerCase order dishName menus quantity).state.dishQuantities key
      = match JSMap.get order.dishQuantities key with
        | some q0 =>
          some (q0 + (if (Order.addDish toLowerCase order dishName menus quantity).error = none ∧
            toLowerCase dishName = key then quantity.getD 1 else 0))
        | none =>
          if (if (Order.addDish toLowerCase order dishName menus quantity).error = none ∧
            toLowerCase dishName = key then quantity.getD 1 else 0) = 0 then none
          else some (if (Order.addDish toLowerCase order dishName menus quantity).error = none ∧
            toLowerCase dishName = key then quantity.getD 1 else 0) := by
  rcases Order_addDish_cases toLowerCase order dishName menus quantity with
    ⟨-, heq⟩ | ⟨-, -, heq⟩ | ⟨hq, ref, m, hm, hget, hold, heq⟩ |
    ⟨hq, ref, m, old, hm, hget, hold, heq⟩
  · rw [heq]
    cases JSMap.get order.dishQuantities key <;> simp
  · rw [heq]
    cases JSMap.get order.dishQuantities key <;> simp
  · rw [heq]
    have hne : quantity.getD 1 ≠ 0 := ne_of_gt hq.1
    by_cases e : toLowerCase dishName = key
    · subst e
      simp only [true_and, if_true, hold]
      refine ⟨le_of_lt hq.1, ?_⟩
      rw [if_neg hne]
      exact JSMap_get_set_self _ _ _
    · have e2 : key ≠ toLowerCase dishName := fun x => e x.symm
      simp only [e, and_false, if_false]
      refine ⟨le_refl 0, ?_⟩
      show JSMap.get (JSMap.set order.dishQuantities (toLowerCase dishName) (quantity.getD 1))
        key = _
      rw [JSMap_get_set_of_ne _ _ _ _ e2]
      cases JSMap.get order.dishQuantities key <;> simp
  · rw [heq]
    by_cases e : toLowerCase dishName = key
    · subst e
      simp only [true_and, if_true, hold]
      refine ⟨le_of_lt hq.1, ?_⟩
      exact JSMap_get_set_self _ _ _
    · have e2 : key ≠ toLowerCase dishName := fun x => e x.symm
      simp only [e, and_false, if_false]
      refine ⟨le_refl 0, ?_⟩
      show JSMap.get (JSMap.set order.dishQuantities (toLowerCase dishName)
        (old + quantity.getD 1)) key = _
      rw [JSMap_get_set_of_ne _ _ _ _ e2]
      cases JSMap.get order.dishQuantities key <;> simp

theorem Order_runAddDish_cons (order : Order) (c : AddDishCall) (cs : List AddDishCall) :
    Order.runAddDish toLowerCase order (c :: cs)
      = Order.runAddDish toLowerCase
          (Order.addDish toLowerCase order c.dishName c.menus c.quantity).state cs := rfl

theorem Order_runAddDish_quantity (key : String) (calls : List AddDishCall) (order : Order) :
    0 ≤ Order.successfulQuantity toLowerCase key order calls ∧
    JSMap.get (Order.runAddDish toLowerCase order calls).dishQuantities key
      = match JSMap.get order.dishQuantities key with
        | some q0 => some (q0 + Order.successfulQuantity toLowerCase key order calls)
        | none =>
          if Order.successfulQuantity toLowerCase key order calls = 0 then none
          else some (Order.successfulQuantity toLowerCase key order calls) := by
  induction calls generalizing order with
  | nil =>
    simp only [Order.successfulQuantity, Order.runAddDish, List.foldl_nil]
    cases JSMap.get order.dishQuantities key <;> simp
  | cons c cs ih =>
    obtain ⟨hc0, hcget⟩ := Order_addDish_quantity toLowerCase order c.dishName c.menus
      c.quantity key
    obtain ⟨hs0, hsget⟩ := ih (Order.addDish toLowerCase order c.dishName c.menus c.quantity).state
    rw [Order_runAddDish_cons, hsget, hcget]
    simp only [Order.successfulQuantity]
    generalize (if (Order.addDish toLowerCase order c.dishName c.menus c.quantity).error = none ∧
      toLowerCase c.dishName = key then c.quantity.getD 1 else 0) = x at hc0 ⊢
    generalize Order.successfulQuantity toLowerCase key
      (Order.addDish toLowerCase order c.dishName c.menus c.quantity).state cs = y at hs0 ⊢
    refine ⟨add_nonneg hc0 hs0, ?_⟩
    cases JSMap.get order.dishQuantities key with
    | some q0 => simp [add_assoc]
    | none =>
      by_cases hx : x = 0
      · subst hx; simp
      · have hxy : x + y ≠ 0 := by
          have : 0 < x := lt_of_le_of_ne hc0 (Ne.symm hx)
          linarith
        simp [hx, hxy]

theorem Order_runAddDish_keeps_lines (store : DishStore) (calls : List AddDishCall)
    (order : Order)
    (hkeyed : ∀ c ∈ calls, ∀ m ∈ c.menus, Menu.KeyedByName toLowerCase store m)
    (hnodup : (JSMap.keys order.dishQuantities).Nodup)
    (hnames : order.dishes.map (fun d => toLowerCase (store d).name)
      = JSMap.keys order.dishQuantities)
    (hpos : ∀ key q, JSMap.get order.dishQuantities key = some q →
      0 < q ∧ isInteger q = true) :
    (JSMap.keys (Order.runAddDish toLowerCase order calls).dishQuantities).Nodup ∧
    (Order.runAddDish toLowerCase order calls).dishes.map (fun d => toLowerCase (store d).name)
      = JSMap.keys (Order.runAddDish toLowerCase order calls).dishQuantities ∧
    (∀ key q, JSMap.get (Order.runAddDish toLowerCase order calls).dishQuantities key = some q →
      0 < q ∧ isInteger q = true) := by
  induction calls generalizing order with
  | nil => exact ⟨hnodup, hnames, hpos⟩
  | cons c cs ih =>
    obtain ⟨h1, h2, h3⟩ := Order_addDish_keeps_lines toLowerCase store order c.dishName c.menus
      c.quantity (hkeyed c (List.mem_cons_self _ _)) hnodup hnames hpos
    rw [Order_runAddDish_cons]
    exact ih _ (fun c2 hc2 => hkeyed c2 (List.mem_cons_of_mem _ hc2)) h1 h2 h3

/-- C12. Take menus keyed by name (every key the lowercased name of the dish under it,
as `Menu.addDish` stores it) and an order reached from an empty order by any sequence
of `addDish` calls, each returning or throwing. Then (1) no two listed dishes share a
lowercased name, so each dish is listed once however often it was added; (2) every
listed dish has a quantity, which is a positive integer; and (3) that quantity is the
sum of the quantities of the calls for that name that returned. -/
theorem order_lines_unique_quantities_accumulate (store : DishStore) (customer : String)
    (calls : List AddDishCall)
    (hkeyed : ∀ c ∈ calls, ∀ m ∈ c.menus, Menu.KeyedByName toLowerCase store m) :
    ((Order.runAddDish toLowerCase (Order.new customer) calls).dishes.map
      (fun d => toLowerCase (store d).name)).Nodup ∧
    (Order.runAddDish toLowerCase (Order.new customer) calls).dishes.Nodup ∧
    (∀ d ∈ (Order.runAddDish toLowerCase (Order.new customer) calls).dishes,
      ∃ q : ℚ,
        Order.quantityOf toLowerCase store
          (Order.runAddDish toLowerCase (Order.new customer) calls) d = some q ∧
        0 < q ∧ isInteger q = true ∧
        q = Order.successfulQuantity toLowerCase (toLowerCase (store d).name)
              (Order.new customer) calls) := by
  obtain ⟨h1, h2, h3⟩ := Order_runAddDish_keeps_lines toLowerCase store calls
    (Order.new customer) hkeyed List.nodup_nil rfl (fun key q h => by cases h)
  have hn : ((Order.runAddDish toLowerCase (Order.new customer) calls).dishes.map
      (fun d => toLowerCase (store d).name)).Nodup := by rw [h2]; exact h1
  refine ⟨hn, List.Nodup.of_map _ hn, ?_⟩
  intro d hd
  have hmem : toLowerCase (store d).name
      ∈ JSMap.keys (Order.runAddDish toLowerCase (Order.new customer) calls).dishQuantities := by
    rw [← h2]
    exact List.mem_map_of_mem (fun d => toLowerCase (store d).name) hd
  have hhas := (JSMap_has_iff_mem_keys _ _).mpr hmem
  rw [JSMap_has_eq_isSome] at hhas
  obtain ⟨-, hget⟩ := Order_runAddDish_quantity toLowerCase (toLowerCase (store d).name) calls
    (Order.new customer)
  have hempty : JSMap.get (Order.new customer).dishQuantities (toLowerCase (store d).name)
      = none := rfl
  rw [hempty] at hget
  simp only at hget
  by_cases hz : Order.successfulQuantity toLowerCase (toLowerCase (store d).name)
      (Order.new customer) calls = 0
  · rw [if_pos hz] at hget
    rw [hget] at hhas
    cases hhas
  · rw [if_neg hz] at hget
    exact ⟨_, hget, (h3 _ _ hget).1, (h3 _ _ hget).2, rfl⟩

end


theorem JSMap_get_delete_self {V : Type} (m : JSMap V) (key : String) :
    JSMap.get (JSMap.delete m key) key = none := by
  have h := JSMap_has_delete_self m key
  rw [JSMap_has_eq_isSome] at h
  cases hg : JSMap.get (JSMap.delete m key) key with
  | none => rfl
  | some v => rw [hg] at h; cases h

/-- Menus are keyed by name by construction: a new menu is, and `addDish` and
`removeDish` keep it so while no dish of the store is renamed. -/
theorem Menu_runCalls_keyedByName (toLowerCase : String → String) (store : DishStore)
    (calls : List MenuCall) (menu : Menu) (hm : Menu.KeyedByName toLowerCase store menu) :
    Menu.KeyedByName toLowerCase store (Menu.runCalls toLowerCase store menu calls) := by
  induction calls generalizing menu with
  | nil => exact hm
  | cons c cs ih =>
    apply ih
    cases c with
    | addDish dish =>
      cases dish with
      | other => exact hm
      | dish ref =>
        intro key r hget
        by_cases e : key = toLowerCase (store ref).name
        · subst e
          have h2 : JSMap.get (JSMap.set menu.dishes (toLowerCase (store ref).name) ref)
              (toLowerCase (store ref).name) = some r := hget
          rw [JSMap_get_set_self] at h2
          cases h2
          rfl
        · have h2 : JSMap.get (JSMap.set menu.dishes (toLowerCase (store ref).name) ref) key
              = some r := hget
          rw [JSMap_get_set_of_ne _ _ _ _ e] at h2
          exact hm key r h2
    | removeDish dishName =>
      by_cases hk : JSMap.has menu.dishes (toLowerCase dishName) = true
      · intro key r hget
        simp only [MenuCall.run, Menu.removeDish, hk, not_true_eq_false, if_false] at hget
        by_cases e : key = toLowerCase dishName
        · subst e
          rw [JSMap_get_delete_self] at hget
          cases hget
        · rw [JSMap_get_delete_of_ne _ _ _ e] at hget
          exact hm key r hget
      · simp only [MenuCall.run, Menu.removeDish, hk, not_false_eq_true, if_true]
        exact hm

theorem demo_menus_keyed :
    Menu.KeyedByName asciiLower demoStore demoAppetizerMenu ∧
    Menu.KeyedByName asciiLower demoStore demoEntreeMenu ∧
    Menu.KeyedByName asciiLower demoStore demoDessertMenu := by
  refine ⟨?_, ?_, ?_⟩ <;>
  · intro key ref h
    simp only [demoAppetizerMenu, demoEntreeMenu, demoDessertMenu, JSMap.get] at h
    split_ifs at h <;> (subst_vars; cases h; decide)

/-- Witness for C12: after the five calls of `demoCalls`, two of them refused, the
order lists the spring rolls and the ribeye steak once each, with the quantities
2 + 3 = 5 and 1. -/
theorem order_lines_unique_quantities_accumulate_witness :
    (Order.runAddDish asciiLower (Order.new "Jane Smith") demoCalls).dishes = [1, 3] ∧
    (Order.runAddDish asciiLower (Order.new "Jane Smith") demoCalls).dishQuantities
      = [("spring rolls", 5), ("ribeye steak", 1)] ∧
    ((Order.runAddDish asciiLower (Order.new "Jane Smith") demoCalls).dishes.map
      (fun d => asciiLower (demoStore d).name)).Nodup ∧
    (∃ q : ℚ,
      Order.quantityOf asciiLower demoStore
        (Order.runAddDish asciiLower (Order.new "Jane Smith") demoCalls) 1 = some q ∧
      0 < q ∧ isInteger q = true ∧
      q = Order.successfulQuantity asciiLower (asciiLower (demoStore 1).name)
            (Order.new "Jane Smith") demoCalls) := by
  have hkeyed : ∀ c ∈ demoCalls, ∀ m ∈ c.menus, Menu.KeyedByName asciiLower demoStore m := by
    intro c hc m hm
    simp only [demoCalls, List.mem_cons, List.mem_singleton, List.not_mem_nil, or_false] at hc
    rcases hc with rfl | rfl | rfl | rfl | rfl <;>
    · simp only [List.mem_cons, List.mem_singleton, List.not_mem_nil, or_false] at hm
      rcases hm with rfl | rfl | rfl <;>
        first
          | exact demo_menus_keyed.1
          | exact demo_menus_keyed.2.1
          | exact demo_menus_keyed.2.2
  have w := order_lines_unique_quantities_accumulate asciiLower demoStore "Jane Smith" demoCalls
    hkeyed
  have hd : (Order.runAddDish asciiLower (Order.new "Jane Smith") demoCalls).dishes = [1, 3] := by
    decide
  have hq : (Order.runAddDish asciiLower (Order.new "Jane Smith") demoCalls).dishQuantities
      = [("spring rolls", 5), ("ribeye steak", 1)] := by
    have h : (Order.runAddDish asciiLower (Order.new "Jane Smith") demoCalls).dishQuantities
        = [("spring rolls", 2 + 3), ("ribeye steak", 1)] := by rfl
    rw [h]
    norm_num
  exact ⟨hd, hq, w.1, w.2.2 1 (by rw [hd]; decide)⟩

end Restaurant

/-! ## Bank.js: the ledger -/

namespace Bank

theorem sumOfType_append (t : String) (xs ys : List Transaction) :
    sumOfType t (xs ++ ys) = sumOfType t xs + sumOfType t ys := by
  simp [sumOfType, List.filter_append, List.map_append, List.sum_append]

theorem sumOfType_nil (t : String) : sumOfType t [] = 0 := rfl

/-- What one call does to one account, in the terms of the ledger: it appends records
and moves the balance by the DEPOSIT amounts less the WITHDRAW amounts among them. -/
theorem Call_run_ledger (h : Heap) (c : Call) (r : Nat) :
    ∃ new : List Transaction,
      (Call.run h c r).transactions = (h r).transactions ++ new ∧
      (Call.run h c r).balance
        = (h r).balance + sumOfType "DEPOSIT" new - sumOfType "WITHDRAW" new := by
  have same : Call.run h c r = h r →
      ∃ new : List Transaction,
        (Call.run h c r).transactions = (h r).transactions ++ new ∧
        (Call.run h c r).balance
          = (h r).balance + sumOfType "DEPOSIT" new - sumOfType "WITHDRAW" new := by
    intro e
    exact ⟨[], by rw [e]; simp, by rw [e]; simp [sumOfType_nil]⟩
  cases c with
  | deposit self a =>
    by_cases ha : 0 < a
    · by_cases hr : r = self
      · subst hr
        refine ⟨[depositRecord (h r) a], ?_, ?_⟩
        · simp [Call.run, deposit_of_pos h r a ha]
        · simp [Call.run, deposit_of_pos h r a ha, sumOfType, depositRecord]
      · apply same
        simp [Call.run, deposit_of_pos h self a ha, Function.update_apply, hr]
    · apply same
      simp [Call.run, deposit_of_nonpos h self a (not_lt.mp ha)]
  | withdraw self a =>
    by_cases ha : 0 < a
    · by_cases hle : a ≤ (h self).balance
      · by_cases hr : r = self
        · subst hr
          refine ⟨[withdrawRecord (h r) a], ?_, ?_⟩
          · simp [Call.run, withdraw_of_covered h r a ha hle]
          · simp [Call.run, withdraw_of_covered h r a ha hle, sumOfType, withdrawRecord]
        · apply same
          simp [Call.run, withdraw_of_covered h self a ha hle, Function.update_apply, hr]
      · apply same
        simp [Call.run, withdraw_of_insufficient h self a ha (not_le.mp hle)]
    · apply same
      simp [Call.run, withdraw_of_nonpos h self a (not_lt.mp ha)]
  | transferFunds self v a =>
    by_cases hv : ∃ t, v = .account t
    · obtain ⟨t, rfl⟩ := hv
      by_cases ha : 0 < a
      · by_cases hle : a ≤ (h self).balance
        · by_cases hts : t = self
          · subst hts
            by_cases hr : r = t
            · subst hr
              refine ⟨[withdrawRecord (h r) a, depositRecord (h r) a,
                transferOutRecord (h r) (h r) a, transferInRecord (h r) (h r) a], ?_, ?_⟩
              · simp [Call.run, transferFunds_of_covered_self h r a ha hle]
              · simp [Call.run, transferFunds_of_covered_self h r a ha hle, sumOfType,
                  withdrawRecord, depositRecord, transferOutRecord, transferInRecord]
            · apply same
              simp [Call.run, transferFunds_of_covered_self h t a ha hle,
                Function.update_apply, hr]
          · have hrun : Call.run h (.transferFunds self (.account t) a) r
                = (transferFunds h self (.account t) a).heap r := rfl
            by_cases hr : r = t
            · subst hr
              refine ⟨[depositRecord (h r) a, transferInRecord (h self) (h r) a], ?_, ?_⟩
              · rw [hrun, transferFunds_of_covered_ne h self r a ha hle hts]; simp
              · rw [hrun, transferFunds_of_covered_ne h self r a ha hle hts]
                simp [sumOfType, depositRecord, transferInRecord]
            · by_cases hr2 : r = self
              · subst hr2
                refine ⟨[withdrawRecord (h r) a, transferOutRecord (h r) (h t) a], ?_, ?_⟩
                · rw [hrun, transferFunds_of_covered_ne h r t a ha hle hts]
                  simp [Function.update_apply, hr]
                · rw [hrun, transferFunds_of_covered_ne h r t a ha hle hts]
                  simp [Function.update_apply, hr, sumOfType, withdrawRecord, transferOutRecord,
                    sub_eq_add_neg]
              · apply same
                rw [hrun, transferFunds_of_covered_ne h self t a ha hle hts]
                simp [Function.update_apply, hr, hr2]
        · apply same
          simp [Call.run, transferFunds_of_insufficient h self t a ha (not_le.mp hle)]
      · apply same
        simp [Call.run, transferFunds_of_nonpos h self t a (not_lt.mp ha)]
    · apply same
      have hv2 : ∀ t, v ≠ .account t := fun t e => hv ⟨t, e⟩
      simp [Call.run, transferFunds_of_not_account h self v a hv2]

theorem runCalls_ledger (calls : List Call) (h : Heap) (r : Nat) :
    ∃ new : List Transaction,
      (runCalls h calls r).transactions = (h r).transactions ++ new ∧
      (runCalls h calls r).balance
        = (h r).balance + sumOfType "DEPOSIT" new - sumOfType "WITHDRAW" new := by
  induction calls generalizing h with
  | nil => exact ⟨[], by simp [runCalls], by simp [runCalls, sumOfType_nil]⟩
  | cons c cs ih =>
    obtain ⟨new1, ht1, hb1⟩ := Call_run_ledger h c r
    obtain ⟨new2, ht2, hb2⟩ := ih (Call.run h c)
    refine ⟨new1 ++ new2, ?_, ?_⟩
    · show (runCalls (Call.run h c) cs r).transactions = _
      rw [ht2, ht1, List.append_assoc]
    · show (runCalls (Call.run h c) cs r).balance = _
      rw [hb2, hb1, sumOfType_append, sumOfType_append]
      ring

theorem IndividualAccount_new_balance (n b : JSValue) (acct : BankAccount)
    (hnew : IndividualAccount.new n b = .ok acct) :
    withDefault b (.number 0) = .number acct.balance := by
  unfold IndividualAccount.new BankAccount.new at hnew
  simp only [reduceCtorEq, if_false] at hnew
  split at hnew
  · cases hnew
  · split at hnew
    · split at hnew
      · cases hnew
      · cases hnew
        assumption
    · cases hnew

/-- Ledger consistency on finite amounts in exact arithmetic. (1) Take any store and any account in it that its
constructor returned with the initial balance `b0`. After any finite sequence of
`deposit`, `withdraw` and `transferFunds` calls, made on any accounts (this one as
source or as target, or neither), returning or throwing, the balance of the account is
`b0` plus the sum of the amounts of the DEPOSIT records minus the sum of the amounts of
the WITHDRAW records of its history. (2) A transfer that returns appends two records for
each side: for the source WITHDRAW then the transfer-out record (type TRANSFER), for
the target DEPOSIT then TRANSFER_IN. With distinct accounts these are the two records
appended to each history; when source and target are one account, its history takes
the four of them, in the order WITHDRAW, DEPOSIT, TRANSFER, TRANSFER_IN. -/
theorem finite_ledger_consistency :
    (∀ (h : Heap) (r : Nat) (accountNumber initialBalance : JSValue) (calls : List Call),
      IndividualAccount.new accountNumber initialBalance = .ok (h r) →
      withDefault initialBalance (.number 0) = .number (getBalance h r) ∧
      getBalance (runCalls h calls) r
        = getBalance h r
          + sumOfType "DEPOSIT" (transactionsGet (runCalls h calls) r)
          - sumOfType "WITHDRAW" (transactionsGet (runCalls h calls) r)) ∧
    (∀ (h : Heap) (A B : Nat) (a : ℚ),
      (transferFunds h A (.account B) a).error = none →
      (∃ newA newB : List Transaction,
        transactionsGet (transferFunds h A (.account B) a).heap A = transactionsGet h A ++ newA ∧
        transactionsGet (transferFunds h A (.account B) a).heap B = transactionsGet h B ++ newB ∧
        newA.filter (fun tx => tx.transactionType = "WITHDRAW" ∨ tx.transactionType = "TRANSFER")
          = [withdrawRecord (h A) a, transferOutRecord (h A) (h B) a] ∧
        newB.filter (fun tx => tx.transactionType = "DEPOSIT" ∨ tx.transactionType = "TRANSFER_IN")
          = [depositRecord (h B) a, transferInRecord (h A) (h B) a]) ∧
      (A ≠ B →
        transactionsGet (transferFunds h A (.account B) a).heap A
          = transactionsGet h A ++ [withdrawRecord (h A) a, transferOutRecord (h A) (h B) a] ∧
        transactionsGet (transferFunds h A (.account B) a).heap B
          = transactionsGet h B ++ [depositRecord (h B) a, transferInRecord (h A) (h B) a]) ∧
      (A = B →
        transactionsGet (transferFunds h A (.account B) a).heap A
          = transactionsGet h A ++
            [withdrawRecord (h A) a, depositRecord (h A) a,
             transferOutRecord (h A) (h A) a, transferInRecord (h A) (h A) a])) := by
  constructor
  · intro h r n b calls hnew
    refine ⟨IndividualAccount_new_balance n b (h r) hnew, ?_⟩
    obtain ⟨new, ht, hb⟩ := runCalls_ledger calls h r
    have hempty : (h r).transactions = [] := (IndividualAccount_new_ok n b (h r) hnew).2
    rw [hempty, List.nil_append] at ht
    simp only [getBalance, transactionsGet]
    rw [hb, ht]
  · intro h A B a hok
    have hpos : 0 < a := by
      by_contra hn
      rw [transferFunds_of_nonpos h A B a (not_lt.mp hn)] at hok
      cases hok
    have hle : a ≤ (h A).balance := by
      by_contra hn
      rw [transferFunds_of_insufficient h A B a hpos (not_le.mp hn)] at hok
      cases hok
    have hne : A ≠ B →
        transactionsGet (transferFunds h A (.account B) a).heap A
          = transactionsGet h A ++ [withdrawRecord (h A) a, transferOutRecord (h A) (h B) a] ∧
        transactionsGet (transferFunds h A (.account B) a).heap B
          = transactionsGet h B ++ [depositRecord (h B) a, transferInRecord (h A) (h B) a] := by
      intro hAB
      rw [transferFunds_of_covered_ne h A B a hpos hle (fun e => hAB e.symm)]
      simp [transactionsGet, Function.update_apply, hAB]
    have heq : A = B →
        transactionsGet (transferFunds h A (.account B) a).heap A
          = transactionsGet h A ++
            [withdrawRecord (h A) a, depositRecord (h A) a,
             transferOutRecord (h A) (h A) a, transferInRecord (h A) (h A) a] := by
      intro hAB
      subst hAB
      rw [transferFunds_of_covered_self h A a hpos hle]
      simp [transactionsGet]
    refine ⟨?_, hne, heq⟩
    by_cases hAB : A = B
    · have h4 := heq hAB
      subst hAB
      exact ⟨_, _, h4, h4,
        by simp [withdrawRecord, depositRecord, transferOutRecord, transferInRecord],
        by simp [withdrawRecord, depositRecord, transferOutRecord, transferInRecord]⟩
    · exact ⟨_, _, (hne hAB).1, (hne hAB).2,
        by simp [withdrawRecord, transferOutRecord],
        by simp [depositRecord, transferInRecord]⟩

/-- An instance: after the transfer of the demo and a deposit of 25, `user1`
(created with 1000) holds 925 = 1000 + 25 - 100, with DEPOSIT records summing to 25 and
WITHDRAW records summing to 100. -/
theorem finite_ledger_consistency_witness :
    getBalance (runCalls demoHeap [.transferFunds 0 (.account 1) 100, .deposit 0 25]) 0
      = getBalance demoHeap 0
        + sumOfType "DEPOSIT"
            (transactionsGet
              (runCalls demoHeap [.transferFunds 0 (.account 1) 100, .deposit 0 25]) 0)
        - sumOfType "WITHDRAW"
            (transactionsGet
              (runCalls demoHeap [.transferFunds 0 (.account 1) 100, .deposit 0 25]) 0) ∧
    getBalance (runCalls demoHeap [.transferFunds 0 (.account 1) 100, .deposit 0 25]) 0 = 925 ∧
    (transactionsGet
      (runCalls demoHeap [.transferFunds 0 (.account 1) 100, .deposit 0 25]) 0).map
        (fun tx => (tx.transactionType, tx.amount))
      = [("WITHDRAW", 100), ("TRANSFER", 100), ("DEPOSIT", 25)] := by
  have w := (finite_ledger_consistency.1 demoHeap 0 (.string "145xs6s51s51x5ssx1") (.number 1000)
    [.transferFunds 0 (.account 1) 100, .deposit 0 25] demo_user1_constructed).2
  have hle : (100 : ℚ) ≤ (demoHeap 0).balance := by norm_num [demoHeap, user1]
  have h25 : (0 : ℚ) < 25 := by norm_num
  refine ⟨w, ?_, ?_⟩
  · simp only [runCalls, List.foldl, Call.run, getBalance]
    rw [transferFunds_of_covered_ne demoHeap 0 1 100 (by norm_num) hle (by decide),
      deposit_of_pos _ 0 25 h25]
    norm_num [Function.update_apply, demoHeap, user1]
  · simp only [runCalls, List.foldl, Call.run, transactionsGet]
    rw [transferFunds_of_covered_ne demoHeap 0 1 100 (by norm_num) hle (by decide),
      deposit_of_pos _ 0 25 h25]
    simp [Function.update_apply, demoHeap, user1, withdrawRecord, transferOutRecord,
      depositRecord]

end Bank

/-! ## Bank.js: all JavaScript numbers -/

namespace Bank

/-! ### Comparisons and arithmetic -/

theorem JSNumber_le_or_gt (x : JSNumber) (hx : x ≠ .nan) :
    JSNumber.le x (.finite 0) = true ∨ JSNumber.gt x (.finite 0) = true := by
  cases x with
  | finite q =>
    by_cases hq : q ≤ 0
    · left; simp [JSNumber.le, hq]
    · right; simp [JSNumber.gt, JSNumber.lt, not_le.mp hq]
  | nan => exact absurd rfl hx
  | posInf => right; rfl
  | negInf => left; rfl

theorem JSNumber_gt_not_le (x : JSNumber) (hx : JSNumber.gt x (.finite 0) = true) :
    JSNumber.le x (.finite 0) = false := by
  cases x with
  | finite q =>
    have hq : 0 < q := by simpa [JSNumber.gt, JSNumber.lt] using hx
    simp [JSNumber.le, hq]
  | nan => rfl
  | posInf => rfl
  | negInf => simp [JSNumber.gt, JSNumber.lt] at hx

theorem JSNumber_gt_ne_nan (x : JSNumber) (hx : JSNumber.gt x (.finite 0) = true) :
    x ≠ .nan := by
  intro e
  subst e
  simp [JSNumber.gt, JSNumber.lt] at hx

theorem JSNumber_add_nan (fl : ℚ → JSNumber) (b : JSNumber) :
    JSNumber.add fl b .nan = .nan := by
  cases b <;> rfl

theorem JSNumber_sub_nan (fl : ℚ → JSNumber) (b : JSNumber) :
    JSNumber.sub fl b .nan = .nan := by
  cases b <;> rfl

theorem JSNumber_nan_add (fl : ℚ → JSNumber) (x : JSNumber) :
    JSNumber.add fl .nan x = .nan := by
  cases x <;> rfl

theorem JSNumber_nan_sub (fl : ℚ → JSNumber) (x : JSNumber) :
    JSNumber.sub fl .nan x = .nan := by
  cases x <;> rfl

namespace Wide

/-! ### Basic facts about the store -/

@[simp] theorem wide_writeBalance_same (h : Heap) (self : Nat) (v : JSNumber) :
    writeBalance h self v self = { h self with balance := v } := by
  simp [writeBalance]

@[simp] theorem wide_writeBalance_other (h : Heap) (self r : Nat) (v : JSNumber)
    (hr : r ≠ self) : writeBalance h self v r = h r := by
  simp [writeBalance, hr]

@[simp] theorem wide_addTransaction_same (h : Heap) (self : Nat) (tx : Transaction) :
    addTransaction h self tx self
      = { h self with transactions := (h self).transactions ++ [tx] } := by
  simp [addTransaction]

@[simp] theorem wide_addTransaction_other (h : Heap) (self r : Nat) (tx : Transaction)
    (hr : r ≠ self) : addTransaction h self tx r = h r := by
  simp [addTransaction, hr]

theorem wide_Transaction_new_of_pos (n : String) (a : JSNumber) (t : String)
    (f g : Option String) (ha : JSNumber.gt a (.finite 0) = true) :
    Transaction.new n a t f g = .ok ⟨n, a, t, f, g⟩ := by
  simp [Transaction.new, ha]

theorem wide_Transaction_new_nan (n : String) (t : String) (f g : Option String) :
    Transaction.new n .nan t f g = .error .ValidationError := by
  simp [Transaction.new, JSNumber.gt, JSNumber.lt]

section
variable (fl : ℚ → JSNumber)

theorem wide_deposit_of_nonpos (h : Heap) (self : Nat) (a : JSNumber)
    (ha : JSNumber.le a (.finite 0) = true) :
    deposit fl h self a = ⟨h, some .ValidationError⟩ := by
  simp [deposit, ha]

theorem wide_deposit_of_pos (h : Heap) (self : Nat) (a : JSNumber)
    (ha : JSNumber.gt a (.finite 0) = true) :
    deposit fl h self a =
      ⟨Function.update h self
          { h self with balance := JSNumber.add fl (h self).balance a,
                        transactions := (h self).transactions ++ [depositRecord (h self) a] },
        none⟩ := by
  have hn := JSNumber_gt_not_le a ha
  simp [deposit, hn, Transaction.new, ha, addTransaction, writeBalance, depositRecord]

theorem wide_deposit_nan (h : Heap) (self : Nat) :
    deposit fl h self .nan = ⟨writeBalance h self .nan, some .ValidationError⟩ := by
  simp [deposit, JSNumber.le, Transaction.new, JSNumber.gt, JSNumber.lt, JSNumber_add_nan]

theorem wide_withdraw_of_nonpos (h : Heap) (self : Nat) (a : JSNumber)
    (ha : JSNumber.le a (.finite 0) = true) :
    withdraw fl h self a = ⟨h, some .ValidationError⟩ := by
  simp [withdraw, ha]

theorem wide_withdraw_of_insufficient (h : Heap) (self : Nat) (a : JSNumber)
    (ha : JSNumber.gt a (.finite 0) = true)
    (hlt : JSNumber.lt (h self).balance a = true) :
    withdraw fl h self a = ⟨h, some .InsufficientFundsError⟩ := by
  have hn := JSNumber_gt_not_le a ha
  simp [withdraw, hn, hlt]

theorem wide_withdraw_of_covered (h : Heap) (self : Nat) (a : JSNumber)
    (ha : JSNumber.gt a (.finite 0) = true)
    (hle : JSNumber.lt (h self).balance a = false) :
    withdraw fl h self a =
      ⟨Function.update h self
          { h self with balance := JSNumber.sub fl (h self).balance a,
                        transactions := (h self).transactions ++ [withdrawRecord (h self) a] },
        none⟩ := by
  have hn := JSNumber_gt_not_le a ha
  simp [withdraw, hn, hle, Transaction.new, ha, addTransaction, writeBalance, withdrawRecord]

theorem wide_withdraw_nan (h : Heap) (self : Nat) :
    withdraw fl h self .nan = ⟨writeBalance h self .nan, some .ValidationError⟩ := by
  have hlt : JSNumber.lt (h self).balance .nan = false := by
    cases (h self).balance <;> rfl
  simp [withdraw, JSNumber.le, hlt, Transaction.new, JSNumber.gt, JSNumber.lt,
    JSNumber_sub_nan]

theorem wide_transferFunds_of_not_account (h : Heap) (self : Nat) (v : JSValue)
    (a : JSNumber) (hv : ∀ r, v ≠ .account r) :
    transferFunds fl h self v a = ⟨h, some .InvalidTransactionError⟩ := by
  cases v <;> first | rfl | exact absurd rfl (hv _)

theorem wide_transferFunds_of_nonpos (h : Heap) (self t : Nat) (a : JSNumber)
    (ha : JSNumber.le a (.finite 0) = true) :
    transferFunds fl h self (.account t) a = ⟨h, some .ValidationError⟩ := by
  simp [transferFunds, ha]

theorem wide_transferFunds_of_insufficient (h : Heap) (self t : Nat) (a : JSNumber)
    (ha : JSNumber.gt a (.finite 0) = true)
    (hlt : JSNumber.lt (h self).balance a = true) :
    transferFunds fl h self (.account t) a = ⟨h, some .InsufficientFundsError⟩ := by
  have hn := JSNumber_gt_not_le a ha
  simp [transferFunds, hn, wide_withdraw_of_insufficient fl h self a ha hlt]

theorem wide_transferFunds_nan (h : Heap) (self t : Nat) :
    transferFunds fl h self (.account t) .nan
      = ⟨writeBalance h self .nan, some .ValidationError⟩ := by
  simp [transferFunds, JSNumber.le, wide_withdraw_nan]

theorem wide_transferFunds_of_covered_ne (h : Heap) (self t : Nat) (a : JSNumber)
    (ha : JSNumber.gt a (.finite 0) = true)
    (hle : JSNumber.lt (h self).balance a = false) (hne : t ≠ self) :
    transferFunds fl h self (.account t) a =
      ⟨Function.update
          (Function.update h self
            { h self with
              balance := JSNumber.sub fl (h self).balance a,
              transactions := (h self).transactions
                ++ [withdrawRecord (h self) a, transferOutRecord (h self) (h t) a] })
          t
          { h t with
            balance := JSNumber.add fl (h t).balance a,
            transactions := (h t).transactions
              ++ [depositRecord (h t) a, transferInRecord (h self) (h t) a] },
        none⟩ := by
  have hn := JSNumber_gt_not_le a ha
  have hne2 : self ≠ t := fun e => hne e.symm
  simp only [transferFunds, hn, wide_withdraw_of_covered fl h self a ha hle,
    wide_deposit_of_pos fl _ t a ha, wide_Transaction_new_of_pos _ _ _ _ _ ha]
  simp only [Bool.false_eq_true, if_false, Outcome.mk.injEq, and_true]
  funext r
  by_cases h1 : r = t
  · subst h1
    simp [addTransaction, Function.update_apply, hne, hne2, transferInRecord, depositRecord]
  · by_cases h2 : r = self
    · subst h2
      simp [addTransaction, Function.update_apply, hne, hne2, transferOutRecord,
        withdrawRecord]
    · simp [addTransaction, Function.update_apply, h1, h2]

theorem wide_transferFunds_of_covered_self (h : Heap) (self : Nat) (a : JSNumber)
    (ha : JSNumber.gt a (.finite 0) = true)
    (hle : JSNumber.lt (h self).balance a = false) :
    transferFunds fl h self (.account self) a =
      ⟨Function.update h self
          { h self with
            balance := JSNumber.add fl (JSNumber.sub fl (h self).balance a) a,
            transactions := (h self).transactions
              ++ [withdrawRecord (h self) a, depositRecord (h self) a,
                  transferOutRecord (h self) (h self) a,
                  transferInRecord (h self) (h self) a] },
        none⟩ := by
  have hn := JSNumber_gt_not_le a ha
  simp only [transferFunds, hn, wide_withdraw_of_covered fl h self a ha hle,
    wide_deposit_of_pos fl _ self a ha, wide_Transaction_new_of_pos _ _ _ _ _ ha]
  simp only [Bool.false_eq_true, if_false, Outcome.mk.injEq, and_true]
  funext r
  by_cases h2 : r = self
  · subst h2
    simp [addTransaction, transferOutRecord, withdrawRecord, transferInRecord, depositRecord]
  · simp [addTransaction, Function.update_apply, h2]

end

end Wide
end Bank

namespace Bank

/-! ### The rounding of doubles -/

theorem binade_eq (q : ℚ) (e : ℤ) (h1 : (2 : ℚ) ^ e ≤ |q|) (h2 : |q| < (2 : ℚ) ^ (e + 1))
    (h3 : -1022 ≤ e) : binade q = e := by
  have hpos : 0 < |q| := lt_of_lt_of_le (zpow_pos (by norm_num) e) h1
  have hb : 1 < 2 := by norm_num
  have hle : e ≤ Int.log 2 |q| := by
    rw [← Int.zpow_le_iff_le_log hb hpos]
    exact_mod_cast h1
  have hlt : Int.log 2 |q| < e + 1 := by
    rw [← Int.lt_zpow_iff_log_lt hb hpos]
    exact_mod_cast h2
  unfold binade
  omega

theorem roundHalfEven_tie_odd (x : ℚ) (n : ℤ) (hx : x = n + 1 / 2) (hn : n % 2 = 1) :
    roundHalfEven x = n + 1 := by
  have hf : ⌊x⌋ = n := by
    rw [Int.floor_eq_iff, hx]
    constructor <;> linarith
  unfold roundHalfEven
  rw [hf, hx]
  have h1 : ¬ ((n : ℚ) + 1 / 2 - n < 1 / 2) := by
    rw [add_sub_cancel_left]; exact lt_irrefl _
  have h2 : ¬ (1 / 2 < (n : ℚ) + 1 / 2 - n) := by
    rw [add_sub_cancel_left]; exact lt_irrefl _
  have h3 : ¬ (n % 2 = 0) := by omega
  rw [if_neg h1, if_neg h2, if_neg h3]

theorem roundHalfEven_near (x : ℚ) (n : ℤ) (h1 : (n : ℚ) - 1 / 2 < x)
    (h2 : x < n + 1 / 2) : roundHalfEven x = n := by
  unfold roundHalfEven
  by_cases hn : (n : ℚ) ≤ x
  · have hf : ⌊x⌋ = n := by
      rw [Int.floor_eq_iff]
      constructor <;> linarith
    rw [hf, if_pos (by linarith)]
  · have hf : ⌊x⌋ = n - 1 := by
      rw [Int.floor_eq_iff]
      push_cast
      constructor <;> linarith
    rw [hf]
    push_cast
    rw [if_neg (by linarith), if_pos (by linarith)]
    ring

theorem roundHalfEven_nonneg (x : ℚ) (hx : 0 ≤ x) : 0 ≤ roundHalfEven x := by
  have hf : 0 ≤ ⌊x⌋ := Int.floor_nonneg.mpr hx
  unfold roundHalfEven
  split
  · exact hf
  · split
    · omega
    · split
      · exact hf
      · omega

/-- The arithmetic of doubles returns a result `>= 0` for an exact result `>= 0`. -/
theorem roundDouble_nonneg (q : ℚ) (hq : 0 ≤ q) :
    JSNumber.ge (roundDouble q) (.finite 0) = true := by
  have hulp : (0 : ℚ) < 2 ^ (binade q - 52) := zpow_pos (by norm_num) _
  have hr : (0 : ℚ) ≤ nearestDouble q :=
    mul_nonneg (by exact_mod_cast roundHalfEven_nonneg _ (div_nonneg hq hulp.le)) hulp.le
  unfold roundDouble
  split
  · rename_i hbig
    by_cases h0 : 0 < q
    · rw [if_pos h0]; rfl
    · have hq0 : q = 0 := le_antisymm (not_lt.mp h0) hq
      exfalso
      rw [hq0] at hbig
      have hz : nearestDouble 0 = 0 := by
        simp [nearestDouble, roundHalfEven]
      rw [hz] at hbig
      norm_num at hbig
  · simpa [JSNumber.ge, JSNumber.le] using hr

namespace Wide

/-- The literal `0.1` denotes the double `tenth`. -/
theorem roundDouble_literal_tenth : roundDouble (1 / 10) = .finite tenth := by
  have hb : binade (1 / 10) = -4 := by
    apply binade_eq
    · norm_num [abs_of_pos]
    · norm_num [abs_of_pos]
    · norm_num
  have hr : roundHalfEven ((1 / 10) / 2 ^ ((-4 : ℤ) - 52)) = 7205759403792794 := by
    apply roundHalfEven_near
    · norm_num [zpow_neg]
    · norm_num [zpow_neg]
  unfold roundDouble nearestDouble
  rw [hb, hr]
  norm_num [zpow_neg, abs_of_pos, tenth]

/-- The literal `0.2` denotes the double `fifth`. -/
theorem roundDouble_literal_fifth : roundDouble (2 / 10) = .finite fifth := by
  have hb : binade (2 / 10) = -3 := by
    apply binade_eq
    · norm_num [abs_of_pos]
    · norm_num [abs_of_pos]
    · norm_num
  have hr : roundHalfEven ((2 / 10) / 2 ^ ((-3 : ℤ) - 52)) = 7205759403792794 := by
    apply roundHalfEven_near
    · norm_num [zpow_neg]
    · norm_num [zpow_neg]
  unfold roundDouble nearestDouble
  rw [hb, hr]
  norm_num [zpow_neg, abs_of_pos, fifth]

/-- The literal `0.3` denotes the double `threeTenths`. -/
theorem roundDouble_literal_threeTenths : roundDouble (3 / 10) = .finite threeTenths := by
  have hb : binade (3 / 10) = -2 := by
    apply binade_eq
    · norm_num [abs_of_pos]
    · norm_num [abs_of_pos]
    · norm_num
  have hr : roundHalfEven ((3 / 10) / 2 ^ ((-2 : ℤ) - 52)) = 5404319552844595 := by
    apply roundHalfEven_near
    · norm_num [zpow_neg]
    · norm_num [zpow_neg]
  unfold roundDouble nearestDouble
  rw [hb, hr]
  norm_num [zpow_neg, abs_of_pos, threeTenths]

/-- The sum `0.1 + 0.2` of doubles: 0.30000000000000004. -/
theorem roundDouble_tenth_fifth :
    roundDouble (tenth + fifth) = .finite (1351079888211149 / 4503599627370496) := by
  have hb : binade (tenth + fifth) = -2 := by
    apply binade_eq
    · norm_num [tenth, fifth, abs_of_pos]
    · norm_num [tenth, fifth, abs_of_pos]
    · norm_num
  have hr : roundHalfEven ((tenth + fifth) / 2 ^ ((-2 : ℤ) - 52)) = 5404319552844595 + 1 := by
    apply roundHalfEven_tie_odd
    · norm_num [tenth, fifth, zpow_neg]
    · norm_num
  unfold roundDouble nearestDouble
  rw [hb, hr]
  norm_num [zpow_neg, abs_of_pos]

/-- The sum `0.30000000000000004 + 0.3` of doubles: 0.6000000000000001. -/
theorem roundDouble_plus_threeTenths :
    roundDouble (1351079888211149 / 4503599627370496 + threeTenths)
      = .finite (1351079888211149 / 2251799813685248) := by
  have hb : binade (1351079888211149 / 4503599627370496 + threeTenths) = -1 := by
    apply binade_eq
    · norm_num [threeTenths, abs_of_pos]
    · norm_num [threeTenths, abs_of_pos]
    · norm_num
  have hr : roundHalfEven ((1351079888211149 / 4503599627370496 + threeTenths)
      / 2 ^ ((-1 : ℤ) - 52)) = 5404319552844595 + 1 := by
    apply roundHalfEven_tie_odd
    · norm_num [threeTenths, zpow_neg]
    · norm_num
  unfold roundDouble nearestDouble
  rw [hb, hr]
  norm_num [zpow_neg, abs_of_pos]

/-- The sum `0.2 + 0.3` of doubles: 0.5. -/
theorem roundDouble_fifth_threeTenths :
    roundDouble (fifth + threeTenths) = .finite (1 / 2) := by
  have hb : binade (fifth + threeTenths) = -1 := by
    apply binade_eq
    · norm_num [fifth, threeTenths, abs_of_pos]
    · norm_num [fifth, threeTenths, abs_of_pos]
    · norm_num
  have hr : roundHalfEven ((fifth + threeTenths) / 2 ^ ((-1 : ℤ) - 52))
      = 4503599627370496 := by
    apply roundHalfEven_near
    · norm_num [fifth, threeTenths, zpow_neg]
    · norm_num [fifth, threeTenths, zpow_neg]
  unfold roundDouble nearestDouble
  rw [hb, hr]
  norm_num [zpow_neg, abs_of_pos]

/-- The sum `0.1 + 0.5` of doubles: 0.6. -/
theorem roundDouble_tenth_half :
    roundDouble (tenth + 1 / 2) = .finite (5404319552844595 / 9007199254740992) := by
  have hb : binade (tenth + 1 / 2) = -1 := by
    apply binade_eq
    · norm_num [tenth, abs_of_pos]
    · norm_num [tenth, abs_of_pos]
    · norm_num
  have hr : roundHalfEven ((tenth + 1 / 2) / 2 ^ ((-1 : ℤ) - 52)) = 5404319552844595 := by
    apply roundHalfEven_near
    · norm_num [tenth, zpow_neg]
    · norm_num [tenth, zpow_neg]
  unfold roundDouble nearestDouble
  rw [hb, hr]
  norm_num [zpow_neg, abs_of_pos]

end Wide
end Bank

namespace Bank
namespace Wide

/-! ### What one call does to one account -/

section
variable (fl : ℚ → JSNumber)

theorem replay_append (b : JSNumber) (xs ys : List Transaction) :
    replay fl b (xs ++ ys) = replay fl (replay fl b xs) ys := by
  simp [replay, List.foldl_append]

/-- What one call whose amount is not `NaN` can do to one account: nothing, or one of
the four successful updates (deposit, withdrawal, transfer with the account on one side
or on both). Each update pushes the records that account for it. -/
theorem wide_Call_run_account (h : Heap) (c : Call) (r : Nat) (hx : c.amount ≠ .nan) :
    Call.run fl h c r = h r ∨
    ∃ (new : List Transaction) (b : JSNumber),
      JSNumber.gt c.amount (.finite 0) = true ∧
      (b = JSNumber.add fl (h r).balance c.amount ∨
       (JSNumber.lt (h r).balance c.amount = false ∧
          b = JSNumber.sub fl (h r).balance c.amount) ∨
       (JSNumber.lt (h r).balance c.amount = false ∧
          b = JSNumber.add fl (JSNumber.sub fl (h r).balance c.amount) c.amount)) ∧
      b = replay fl (h r).balance new ∧
      (∀ tx ∈ new, tx.transactionType ∈ writtenTypes ∧ tx.amount = c.amount) ∧
      Call.run fl h c r
        = { h r with balance := b, transactions := (h r).transactions ++ new } := by
  cases c with
  | deposit self a =>
    simp only [Call.amount] at hx ⊢
    rcases JSNumber_le_or_gt a hx with ha | ha
    · left; simp [Call.run, wide_deposit_of_nonpos fl h self a ha]
    · by_cases hr : r = self
      · subst hr
        refine Or.inr ⟨[depositRecord (h r) a], _, ha, Or.inl rfl, ?_, ?_, ?_⟩
        · simp [replay, depositRecord]
        · simp [depositRecord, writtenTypes]
        · simp [Call.run, wide_deposit_of_pos fl h r a ha]
      · left; simp [Call.run, wide_deposit_of_pos fl h self a ha, Function.update_apply, hr]
  | withdraw self a =>
    simp only [Call.amount] at hx ⊢
    rcases JSNumber_le_or_gt a hx with ha | ha
    · left; simp [Call.run, wide_withdraw_of_nonpos fl h self a ha]
    · cases hlt : JSNumber.lt (h self).balance a with
      | true => left; simp [Call.run, wide_withdraw_of_insufficient fl h self a ha hlt]
      | false =>
        by_cases hr : r = self
        · subst hr
          refine Or.inr ⟨[withdrawRecord (h r) a], _, ha, Or.inr (Or.inl ⟨hlt, rfl⟩),
            ?_, ?_, ?_⟩
          · simp [replay, withdrawRecord]
          · simp [withdrawRecord, writtenTypes]
          · simp [Call.run, wide_withdraw_of_covered fl h r a ha hlt]
        · left
          simp [Call.run, wide_withdraw_of_covered fl h self a ha hlt,
            Function.update_apply, hr]
  | transferFunds self v a =>
    simp only [Call.amount] at hx ⊢
    by_cases hv : ∃ t, v = .account t
    · obtain ⟨t, rfl⟩ := hv
      rcases JSNumber_le_or_gt a hx with ha | ha
      · left; simp [Call.run, wide_transferFunds_of_nonpos fl h self t a ha]
      · cases hlt : JSNumber.lt (h self).balance a with
        | true =>
          left
          simp [Call.run, wide_transferFunds_of_insufficient fl h self t a ha hlt]
        | false =>
          by_cases hts : t = self
          · subst hts
            by_cases hr : r = t
            · subst hr
              refine Or.inr ⟨[withdrawRecord (h r) a, depositRecord (h r) a,
                transferOutRecord (h r) (h r) a, transferInRecord (h r) (h r) a], _,
                ha, Or.inr (Or.inr ⟨hlt, rfl⟩), ?_, ?_, ?_⟩
              · simp [replay, withdrawRecord, depositRecord, transferOutRecord,
                  transferInRecord]
              · simp [withdrawRecord, depositRecord, transferOutRecord, transferInRecord,
                  writtenTypes]
              · simp [Call.run, wide_transferFunds_of_covered_self fl h r a ha hlt]
            · left
              simp [Call.run, wide_transferFunds_of_covered_self fl h t a ha hlt,
                Function.update_apply, hr]
          · rw [show Call.run fl h (.transferFunds self (.account t) a) r
                = (transferFunds fl h self (.account t) a).heap r from rfl,
              wide_transferFunds_of_covered_ne fl h self t a ha hlt hts]
            by_cases hr : r = t
            · subst hr
              refine Or.inr ⟨[depositRecord (h r) a, transferInRecord (h self) (h r) a], _,
                ha, Or.inl rfl, ?_, ?_, ?_⟩
              · simp [replay, depositRecord, transferInRecord]
              · simp [depositRecord, transferInRecord, writtenTypes]
              · simp
            · by_cases hr2 : r = self
              · subst hr2
                refine Or.inr ⟨[withdrawRecord (h r) a, transferOutRecord (h r) (h t) a], _,
                  ha, Or.inr (Or.inl ⟨hlt, rfl⟩), ?_, ?_, ?_⟩
                · simp [replay, withdrawRecord, transferOutRecord]
                · simp [withdrawRecord, transferOutRecord, writtenTypes]
                · simp [Function.update_apply, hr]
              · left; simp [Function.update_apply, hr, hr2]
    · left
      have hv2 : ∀ t, v ≠ .account t := fun t e => hv ⟨t, e⟩
      simp [Call.run, wide_transferFunds_of_not_account fl h self v a hv2]

/-- One call whose amount is not `NaN` extends the history of an account by records
that account for the change of its balance. -/
theorem wide_Call_run_ledger (h : Heap) (c : Call) (r : Nat) (hx : c.amount ≠ .nan) :
    ∃ new : List Transaction,
      (Call.run fl h c r).transactions = (h r).transactions ++ new ∧
      (Call.run fl h c r).balance = replay fl (h r).balance new ∧
      (∀ tx ∈ new, tx.amount = c.amount) := by
  rcases wide_Call_run_account fl h c r hx with e | ⟨new, b, _, _, hb, hnew, e⟩
  · exact ⟨[], by simp [e], by simp [e, replay], by simp⟩
  · exact ⟨new, by simp [e], by simp [e, hb], fun tx htx => (hnew tx htx).2⟩

theorem wide_runCalls_ledger (calls : List Call) (h : Heap) (r : Nat)
    (hx : ∀ c ∈ calls, c.amount ≠ .nan) :
    ∃ new : List Transaction,
      (runCalls fl h calls r).transactions = (h r).transactions ++ new ∧
      (runCalls fl h calls r).balance = replay fl (h r).balance new ∧
      (∀ tx ∈ new, ∃ c ∈ calls, tx.amount = c.amount) := by
  induction calls generalizing h with
  | nil => exact ⟨[], by simp [runCalls], by simp [runCalls, replay], by simp⟩
  | cons c cs ih =>
    obtain ⟨new1, ht1, hb1, ha1⟩ :=
      wide_Call_run_ledger fl h c r (hx c (List.mem_cons_self _ _))
    obtain ⟨new2, ht2, hb2, ha2⟩ :=
      ih (Call.run fl h c) (fun c2 hc2 => hx c2 (List.mem_cons_of_mem _ hc2))
    refine ⟨new1 ++ new2, ?_, ?_, ?_⟩
    · show (runCalls fl (Call.run fl h c) cs r).transactions = _
      rw [ht2, ht1, List.append_assoc]
    · show (runCalls fl (Call.run fl h c) cs r).balance = _
      rw [hb2, hb1, replay_append]
    · intro tx htx
      rcases List.mem_append.mp htx with h1 | h2
      · exact ⟨c, List.mem_cons_self _ _, ha1 tx h1⟩
      · obtain ⟨c2, hc2, e⟩ := ha2 tx h2
        exact ⟨c2, List.mem_cons_of_mem _ hc2, e⟩

/-- In exact arithmetic, replaying records with finite amounts from a finite balance
gives the balance plus the deposits minus the withdrawals. -/
theorem replay_exact (txs : List Transaction) (b : ℚ)
    (hfin : ∀ tx ∈ txs, tx.amount.isFinite = true) :
    replay JSNumber.finite (.finite b) txs
      = .finite (b + sumOfType "DEPOSIT" txs - sumOfType "WITHDRAW" txs) := by
  induction txs generalizing b with
  | nil => simp [replay, sumOfType]
  | cons tx txs ih =>
    have hfin2 : ∀ t ∈ txs, t.amount.isFinite = true :=
      fun t ht => hfin t (List.mem_cons_of_mem _ ht)
    have h1 := hfin tx (List.mem_cons_self _ _)
    obtain ⟨q, hq⟩ : ∃ q, tx.amount = .finite q := by
      cases hta : tx.amount with
      | finite q => exact ⟨q, rfl⟩
      | nan => rw [hta] at h1; cases h1
      | posInf => rw [hta] at h1; cases h1
      | negInf => rw [hta] at h1; cases h1
    have step : replay JSNumber.finite (.finite b) (tx :: txs)
        = replay JSNumber.finite
            (if tx.transactionType = "DEPOSIT" then .finite (b + q)
             else if tx.transactionType = "WITHDRAW" then .finite (b - q)
             else .finite b) txs := by
      simp only [replay, List.foldl_cons, hq, JSNumber.add, JSNumber.sub, JSNumber.neg,
        sub_eq_add_neg]
    rw [step]
    by_cases hd : tx.transactionType = "DEPOSIT"
    · have hw : tx.transactionType ≠ "WITHDRAW" := by rw [hd]; decide
      rw [if_pos hd, ih _ hfin2]
      simp [sumOfType, List.filter_cons, hd, hw, hq, JSNumber.toRat]
      ring
    · by_cases hw : tx.transactionType = "WITHDRAW"
      · rw [if_neg hd, if_pos hw, ih _ hfin2]
        simp [sumOfType, List.filter_cons, hd, hw, hq, JSNumber.toRat]
        ring
      · rw [if_neg hd, if_neg hw, ih _ hfin2]
        simp [sumOfType, List.filter_cons, hd, hw]

end

end Wide
end Bank

namespace Bank
namespace Wide

/-! ### The finite numbers in exact arithmetic

On finite amounts and balances, with exact arithmetic, the operations over all
numbers are the operations over the rationals. -/

theorem ofHeap_update (h : Bank.Heap) (self : Nat) (acct : Bank.BankAccount) :
    ofHeap (Function.update h self acct) = Function.update (ofHeap h) self (ofAccount acct) := by
  funext r
  by_cases hr : r = self
  · subst hr; simp [ofHeap]
  · simp [ofHeap, Function.update_apply, hr]

theorem gt_finite (a : ℚ) : JSNumber.gt (.finite a) (.finite 0) = true ↔ 0 < a := by
  simp [JSNumber.gt, JSNumber.lt]

theorem le_finite (a : ℚ) : JSNumber.le (.finite a) (.finite 0) = true ↔ a ≤ 0 := by
  simp [JSNumber.le]

theorem lt_finite (a b : ℚ) : JSNumber.lt (.finite a) (.finite b) = true ↔ a < b := by
  simp [JSNumber.lt]

theorem deposit_finite (h : Bank.Heap) (self : Nat) (a : ℚ) :
    deposit JSNumber.finite (ofHeap h) self (.finite a) = ofOutcome (Bank.deposit h self a) := by
  by_cases ha : 0 < a
  · rw [Bank.deposit_of_pos h self a ha,
      wide_deposit_of_pos _ _ self _ ((gt_finite a).mpr ha)]
    simp [ofOutcome, ofHeap_update, ofHeap, ofAccount, ofTransaction, depositRecord,
      Bank.depositRecord, JSNumber.add]
  · have hle : a ≤ 0 := not_lt.mp ha
    rw [Bank.deposit_of_nonpos h self a hle,
      wide_deposit_of_nonpos _ _ self _ ((le_finite a).mpr hle)]
    rfl

theorem withdraw_finite (h : Bank.Heap) (self : Nat) (a : ℚ) :
    withdraw JSNumber.finite (ofHeap h) self (.finite a)
      = ofOutcome (Bank.withdraw h self a) := by
  by_cases ha : 0 < a
  · by_cases hle : a ≤ (h self).balance
    · have hlt : JSNumber.lt (ofHeap h self).balance (.finite a) = false := by
        simp [ofHeap, ofAccount, JSNumber.lt, hle]
      rw [Bank.withdraw_of_covered h self a ha hle,
        wide_withdraw_of_covered _ _ self _ ((gt_finite a).mpr ha) hlt]
      simp [ofOutcome, ofHeap_update, ofHeap, ofAccount, ofTransaction, withdrawRecord,
        Bank.withdrawRecord, JSNumber.sub, JSNumber.add, JSNumber.neg, sub_eq_add_neg]
    · have hlt : JSNumber.lt (ofHeap h self).balance (.finite a) = true := by
        simp [ofHeap, ofAccount, JSNumber.lt, not_le.mp hle]
      rw [Bank.withdraw_of_insufficient h self a ha (not_le.mp hle),
        wide_withdraw_of_insufficient _ _ self _ ((gt_finite a).mpr ha) hlt]
      rfl
  · have hle : a ≤ 0 := not_lt.mp ha
    rw [Bank.withdraw_of_nonpos h self a hle,
      wide_withdraw_of_nonpos _ _ self _ ((le_finite a).mpr hle)]
    rfl

theorem transferFunds_finite (h : Bank.Heap) (self : Nat) (v : JSValue) (a : ℚ) :
    transferFunds JSNumber.finite (ofHeap h) self v (.finite a)
      = ofOutcome (Bank.transferFunds h self v a) := by
  by_cases hv : ∃ t, v = .account t
  · obtain ⟨t, rfl⟩ := hv
    by_cases ha : 0 < a
    · by_cases hle : a ≤ (h self).balance
      · have hlt : JSNumber.lt (ofHeap h self).balance (.finite a) = false := by
          simp [ofHeap, ofAccount, JSNumber.lt, hle]
        by_cases hts : t = self
        · subst hts
          rw [Bank.transferFunds_of_covered_self h t a ha hle,
            wide_transferFunds_of_covered_self _ _ t _ ((gt_finite a).mpr ha) hlt]
          simp [ofOutcome, ofHeap_update, ofHeap, ofAccount, ofTransaction, withdrawRecord,
            Bank.withdrawRecord, depositRecord, Bank.depositRecord, transferOutRecord,
            Bank.transferOutRecord, transferInRecord, Bank.transferInRecord,
            JSNumber.sub, JSNumber.add, JSNumber.neg, sub_eq_add_neg]
        · rw [Bank.transferFunds_of_covered_ne h self t a ha hle hts,
            wide_transferFunds_of_covered_ne _ _ self t _ ((gt_finite a).mpr ha) hlt hts]
          simp [ofOutcome, ofHeap_update, ofHeap, ofAccount, ofTransaction, withdrawRecord,
            Bank.withdrawRecord, depositRecord, Bank.depositRecord, transferOutRecord,
            Bank.transferOutRecord, transferInRecord, Bank.transferInRecord,
            JSNumber.sub, JSNumber.add, JSNumber.neg, sub_eq_add_neg]
      · have hlt : JSNumber.lt (ofHeap h self).balance (.finite a) = true := by
          simp [ofHeap, ofAccount, JSNumber.lt, not_le.mp hle]
        rw [Bank.transferFunds_of_insufficient h self t a ha (not_le.mp hle),
          wide_transferFunds_of_insufficient _ _ self t _ ((gt_finite a).mpr ha) hlt]
        rfl
    · have hle : a ≤ 0 := not_lt.mp ha
      rw [Bank.transferFunds_of_nonpos h self t a hle,
        wide_transferFunds_of_nonpos _ _ self t _ ((le_finite a).mpr hle)]
      rfl
  · have hv2 : ∀ t, v ≠ .account t := fun t e => hv ⟨t, e⟩
    rw [Bank.transferFunds_of_not_account h self v a hv2,
      wide_transferFunds_of_not_account _ _ self v _ hv2]
    rfl

theorem Call_run_finite (h : Bank.Heap) (c : Bank.Call) :
    Call.run JSNumber.finite (ofHeap h) (ofCall c) = ofHeap (Bank.Call.run h c) := by
  cases c with
  | deposit self a => simp [ofCall, Call.run, Bank.Call.run, deposit_finite, ofOutcome]
  | withdraw self a => simp [ofCall, Call.run, Bank.Call.run, withdraw_finite, ofOutcome]
  | transferFunds self v a =>
    simp [ofCall, Call.run, Bank.Call.run, transferFunds_finite, ofOutcome]

/-- On finite amounts, in exact arithmetic, a sequence of calls over all numbers does
what the same sequence does over the rationals. -/
theorem runCalls_finite (calls : List Bank.Call) (h : Bank.Heap) :
    runCalls JSNumber.finite (ofHeap h) (calls.map ofCall) = ofHeap (Bank.runCalls h calls) := by
  induction calls generalizing h with
  | nil => rfl
  | cons c cs ih =>
    show runCalls JSNumber.finite (Call.run JSNumber.finite (ofHeap h) (ofCall c))
        (cs.map ofCall) = ofHeap (Bank.runCalls (Bank.Call.run h c) cs)
    rw [Call_run_finite, ih]

/-! ### The sign of the balance on finite amounts -/

section
variable (fl : ℚ → JSNumber)

theorem ge_add_finite (hfl : ∀ q : ℚ, 0 ≤ q → JSNumber.ge (fl q) (.finite 0) = true)
    (b : JSNumber) (q : ℚ) (hb : JSNumber.ge b (.finite 0) = true) (hq : 0 < q) :
    JSNumber.ge (JSNumber.add fl b (.finite q)) (.finite 0) = true := by
  cases b with
  | finite p =>
    have hp : 0 ≤ p := by simpa [JSNumber.ge, JSNumber.le] using hb
    exact hfl (p + q) (by linarith)
  | nan => simp [JSNumber.ge, JSNumber.le] at hb
  | posInf => rfl
  | negInf => simp [JSNumber.ge, JSNumber.le] at hb

theorem ge_sub_finite (hfl : ∀ q : ℚ, 0 ≤ q → JSNumber.ge (fl q) (.finite 0) = true)
    (b : JSNumber) (q : ℚ) (hb : JSNumber.ge b (.finite 0) = true)
    (hlt : JSNumber.lt b (.finite q) = false) :
    JSNumber.ge (JSNumber.sub fl b (.finite q)) (.finite 0) = true := by
  cases b with
  | finite p =>
    have hp : q ≤ p := by simpa [JSNumber.lt] using hlt
    exact hfl (p + -q) (by linarith)
  | nan => simp [JSNumber.ge, JSNumber.le] at hb
  | posInf => rfl
  | negInf => simp [JSNumber.ge, JSNumber.le] at hb

theorem wide_Call_run_balance_nonneg
    (hfl : ∀ q : ℚ, 0 ≤ q → JSNumber.ge (fl q) (.finite 0) = true)
    (h : Heap) (c : Call) (r : Nat) (hc : c.amount.isFinite = true)
    (hr : JSNumber.ge (h r).balance (.finite 0) = true) :
    JSNumber.ge (Call.run fl h c r).balance (.finite 0) = true := by
  obtain ⟨q, hq⟩ : ∃ q, c.amount = .finite q := by
    cases hca : c.amount with
    | finite q => exact ⟨q, rfl⟩
    | nan => rw [hca] at hc; cases hc
    | posInf => rw [hca] at hc; cases hc
    | negInf => rw [hca] at hc; cases hc
  have hx : c.amount ≠ .nan := by rw [hq]; exact fun e => nomatch e
  rcases wide_Call_run_account fl h c r hx with e | ⟨new, b, hpos, hform, _, _, e⟩
  · rw [e]; exact hr
  · rw [e]
    rw [hq] at hpos hform
    have hq0 : 0 < q := (gt_finite q).mp hpos
    show JSNumber.ge b (.finite 0) = true
    rcases hform with hb | ⟨hlt, hb⟩ | ⟨hlt, hb⟩
    · rw [hb]; exact ge_add_finite fl hfl _ q hr hq0
    · rw [hb]; exact ge_sub_finite fl hfl _ q hr hlt
    · rw [hb]
      exact ge_add_finite fl hfl _ q (ge_sub_finite fl hfl _ q hr hlt) hq0

theorem wide_runCalls_balance_nonneg
    (hfl : ∀ q : ℚ, 0 ≤ q → JSNumber.ge (fl q) (.finite 0) = true)
    (calls : List Call) (h : Heap) (r : Nat)
    (hc : ∀ c ∈ calls, c.amount.isFinite = true)
    (hr : JSNumber.ge (h r).balance (.finite 0) = true) :
    JSNumber.ge (runCalls fl h calls r).balance (.finite 0) = true := by
  induction calls generalizing h with
  | nil => exact hr
  | cons c cs ih =>
    exact ih (Call.run fl h c) (fun c2 hc2 => hc c2 (List.mem_cons_of_mem _ hc2))
      (wide_Call_run_balance_nonneg fl hfl h c r (hc c (List.mem_cons_self _ _)) hr)

end

/-! ### The constructor -/

theorem wide_IndividualAccount_new_ok (n : JSValue) (b : Value) (acct : BankAccount)
    (hnew : IndividualAccount.new n b = .ok acct) :
    acct.transactions = [] ∧
    (if b = .undefined then Value.number (.finite 0) else b) = .number acct.balance ∧
    JSNumber.lt acct.balance (.finite 0) = false := by
  unfold IndividualAccount.new BankAccount.new at hnew
  simp only [reduceCtorEq, if_false] at hnew
  split at hnew
  · cases hnew
  · split at hnew
    · split at hnew
      · cases hnew
      · cases hnew
        rename_i hlt
        exact ⟨rfl, by assumption, by simpa using hlt⟩
    · cases hnew

theorem wide_demo_user1_constructed :
    IndividualAccount.new (.string "145xs6s51s51x5ssx1") (.number (.finite 1000))
      = .ok (demoHeap 0) := by
  have hlen : utf16Length "145xs6s51s51x5ssx1" = 18 := by decide
  simp [IndividualAccount.new, BankAccount.new, validateAccountNumber, hlen, JSNumber.lt,
    demoHeap, user1]

end Wide
end Bank

/-! ## Bank.js: the balance and the ledger over all numbers -/

namespace Bank
namespace Wide

/-- C3 (code at the failing input, and beyond it). The balance does not stay `>= 0`
over all calls: an amount of `NaN` gets past the guard `amount <= 0` of `deposit` and
`withdraw`, the balance is written, and only then does the `Transaction` constructor
reject the amount.
(1) `user1` of the demo is an account its constructor returns for the initial balance
1000, which is `>= 0`. (2) On it `deposit(NaN)` throws `ValidationError` and leaves the
balance `NaN`, for which `balance >= 0` is false, with nothing pushed on the history.
(3) On every account `deposit(NaN)`, `withdraw(NaN)` and `transferFunds(target, NaN)`
throw `ValidationError` after writing `NaN` to the balance, while the `Transaction`
constructor refuses `NaN`. (4) Once the balance is `NaN`, every withdrawal of a
positive amount is accepted and the balance stays `NaN`. (5) `deposit(Infinity)` then
`withdraw(Infinity)` both return and leave the balance `NaN`. (6) On finite amounts the
invariant holds, whatever the rounding, as long as the arithmetic returns a result
`>= 0` for an exact result `>= 0`: a balance `>= 0` stays `>= 0` through every
sequence of calls, returning or throwing. (7) The arithmetic of doubles is such an
arithmetic. -/
theorem nonnegative_balance_broken_by_NaN (fl : ℚ → JSNumber) :
    (IndividualAccount.new (.string "145xs6s51s51x5ssx1") (.number (.finite 1000))
        = .ok (demoHeap 0) ∧
      JSNumber.ge (getBalance demoHeap 0) (.finite 0) = true) ∧
    ((deposit fl demoHeap 0 .nan).error = some .ValidationError ∧
      getBalance (runCalls fl demoHeap [.deposit 0 .nan]) 0 = .nan ∧
      JSNumber.ge (getBalance (runCalls fl demoHeap [.deposit 0 .nan]) 0) (.finite 0) = false ∧
      transactionsGet (runCalls fl demoHeap [.deposit 0 .nan]) 0 = []) ∧
    (∀ (h : Heap) (self target : Nat) (n t : String) (f g : Option String),
      deposit fl h self .nan = ⟨writeBalance h self .nan, some .ValidationError⟩ ∧
      withdraw fl h self .nan = ⟨writeBalance h self .nan, some .ValidationError⟩ ∧
      transferFunds fl h self (.account target) .nan
        = ⟨writeBalance h self .nan, some .ValidationError⟩ ∧
      Transaction.new n .nan t f g = .error .ValidationError) ∧
    (∀ (h : Heap) (self : Nat) (amount : JSNumber),
      getBalance h self = .nan → JSNumber.gt amount (.finite 0) = true →
      (withdraw fl h self amount).error = none ∧
      getBalance (withdraw fl h self amount).heap self = .nan) ∧
    ((deposit fl demoHeap 0 .posInf).error = none ∧
      (withdraw fl (deposit fl demoHeap 0 .posInf).heap 0 .posInf).error = none ∧
      getBalance (runCalls fl demoHeap [.deposit 0 .posInf, .withdraw 0 .posInf]) 0 = .nan) ∧
    (∀ (h : Heap) (r : Nat) (calls : List Call),
      (∀ q : ℚ, 0 ≤ q → JSNumber.ge (fl q) (.finite 0) = true) →
      (∀ c ∈ calls, c.amount.isFinite = true) →
      JSNumber.ge (getBalance h r) (.finite 0) = true →
      JSNumber.ge (getBalance (runCalls fl h calls) r) (.finite 0) = true) ∧
    (∀ (h : Heap) (r : Nat) (calls : List Call),
      (∀ c ∈ calls, c.amount.isFinite = true) →
      JSNumber.ge (getBalance h r) (.finite 0) = true →
      JSNumber.ge (getBalance (runCalls roundDouble h calls) r) (.finite 0) = true) := by
  refine ⟨⟨wide_demo_user1_constructed, ?_⟩, ?_, ?_, ?_, ?_, ?_, ?_⟩
  · simp [getBalance, demoHeap, user1, JSNumber.ge, JSNumber.le]
  · simp [runCalls, Call.run, wide_deposit_nan, getBalance, transactionsGet, JSNumber.ge,
      JSNumber.le, demoHeap, user1]
  · intro h self target n t f g
    exact ⟨wide_deposit_nan fl h self, wide_withdraw_nan fl h self,
      wide_transferFunds_nan fl h self target, wide_Transaction_new_nan n t f g⟩
  · intro h self amount hb hpos
    have hlt : JSNumber.lt (h self).balance amount = false := by
      have hb2 : (h self).balance = .nan := hb
      rw [hb2]
      cases amount <;> rfl
    have hb2 : (h self).balance = .nan := hb
    rw [wide_withdraw_of_covered fl h self amount hpos hlt]
    simp [getBalance, hb2, JSNumber_nan_sub]
  · have hpos : JSNumber.gt .posInf (.finite 0) = true := rfl
    have h1 := wide_deposit_of_pos fl demoHeap 0 .posInf hpos
    have hlt : JSNumber.lt ((deposit fl demoHeap 0 .posInf).heap 0).balance .posInf
        = false := by
      rw [h1]
      simp [demoHeap, user1, JSNumber.add, JSNumber.lt]
    refine ⟨by rw [h1], ?_, ?_⟩
    · rw [wide_withdraw_of_covered fl _ 0 .posInf hpos hlt]
    · simp only [runCalls, List.foldl, Call.run, getBalance]
      rw [wide_withdraw_of_covered fl _ 0 .posInf hpos hlt, h1]
      simp [demoHeap, user1, JSNumber.add, JSNumber.sub, JSNumber.neg]
  · intro h r calls hfl hc hr
    exact wide_runCalls_balance_nonneg fl hfl calls h r hc hr
  · intro h r calls hc hr
    exact wide_runCalls_balance_nonneg roundDouble roundDouble_nonneg calls h r hc hr

/-- Counterexample to C21 as stated, in two ways.
(1) `user1` of the demo is created with the initial balance 1000; after `deposit(NaN)`,
which throws, its balance is `NaN` and its history is empty, so the balance is not
1000 plus the DEPOSIT amounts minus the WITHDRAW amounts of the history (both sums
are 0).
(2) In the arithmetic of doubles, an account created with the initial balance 0.1 holds
0.6000000000000001 after `deposit(0.2)` and `deposit(0.3)`, both of which return and
push their DEPOSIT record. That is not 0.1 plus the sum of 0.2 and 0.3: the exact sum
of the three doubles is no double, and the sum taken in the arithmetic of doubles,
`0.1 + (0.2 + 0.3)`, is 0.6. -/
theorem ledger_sum_counterexample :
    (IndividualAccount.new (.string "145xs6s51s51x5ssx1") (.number (.finite 1000))
        = .ok (demoHeap 0) ∧
      getBalance demoHeap 0 = .finite 1000 ∧
      (deposit roundDouble demoHeap 0 .nan).error = some .ValidationError ∧
      getBalance (runCalls roundDouble demoHeap [.deposit 0 .nan]) 0 = .nan ∧
      transactionsGet (runCalls roundDouble demoHeap [.deposit 0 .nan]) 0 = [] ∧
      getBalance (runCalls roundDouble demoHeap [.deposit 0 .nan]) 0
        ≠ .finite (1000
            + sumOfType "DEPOSIT"
                (transactionsGet (runCalls roundDouble demoHeap [.deposit 0 .nan]) 0)
            - sumOfType "WITHDRAW"
                (transactionsGet (runCalls roundDouble demoHeap [.deposit 0 .nan]) 0))) ∧
    (IndividualAccount.new (.string "145xs6s51s51x5ssx1") (.number (.finite tenth))
        = .ok (tenthHeap 0) ∧
      (deposit roundDouble tenthHeap 0 (.finite fifth)).error = none ∧
      (deposit roundDouble (deposit roundDouble tenthHeap 0 (.finite fifth)).heap 0
        (.finite threeTenths)).error = none ∧
      getBalance
          (runCalls roundDouble tenthHeap
            [.deposit 0 (.finite fifth), .deposit 0 (.finite threeTenths)]) 0
        = .finite (1351079888211149 / 2251799813685248) ∧
      (transactionsGet
          (runCalls roundDouble tenthHeap
            [.deposit 0 (.finite fifth), .deposit 0 (.finite threeTenths)]) 0).map
          (fun tx => (tx.transactionType, tx.amount))
        = [("DEPOSIT", .finite fifth), ("DEPOSIT", .finite threeTenths)] ∧
      getBalance
          (runCalls roundDouble tenthHeap
            [.deposit 0 (.finite fifth), .deposit 0 (.finite threeTenths)]) 0
        ≠ .finite (tenth
            + sumOfType "DEPOSIT"
                (transactionsGet
                  (runCalls roundDouble tenthHeap
                    [.deposit 0 (.finite fifth), .deposit 0 (.finite threeTenths)]) 0)
            - sumOfType "WITHDRAW"
                (transactionsGet
                  (runCalls roundDouble tenthHeap
                    [.deposit 0 (.finite fifth), .deposit 0 (.finite threeTenths)]) 0)) ∧
      JSNumber.add roundDouble (.finite tenth)
          (JSNumber.add roundDouble (.finite fifth) (.finite threeTenths))
        = .finite (5404319552844595 / 9007199254740992) ∧
      getBalance
          (runCalls roundDouble tenthHeap
            [.deposit 0 (.finite fifth), .deposit 0 (.finite threeTenths)]) 0
        ≠ JSNumber.add roundDouble (.finite tenth)
            (JSNumber.add roundDouble (.finite fifth) (.finite threeTenths))) := by
  have h5 : JSNumber.gt (.finite fifth) (.finite 0) = true := by
    simp [JSNumber.gt, JSNumber.lt, fifth]
  have h3 : JSNumber.gt (.finite threeTenths) (.finite 0) = true := by
    simp [JSNumber.gt, JSNumber.lt, threeTenths]
  have hsum : JSNumber.add roundDouble (.finite tenth)
      (JSNumber.add roundDouble (.finite fifth) (.finite threeTenths))
        = .finite (5404319552844595 / 9007199254740992) := by
    simp only [JSNumber.add, roundDouble_fifth_threeTenths, roundDouble_tenth_half]
  have hbal : getBalance
      (runCalls roundDouble tenthHeap
        [.deposit 0 (.finite fifth), .deposit 0 (.finite threeTenths)]) 0
        = .finite (1351079888211149 / 2251799813685248) := by
    simp only [runCalls, List.foldl, Call.run, getBalance]
    rw [wide_deposit_of_pos _ _ 0 _ h3, wide_deposit_of_pos _ _ 0 _ h5]
    simp [tenthHeap, JSNumber.add, roundDouble_tenth_fifth, roundDouble_plus_threeTenths]
  have htx : transactionsGet
      (runCalls roundDouble tenthHeap
        [.deposit 0 (.finite fifth), .deposit 0 (.finite threeTenths)]) 0
        = [depositRecord (tenthHeap 0) (.finite fifth),
           depositRecord (tenthHeap 0) (.finite threeTenths)] := by
    simp only [runCalls, List.foldl, Call.run, transactionsGet]
    rw [wide_deposit_of_pos _ _ 0 _ h3, wide_deposit_of_pos _ _ 0 _ h5]
    simp [tenthHeap, depositRecord]
  refine ⟨⟨wide_demo_user1_constructed, ?_, ?_, ?_, ?_, ?_⟩, ?_, ?_, ?_, hbal, ?_, ?_, hsum, ?_⟩
  · simp [getBalance, demoHeap, user1]
  · rw [wide_deposit_nan]
  · simp [runCalls, Call.run, wide_deposit_nan, getBalance]
  · simp [runCalls, Call.run, wide_deposit_nan, transactionsGet, demoHeap, user1]
  · have hb : getBalance (runCalls roundDouble demoHeap [.deposit 0 .nan]) 0 = .nan := by
      simp [runCalls, Call.run, wide_deposit_nan, getBalance]
    rw [hb]
    exact fun e => nomatch e
  · simp [IndividualAccount.new, BankAccount.new, validateAccountNumber,
      show utf16Length "145xs6s51s51x5ssx1" = 18 by decide, JSNumber.lt, tenthHeap, tenth]
    norm_num
  · rw [wide_deposit_of_pos _ _ 0 _ h5]
  · rw [wide_deposit_of_pos _ _ 0 _ h3]
  · rw [htx]; simp [depositRecord]
  · rw [hbal, htx]
    simp [sumOfType, depositRecord, JSNumber.toRat]
    norm_num [tenth, fifth, threeTenths]
  · rw [hbal, hsum]
    intro e
    injection e with e
    norm_num at e

/-- C21, amended. (1) Take any store and any account in it that its constructor
returned with the initial balance `b0`. After any finite sequence of `deposit`,
`withdraw` and `transferFunds` calls whose amounts are not `NaN`, made on any accounts
(this one as source or as target, or neither), returning or throwing, whatever the
rounding of the arithmetic, the balance of the account is what its history accounts
for: starting from `b0` and going through the history in order, each DEPOSIT record
adds its amount and each WITHDRAW record subtracts its amount. (2) When `b0` and the
amounts are finite and the arithmetic is exact, that is `b0` plus the sum of the
amounts of the DEPOSIT records minus the sum of the amounts of the WITHDRAW records.
(3) A transfer that returns appends two records for each side: for the source WITHDRAW
then the transfer-out record (type TRANSFER), for the target DEPOSIT then TRANSFER_IN.
With distinct accounts these are the two records appended to each history; when source
and target are one account, its history takes the four of them, in the order WITHDRAW,
DEPOSIT, TRANSFER, TRANSFER_IN. -/
theorem ledger_replays_history :
    (∀ (fl : ℚ → JSNumber) (h : Heap) (r : Nat) (accountNumber : JSValue)
        (initialBalance : Value) (calls : List Call),
      IndividualAccount.new accountNumber initialBalance = .ok (h r) →
      (∀ c ∈ calls, c.amount ≠ .nan) →
      (if initialBalance = .undefined then Value.number (.finite 0) else initialBalance)
        = .number (getBalance h r) ∧
      getBalance (runCalls fl h calls) r
        = replay fl (getBalance h r) (transactionsGet (runCalls fl h calls) r)) ∧
    (∀ (h : Heap) (r : Nat) (accountNumber : JSValue) (initialBalance : Value)
        (calls : List Call),
      IndividualAccount.new accountNumber initialBalance = .ok (h r) →
      (getBalance h r).isFinite = true →
      (∀ c ∈ calls, c.amount.isFinite = true) →
      getBalance (runCalls JSNumber.finite h calls) r
        = .finite ((getBalance h r).toRat
            + sumOfType "DEPOSIT" (transactionsGet (runCalls JSNumber.finite h calls) r)
            - sumOfType "WITHDRAW" (transactionsGet (runCalls JSNumber.finite h calls) r))) ∧
    (∀ (fl : ℚ → JSNumber) (h : Heap) (A B : Nat) (a : JSNumber),
      (transferFunds fl h A (.account B) a).error = none →
      (∃ newA newB : List Transaction,
        transactionsGet (transferFunds fl h A (.account B) a).heap A
          = transactionsGet h A ++ newA ∧
        transactionsGet (transferFunds fl h A (.account B) a).heap B
          = transactionsGet h B ++ newB ∧
        newA.filter (fun tx => tx.transactionType = "WITHDRAW" ∨ tx.transactionType = "TRANSFER")
          = [withdrawRecord (h A) a, transferOutRecord (h A) (h B) a] ∧
        newB.filter (fun tx => tx.transactionType = "DEPOSIT" ∨ tx.transactionType = "TRANSFER_IN")
          = [depositRecord (h B) a, transferInRecord (h A) (h B) a]) ∧
      (A ≠ B →
        transactionsGet (transferFunds fl h A (.account B) a).heap A
          = transactionsGet h A ++ [withdrawRecord (h A) a, transferOutRecord (h A) (h B) a] ∧
        transactionsGet (transferFunds fl h A (.account B) a).heap B
          = transactionsGet h B ++ [depositRecord (h B) a, transferInRecord (h A) (h B) a]) ∧
      (A = B →
        transactionsGet (transferFunds fl h A (.account B) a).heap A
          = transactionsGet h A ++
            [withdrawRecord (h A) a, depositRecord (h A) a,
             transferOutRecord (h A) (h A) a, transferInRecord (h A) (h A) a])) := by
  have replays : ∀ (fl : ℚ → JSNumber) (h : Heap) (r : Nat) (calls : List Call),
      (h r).transactions = [] → (∀ c ∈ calls, c.amount ≠ .nan) →
      (runCalls fl h calls r).balance
        = replay fl (h r).balance (runCalls fl h calls r).transactions ∧
      ∀ tx ∈ (runCalls fl h calls r).transactions, ∃ c ∈ calls, tx.amount = c.amount := by
    intro fl h r calls hempty hx
    obtain ⟨new, ht, hb, ha⟩ := wide_runCalls_ledger fl calls h r hx
    rw [hempty, List.nil_append] at ht
    rw [ht]
    exact ⟨hb, ha⟩
  refine ⟨?_, ?_, ?_⟩
  · intro fl h r n b calls hnew hx
    obtain ⟨hempty, hb0, _⟩ := wide_IndividualAccount_new_ok n b (h r) hnew
    exact ⟨hb0, (replays fl h r calls hempty hx).1⟩
  · intro h r n b calls hnew hfin hc
    obtain ⟨hempty, _, _⟩ := wide_IndividualAccount_new_ok n b (h r) hnew
    have hx : ∀ c ∈ calls, c.amount ≠ .nan := by
      intro c hcm e
      have := hc c hcm
      rw [e] at this
      cases this
    obtain ⟨hb, ha⟩ := replays JSNumber.finite h r calls hempty hx
    obtain ⟨b0, hb0⟩ : ∃ b0, (h r).balance = .finite b0 := by
      have hfin2 : (h r).balance.isFinite = true := hfin
      cases hbal : (h r).balance with
      | finite q => exact ⟨q, rfl⟩
      | nan => rw [hbal] at hfin2; cases hfin2
      | posInf => rw [hbal] at hfin2; cases hfin2
      | negInf => rw [hbal] at hfin2; cases hfin2
    simp only [getBalance, transactionsGet]
    rw [hb, hb0, replay_exact _ b0]
    · rfl
    · intro tx htx
      obtain ⟨c, hcm, e⟩ := ha tx htx
      rw [e]
      exact hc c hcm
  · intro fl h A B a hok
    have hnan : a ≠ .nan := by
      intro e
      subst e
      rw [wide_transferFunds_nan] at hok
      cases hok
    have hpos : JSNumber.gt a (.finite 0) = true := by
      rcases JSNumber_le_or_gt a hnan with hle | hgt
      · rw [wide_transferFunds_of_nonpos fl h A B a hle] at hok
        cases hok
      · exact hgt
    have hlt : JSNumber.lt (h A).balance a = false := by
      cases hc : JSNumber.lt (h A).balance a with
      | false => rfl
      | true =>
        rw [wide_transferFunds_of_insufficient fl h A B a hpos hc] at hok
        cases hok
    have hne : A ≠ B →
        transactionsGet (transferFunds fl h A (.account B) a).heap A
          = transactionsGet h A ++ [withdrawRecord (h A) a, transferOutRecord (h A) (h B) a] ∧
        transactionsGet (transferFunds fl h A (.account B) a).heap B
          = transactionsGet h B ++ [depositRecord (h B) a, transferInRecord (h A) (h B) a] := by
      intro hAB
      rw [wide_transferFunds_of_covered_ne fl h A B a hpos hlt (fun e => hAB e.symm)]
      simp [transactionsGet, Function.update_apply, hAB]
    have heq : A = B →
        transactionsGet (transferFunds fl h A (.account B) a).heap A
          = transactionsGet h A ++
            [withdrawRecord (h A) a, depositRecord (h A) a,
             transferOutRecord (h A) (h A) a, transferInRecord (h A) (h A) a] := by
      intro hAB
      subst hAB
      rw [wide_transferFunds_of_covered_self fl h A a hpos hlt]
      simp [transactionsGet]
    refine ⟨?_, hne, heq⟩
    by_cases hAB : A = B
    · have h4 := heq hAB
      subst hAB
      exact ⟨_, _, h4, h4,
        by simp [withdrawRecord, depositRecord, transferOutRecord, transferInRecord],
        by simp [withdrawRecord, depositRecord, transferOutRecord, transferInRecord]⟩
    · exact ⟨_, _, (hne hAB).1, (hne hAB).2,
        by simp [withdrawRecord, transferOutRecord],
        by simp [depositRecord, transferInRecord]⟩

/-- Witness for C21, amended: after the transfer of the demo and a deposit of 25, in
exact arithmetic, `user1` (created with 1000) holds 925 = 1000 + 25 - 100, with
DEPOSIT records summing to 25 and WITHDRAW records summing to 100. -/
theorem ledger_replays_history_witness :
    getBalance
        (runCalls JSNumber.finite demoHeap
          [.transferFunds 0 (.account 1) (.finite 100), .deposit 0 (.finite 25)]) 0
      = .finite ((getBalance demoHeap 0).toRat
          + sumOfType "DEPOSIT"
              (transactionsGet
                (runCalls JSNumber.finite demoHeap
                  [.transferFunds 0 (.account 1) (.finite 100), .deposit 0 (.finite 25)]) 0)
          - sumOfType "WITHDRAW"
              (transactionsGet
                (runCalls JSNumber.finite demoHeap
                  [.transferFunds 0 (.account 1) (.finite 100), .deposit 0 (.finite 25)]) 0)) ∧
    getBalance
        (runCalls JSNumber.finite demoHeap
          [.transferFunds 0 (.account 1) (.finite 100), .deposit 0 (.finite 25)]) 0
      = .finite 925 ∧
    (transactionsGet
      (runCalls JSNumber.finite demoHeap
        [.transferFunds 0 (.account 1) (.finite 100), .deposit 0 (.finite 25)]) 0).map
        (fun tx => (tx.transactionType, tx.amount))
      = [("WITHDRAW", .finite 100), ("TRANSFER", .finite 100), ("DEPOSIT", .finite 25)] := by
  have w := ledger_replays_history.2.1 demoHeap 0 (.string "145xs6s51s51x5ssx1")
    (.number (.finite 1000))
    [.transferFunds 0 (.account 1) (.finite 100), .deposit 0 (.finite 25)]
    wide_demo_user1_constructed rfl
    (by intro c hc; simp at hc; rcases hc with e | e <;> subst e <;> rfl)
  have h100 : JSNumber.gt (.finite 100) (.finite 0) = true := by
    simp [JSNumber.gt, JSNumber.lt]
  have h25 : JSNumber.gt (.finite 25) (.finite 0) = true := by
    simp [JSNumber.gt, JSNumber.lt]
  have hlt : JSNumber.lt (demoHeap 0).balance (.finite 100) = false := by
    simp [demoHeap, user1, JSNumber.lt]
    norm_num
  refine ⟨w, ?_, ?_⟩
  · simp only [runCalls, List.foldl, Call.run, getBalance]
    rw [wide_transferFunds_of_covered_ne _ demoHeap 0 1 _ h100 hlt (by decide),
      wide_deposit_of_pos _ _ 0 _ h25]
    simp [Function.update_apply, demoHeap, user1, JSNumber.add, JSNumber.sub, JSNumber.neg]
    norm_num
  · simp only [runCalls, List.foldl, Call.run, transactionsGet]
    rw [wide_transferFunds_of_covered_ne _ demoHeap 0 1 _ h100 hlt (by decide),
      wide_deposit_of_pos _ _ 0 _ h25]
    simp [Function.update_apply, demoHeap, user1, withdrawRecord, transferOutRecord,
      depositRecord]

end Wide
end Bank
